import Mathlib

/-!
# JavaScriptCore sampling profiler: embedding of `SamplingProfiler.cpp`

Pointers (`ExecState*`, `CodeBlock*`, `InlineCallFrame*`, `ExecutableBase*`,
`MachineThreads::Thread*`) and `EncodedJSValue`s are natural numbers, `0` being
`nullptr`.  The memory a pointer designates is read through the lookup functions
of `VM`.  Stopwatch readings, `m_totalTime`, `m_lastTime` and trace timestamps are
`double`s: IEEE 754 binary64 values, whose sum and difference are the exact result
rounded to the nearest double, ties to even.
Every public method of the profiler runs under `m_lock`, so the methods are
modelled as atomic state transformers.  The statistics counters are dead code
(`sReportStats` is the constant `false`) and are left out.  Container sizes are
taken to be far below the range of `unsigned` and of exactly representable
`double`s, so index arithmetic does not wrap and `size * 1.25`, converted back to
`size_t`, is `size * 5 / 4`.

A failed `RELEASE_ASSERT` and the exhaustion of the iteration bound that the
embedding puts on the two loops of `FrameWalker::walk` are separate outcomes of
`Result`; every definition is executable.
-/

namespace JSC

/-- Outcome of running a piece of the program: a normal return, a failed
`RELEASE_ASSERT` (the process crashes), or exhaustion of the loop bound the
embedding puts on a `while` loop. -/
inductive Result (α : Type) where
  | ok (a : α)
  | releaseAssert
  | outOfFuel
deriving DecidableEq

/-- The enum `SamplingProfiler::FrameType`. -/
inductive FrameType where
  | VerifiedExecutable
  | UnverifiedCallee
  | Host
  | Unknown
deriving DecidableEq

/-- The struct `SamplingProfiler::StackFrame`: a tag and the union `u`, which holds
either `u.verifiedExecutable` (an `ExecutableBase*`) or `u.unverifiedCallee` (an
`EncodedJSValue`). -/
structure StackFrame where
  frameType : FrameType
  u : Nat
deriving DecidableEq

/-- The default constructor `StackFrame()`: `Unknown` with a null executable. -/
def StackFrame.default : StackFrame := ⟨FrameType.Unknown, 0⟩

/-- A `double`, the type of the stopwatch readings, of `m_totalTime`, of `m_lastTime`
and of the timestamp of a trace: an IEEE 754 binary64 value.  The NaNs are one value; a
finite value has its sign bit, its biased exponent field (0 for the zeros and the
subnormal values, at most 2046) and its 52-bit fraction field. -/
inductive Double where
  | nan
  | inf (negative : Bool)
  | finite (negative : Bool) (exponent fraction : Nat)
deriving DecidableEq

/-- One step of the search for the highest binary digit: a number `p.1` with a digit
at the position `s` or above is shifted right by `s` places, and `s` is added to the
count `p.2`. -/
def Double.bitStep (s : Nat) (p : Nat × Nat) : Nat × Nat :=
  if p.1 >>> s = 0 then p else (p.1 >>> s, p.2 + s)

/-- The number of binary digits of `n`, for `n` below `2 ^ 4096`: the steps are taken
from the widest one, 2048, down to 1. -/
def Double.bitLength (n : Nat) : Nat :=
  if n = 0 then 0
  else ([1, 2, 4, 8, 16, 32, 64, 128, 256, 512, 1024, 2048].foldr Double.bitStep (n, 0)).2 + 1

/-- The double nearest to `m * 2 ^ k * 2 ^ (-1074)` with the given sign, ties going to
the even significand (the default rounding mode); values too large become infinite.
A significand of more than 53 digits is cut to its 53 leading digits `q`, and the
digits `r` cut off are compared with half a unit of the last place kept. -/
def Double.round (negative : Bool) (m k : Nat) : Double :=
  if m >>> 2100 ≠ 0 then Double.inf negative
  else
    let len := Double.bitLength m
    let qs : Nat × Nat :=
      if len ≤ 53 then
        if 53 - len ≤ k then (m <<< (53 - len), k - (53 - len)) else (m <<< k, 0)
      else
        let d := len - 53
        let q := m >>> d
        let r := m - (q <<< d)
        let half := 1 <<< (d - 1)
        let q1 := if half < r ∨ (r = half ∧ q % 2 = 1) then q + 1 else q
        if q1 = 2 ^ 53 then (2 ^ 52, k + d + 1) else (q1, k + d)
    if qs.1 < 2 ^ 52 then Double.finite negative 0 qs.1
    else if 2046 ≤ qs.2 then Double.inf negative
    else Double.finite negative (qs.2 + 1) (qs.1 - 2 ^ 52)

/-- The significand of a finite double with the fields `exponent` and `fraction`: the
value is `significand * 2 ^ (exponent - 1) * 2 ^ (-1074)`, the difference `exponent - 1`
being 0 for the subnormal values. -/
def Double.significand (exponent fraction : Nat) : Nat :=
  if exponent = 0 then fraction else 2 ^ 52 + fraction

/-- The sum of two doubles: the exact sum, rounded.  Two finite doubles are brought to
the smaller of their two exponents, a zero counting as having the exponent of the
other; an exact zero sum of opposite signs is `+0`. -/
def Double.add : Double → Double → Double
  | Double.nan, _ => Double.nan
  | _, Double.nan => Double.nan
  | Double.inf a, Double.inf b => if a = b then Double.inf a else Double.nan
  | Double.inf a, Double.finite _ _ _ => Double.inf a
  | Double.finite _ _ _, Double.inf b => Double.inf b
  | Double.finite a e f, Double.finite b e1 f1 =>
    let s := Double.significand e f
    let s1 := Double.significand e1 f1
    let k := if s = 0 then e1 - 1 else if s1 = 0 then e - 1 else min (e - 1) (e1 - 1)
    let x := s <<< (e - 1 - k)
    let y := s1 <<< (e1 - 1 - k)
    if a = b then Double.round a (x + y) k
    else if x = y then Double.finite false 0 0
    else if y < x then Double.round a (x - y) k
    else Double.round b (y - x) k

/-- The double with the opposite sign. -/
def Double.neg : Double → Double
  | Double.nan => Double.nan
  | Double.inf a => Double.inf (!a)
  | Double.finite a e f => Double.finite (!a) e f

/-- The difference of two doubles. -/
def Double.sub (x y : Double) : Double :=
  Double.add x (Double.neg y)

/-- The double nearest to the natural number `n`. -/
def Double.ofNat (n : Nat) : Double :=
  Double.round false n 1074

instance : Add Double := ⟨Double.add⟩

instance : Sub Double := ⟨Double.sub⟩

instance (n : Nat) : OfNat Double n := ⟨Double.ofNat n⟩

/-- The struct `SamplingProfiler::StackTrace`, in the field order of the aggregate
initialiser `StackTrace{ stacktraceNeedsVerification, nowTime, frames }`. -/
structure StackTrace where
  needsVerification : Bool
  timestamp : Double
  frames : List StackFrame
deriving DecidableEq

/-- A `MachineThreads::Thread` of the thread list.  A registered thread has non-null
stack bounds; `isValidFramePointer` re-checks this with two `RELEASE_ASSERT`s, which
these two fields discharge. -/
structure Thread where
  stackBase : Nat
  stackEnd : Nat
  stackBase_ne : stackBase ≠ 0
  stackEnd_ne : stackEnd ≠ 0

/-- What the walker reads of a `CodeBlock`. -/
structure CodeBlock where
  ownerExecutable : Nat
  hasCodeOrigins : Bool
  canGetCodeOrigin : Nat → Bool
  /-- The value of `codeOrigin(index).inlineCallFrame`. -/
  codeOriginInlineCallFrame : Nat → Nat

/-- What the walker reads of a call frame (`ExecState`). -/
structure ExecState where
  codeBlock : Nat
  /-- The value of `JSValue::encode(unsafeCallee())`. -/
  unsafeCallee : Nat
  /-- The value of `callerFrame(m_vmEntryFrame)`. -/
  callerFrame : Nat
  callSiteIndex : Nat

/-- What the walker reads of an `InlineCallFrame`. -/
structure InlineCallFrame where
  baselineCodeBlock : Nat
  /-- The value of `directCaller.inlineCallFrame`. -/
  directCaller : Nat

/-- The part of the `VM` (with its heap and executable allocator) that a sampler
callback reads while the execution thread is suspended.  `dfgJIT` is the build flag
`ENABLE(DFG_JIT)`. -/
structure VM where
  dfgJIT : Bool
  machineThreads : List Thread
  codeBlockSet : List Nat
  execStates : Nat → ExecState
  codeBlocks : Nat → CodeBlock
  inlineCallFrames : Nat → InlineCallFrame
  entryScope : Bool
  topCallFrame : Nat
  isExecutingInRegExpJIT : Bool
  isValidExecutableMemory : Nat → Bool
  isLLIntPC : Nat → Bool

/-- The mutable fields of `FrameWalker`. -/
structure FrameWalker where
  m_callFrame : Nat
  m_bailingOut : Bool
  m_inlineCallFrame : Nat
  m_depth : Nat
deriving DecidableEq

/-- The constructor `FrameWalker(callFrame, vm, ...)`; `m_inlineCallFrame` has no
initialiser in the source and is assigned by `resetAtMachineFrame` before any read. -/
def FrameWalker.mk0 (callFrame : Nat) : FrameWalker :=
  { m_callFrame := callFrame, m_bailingOut := false, m_inlineCallFrame := 0, m_depth := 0 }

/-- `FrameWalker::isValidFramePointer`. -/
def isValidFramePointer (vm : VM) (exec : Nat) : Bool :=
  vm.machineThreads.any fun thread =>
    decide (exec ≤ thread.stackBase) && decide (exec ≥ thread.stackEnd)

/-- `FrameWalker::isValidCodeBlock`. -/
def isValidCodeBlock (vm : VM) (codeBlock : Nat) : Bool :=
  if codeBlock = 0 then false else decide (codeBlock ∈ vm.codeBlockSet)

/-- `FrameWalker::isAtTop`. -/
def FrameWalker.isAtTop (w : FrameWalker) : Bool :=
  decide (w.m_callFrame = 0)

/-- `FrameWalker::advanceToParentFrame`. -/
def FrameWalker.advanceToParentFrame (vm : VM) (w : FrameWalker) : FrameWalker :=
  { w with m_callFrame := (vm.execStates w.m_callFrame).callerFrame }

/-- `FrameWalker::resetAtMachineFrame`. -/
def FrameWalker.resetAtMachineFrame (vm : VM) (w : FrameWalker) : FrameWalker :=
  let w1 : FrameWalker := { w with m_inlineCallFrame := 0 }
  if w1.isAtTop then w1
  else if !isValidFramePointer vm w1.m_callFrame then { w1 with m_bailingOut := true }
  else if !vm.dfgJIT then w1
  else
    let codeBlock := (vm.execStates w1.m_callFrame).codeBlock
    if codeBlock = 0 then w1
    else if !isValidCodeBlock vm codeBlock then { w1 with m_bailingOut := true }
    else if !(vm.codeBlocks codeBlock).hasCodeOrigins then w1
    else
      let index := (vm.execStates w1.m_callFrame).callSiteIndex
      if !(vm.codeBlocks codeBlock).canGetCodeOrigin index then w1
      else { w1 with m_inlineCallFrame := (vm.codeBlocks codeBlock).codeOriginInlineCallFrame index }

/-- The walker together with the two by-reference arguments of `walk` that the
loops write: the buffer and `stacktraceNeedsVerification`. -/
structure WalkState where
  w : FrameWalker
  stackTrace : List StackFrame
  stacktraceNeedsVerification : Bool
deriving DecidableEq

/-- The inner loop of `walk`, `while (m_inlineCallFrame && m_depth < maxStackTraceSize)`. -/
def inlineLoop (vm : VM) (maxStackTraceSize : Nat) :
    Nat → FrameWalker → List StackFrame → Result (FrameWalker × List StackFrame)
  | 0, _, _ => Result.outOfFuel
  | fuel + 1, w, stackTrace =>
    if w.m_inlineCallFrame ≠ 0 ∧ w.m_depth < maxStackTraceSize then
      let codeBlock := (vm.inlineCallFrames w.m_inlineCallFrame).baselineCodeBlock
      if isValidCodeBlock vm codeBlock then
        inlineLoop vm maxStackTraceSize fuel
          { w with
            m_depth := w.m_depth + 1
            m_inlineCallFrame := (vm.inlineCallFrames w.m_inlineCallFrame).directCaller }
          (stackTrace.set w.m_depth
            ⟨FrameType.VerifiedExecutable, (vm.codeBlocks codeBlock).ownerExecutable⟩)
      else Result.releaseAssert
    else Result.ok (w, stackTrace)

/-- The outer loop of `walk`,
`while (!isAtTop() && !m_bailingOut && m_depth < maxStackTraceSize)`. -/
def walkLoop (vm : VM) (maxStackTraceSize : Nat) : Nat → WalkState → Result WalkState
  | 0, _ => Result.outOfFuel
  | fuel + 1, s =>
    if !s.w.isAtTop && !s.w.m_bailingOut && decide (s.w.m_depth < maxStackTraceSize) then
      match inlineLoop vm maxStackTraceSize (maxStackTraceSize + 1) s.w s.stackTrace with
      | Result.ok (w1, st1) =>
        if w1.m_depth ≥ maxStackTraceSize then
          Result.ok ⟨w1, st1, s.stacktraceNeedsVerification⟩
        else
          let codeBlock := (vm.execStates w1.m_callFrame).codeBlock
          let w2 : FrameWalker := { w1 with m_depth := w1.m_depth + 1 }
          let w3 := (w2.advanceToParentFrame vm).resetAtMachineFrame vm
          if isValidCodeBlock vm codeBlock then
            walkLoop vm maxStackTraceSize fuel
              ⟨w3, st1.set w1.m_depth
                ⟨FrameType.VerifiedExecutable, (vm.codeBlocks codeBlock).ownerExecutable⟩,
                s.stacktraceNeedsVerification⟩
          else
            walkLoop vm maxStackTraceSize fuel
              ⟨w3, st1.set w1.m_depth
                ⟨FrameType.UnverifiedCallee, (vm.execStates w1.m_callFrame).unsafeCallee⟩,
                true⟩
      | Result.releaseAssert => Result.releaseAssert
      | Result.outOfFuel => Result.outOfFuel
    else Result.ok s

/-- What `walk` leaves behind: the walker, the buffer, the two out-parameters and
the returned depth. -/
structure WalkResult where
  walker : FrameWalker
  stackTrace : List StackFrame
  didRunOutOfSpace : Bool
  stacktraceNeedsVerification : Bool
  size : Nat
deriving DecidableEq

/-- `FrameWalker::walk`.  Both loops are run with a bound of
`maxStackTraceSize + 1` iterations. -/
def FrameWalker.walk (vm : VM) (w : FrameWalker) (stackTrace : List StackFrame) :
    Result WalkResult :=
  let w0 := w.resetAtMachineFrame vm
  let maxStackTraceSize := stackTrace.length
  match walkLoop vm maxStackTraceSize (maxStackTraceSize + 1) ⟨w0, stackTrace, false⟩ with
  | Result.ok s =>
    Result.ok
      { walker := s.w
        stackTrace := s.stackTrace
        didRunOutOfSpace := decide (s.w.m_depth ≥ maxStackTraceSize) && !s.w.isAtTop
        stacktraceNeedsVerification := s.stacktraceNeedsVerification
        size := s.w.m_depth }
  | Result.releaseAssert => Result.releaseAssert
  | Result.outOfFuel => Result.outOfFuel

/-- `FrameWalker::wasValidWalk`, read off the walker that `walk` left behind. -/
def WalkResult.wasValidWalk (r : WalkResult) : Bool :=
  !r.walker.m_bailingOut

/-- Monadic sequencing of `Result`: a crash or an exhausted bound is passed on. -/
def Result.bind {α β : Type} : Result α → (α → Result β) → Result β
  | Result.ok a, f => f a
  | Result.releaseAssert, _ => Result.releaseAssert
  | Result.outOfFuel, _ => Result.outOfFuel

/-- `HashSet<ExecutableBase*>::add`: insertion unless already present. -/
def hashSetAdd (s : List Nat) (x : Nat) : List Nat :=
  if x ∈ s then s else s ++ [x]

/-- `Vector::grow(size)`: the new slots are default-constructed. -/
def vectorGrow (v : List StackFrame) (size : Nat) : List StackFrame :=
  v ++ List.replicate (size - v.length) StackFrame.default

/-- The enum `CallType` returned by `getCallData`. -/
inductive CallType where
  | CallTypeNone
  | CallTypeHost
  | CallTypeJS
deriving DecidableEq

/-- What `displayName` reads of an `ExecutableBase`. -/
structure ExecutableBase where
  isHostFunction : Bool
  isFunctionExecutable : Bool
  /-- The value of `inferredName().string()` of a `FunctionExecutable`. -/
  inferredName : String
  isEvalExecutable : Bool
  isProgramExecutable : Bool
  isModuleProgramExecutable : Bool

/-- What the verifier and the reporter read of the heap, as functions of the
(decoded) value or cell pointer: `Heap::isValueGCObject`, whether
`calleeCell->type()` is `JSFunctionType`, `getCallData`, `JSFunction::executable`,
`Heap::isPointerGCObject`, and the executable objects themselves. -/
structure Heap where
  isValueGCObject : Nat → Bool
  isJSFunctionType : Nat → Bool
  getCallData : Nat → CallType
  executable : Nat → Nat
  isPointerGCObject : Nat → Bool
  executables : Nat → ExecutableBase

/-- The fields of `SamplingProfiler`.  `m_timerQueue` is the number of handlers
dispatched to the work queue that have not run yet; `m_refCount` is the count kept
by `ref()` and `deref()`. -/
structure SamplingProfiler where
  m_stackTraces : List StackTrace
  m_seenExecutables : List Nat
  m_indexOfNextStackTraceToVerify : Nat
  m_currentFrames : List StackFrame
  m_totalTime : Double
  m_lastTime : Double
  m_jscExecutionThread : Nat
  m_isActive : Bool
  m_isPaused : Bool
  m_hasDispatchedFunction : Bool
  m_timerQueue : Nat
  m_refCount : Nat
deriving DecidableEq

/-- The constructor of `SamplingProfiler`; `m_lastTime` has no initialiser. -/
def SamplingProfiler.init (lastTime : Double) : SamplingProfiler :=
  { m_stackTraces := []
    m_seenExecutables := []
    m_indexOfNextStackTraceToVerify := 0
    m_currentFrames := vectorGrow [] 256
    m_totalTime := 0
    m_lastTime := lastTime
    m_jscExecutionThread := 0
    m_isActive := false
    m_isPaused := false
    m_hasDispatchedFunction := false
    m_timerQueue := 0
    m_refCount := 1 }

/-- What one run of `m_handler` observes of its surroundings: the VM, the three
successive readings of `m_stopwatch->elapsedTime()`, the result of `suspend()` and
the two registers read from the suspended thread. -/
structure SampleEnv where
  vm : VM
  elapsedTime1 : Double
  elapsedTime2 : Double
  elapsedTime3 : Double
  didSuspend : Bool
  framePointer : Nat
  instructionPointer : Nat

/-- The externally visible actions of `m_handler`, in program order. -/
inductive Event where
  | lockMachineThreads
  | lockCodeBlockSet
  | lockExecutableAllocator
  | suspend (didSuspend : Bool)
  | getRegisters
  | freeRegisters
  | walk
  | resume
  | appendStackTrace
  | growCurrentFrames
  | dispatchAfter
  | deref
deriving DecidableEq

/-- `SamplingProfiler::dispatchFunction`. -/
def dispatchFunction (elapsedTime : Double) (p : SamplingProfiler) : SamplingProfiler :=
  { p with
    m_hasDispatchedFunction := true
    m_isPaused := false
    m_lastTime := elapsedTime
    m_timerQueue := p.m_timerQueue + 1 }

/-- `SamplingProfiler::dispatchIfNecessary`. -/
def dispatchIfNecessary (entryScope : Bool) (elapsedTime : Double) (p : SamplingProfiler) :
    SamplingProfiler :=
  if p.m_isActive && !p.m_hasDispatchedFunction && decide (p.m_jscExecutionThread ≠ 0)
      && entryScope then
    dispatchFunction elapsedTime { p with m_refCount := p.m_refCount + 1 }
  else p

/-- The triage of the instruction pointer in `m_handler` that picks the frame
pointer handed to the walker. -/
def chooseCallFrame (env : SampleEnv) : Nat :=
  if env.vm.isValidExecutableMemory env.instructionPointer then
    if env.vm.isExecutingInRegExpJIT then env.vm.topCallFrame else env.framePointer
  else if env.vm.isLLIntPC env.instructionPointer then env.framePointer
  else env.vm.topCallFrame

/-- The effect on `m_seenExecutables` of the loop of `m_handler` that copies the
walked frames into a fresh vector. -/
def addSeenExecutables (frames : List StackFrame) (seen : List Nat) : List Nat :=
  frames.foldl
    (fun s frame =>
      if frame.frameType = FrameType.VerifiedExecutable then hashSetAdd s frame.u else s)
    seen

/-- The part of `m_handler` that follows `resume()`: keep the walk if it was valid
and non-empty, then grow the buffer if the walk ran out of space.  The walk has
already written into `m_currentFrames`. -/
def recordWalk (nowTime : Double) (r : WalkResult) (p : SamplingProfiler) :
    SamplingProfiler × List Event :=
  let p1 : SamplingProfiler := { p with m_currentFrames := r.stackTrace }
  if r.wasValidWalk && decide (r.size ≠ 0) then
    let stackTrace := p1.m_currentFrames.take r.size
    let p2 : SamplingProfiler :=
      { p1 with
        m_seenExecutables := addSeenExecutables stackTrace p1.m_seenExecutables
        m_stackTraces :=
          p1.m_stackTraces ++ [⟨r.stacktraceNeedsVerification, nowTime, stackTrace⟩] }
    if r.didRunOutOfSpace then
      ({ p2 with
          m_currentFrames := vectorGrow p2.m_currentFrames (p2.m_currentFrames.length * 5 / 4)
          m_totalTime := p2.m_totalTime + (nowTime - p2.m_lastTime) },
        [Event.appendStackTrace, Event.growCurrentFrames])
    else
      ({ p2 with m_totalTime := p2.m_totalTime + (nowTime - p2.m_lastTime) },
        [Event.appendStackTrace])
  else (p1, [])

/-- The block of `m_handler` guarded by `if (m_vm.entryScope)`. -/
def sample (env : SampleEnv) (p : SamplingProfiler) : Result (SamplingProfiler × List Event) :=
  if env.vm.entryScope then
    let nowTime := env.elapsedTime1
    let locks := [Event.lockMachineThreads, Event.lockCodeBlockSet, Event.lockExecutableAllocator]
    if env.didSuspend then
      match (FrameWalker.mk0 (chooseCallFrame env)).walk env.vm p.m_currentFrames with
      | Result.ok r =>
        let q := recordWalk nowTime r p
        Result.ok (q.1,
          locks ++ [Event.suspend true, Event.getRegisters, Event.freeRegisters, Event.walk,
            Event.resume] ++ q.2)
      | Result.releaseAssert => Result.releaseAssert
      | Result.outOfFuel => Result.outOfFuel
    else Result.ok (p, locks ++ [Event.suspend false])
  else Result.ok (p, [])

/-- The lambda `m_handler`, the body of a sampler callback. -/
def m_handler (env : SampleEnv) (p : SamplingProfiler) :
    Result (SamplingProfiler × List Event) :=
  if !p.m_isActive || decide (p.m_jscExecutionThread = 0) || p.m_isPaused then
    Result.ok
      ({ p with m_hasDispatchedFunction := false, m_refCount := p.m_refCount - 1 },
        [Event.deref])
  else
    match sample env p with
    | Result.ok (p1, events) =>
      Result.ok
        (dispatchFunction env.elapsedTime3 { p1 with m_lastTime := env.elapsedTime2 },
          events ++ [Event.dispatchAfter])
    | Result.releaseAssert => Result.releaseAssert
    | Result.outOfFuel => Result.outOfFuel

/-- The lambda `frameTypeFromCallData` of `processUnverifiedStackTraces`. -/
def frameTypeFromCallData (heap : Heap) (calleeCell : Nat) : FrameType :=
  if heap.getCallData calleeCell = CallType.CallTypeHost then FrameType.Host
  else FrameType.Unknown

/-- The body of the loop over the frames of a trace in
`processUnverifiedStackTraces`, threading `m_seenExecutables`. -/
def verifyFrame (heap : Heap) (stackFrame : StackFrame) (seen : List Nat) :
    Result (StackFrame × List Nat) :=
  if stackFrame.frameType ≠ FrameType.UnverifiedCallee then
    if stackFrame.frameType = FrameType.VerifiedExecutable then Result.ok (stackFrame, seen)
    else Result.releaseAssert
  else
    let callee := stackFrame.u
    if !heap.isValueGCObject callee then
      Result.ok ({ stackFrame with frameType := FrameType.Unknown }, seen)
    else
      let calleeCell := callee
      if !heap.isJSFunctionType calleeCell then
        Result.ok ({ stackFrame with frameType := frameTypeFromCallData heap calleeCell }, seen)
      else
        let executable := heap.executable calleeCell
        if executable = 0 then
          Result.ok ({ stackFrame with frameType := frameTypeFromCallData heap calleeCell }, seen)
        else if heap.isPointerGCObject executable then
          Result.ok (⟨FrameType.VerifiedExecutable, executable⟩, hashSetAdd seen executable)
        else Result.releaseAssert

/-- The loop `for (StackFrame& stackFrame : stackTrace.frames)`. -/
def verifyFrames (heap : Heap) : List StackFrame → List Nat → Result (List StackFrame × List Nat)
  | [], seen => Result.ok ([], seen)
  | stackFrame :: rest, seen =>
    (verifyFrame heap stackFrame seen).bind fun r1 =>
      (verifyFrames heap rest r1.2).bind fun r2 => Result.ok (r1.1 :: r2.1, r2.2)

/-- The body of the loop over the traces in `processUnverifiedStackTraces`. -/
def verifyTrace (heap : Heap) (stackTrace : StackTrace) (seen : List Nat) :
    Result (StackTrace × List Nat) :=
  if !stackTrace.needsVerification then Result.ok (stackTrace, seen)
  else
    (verifyFrames heap stackTrace.frames seen).bind fun r =>
      Result.ok ({ stackTrace with needsVerification := false, frames := r.1 }, r.2)

/-- The loop over the traces from `m_indexOfNextStackTraceToVerify` on. -/
def verifyTraces (heap : Heap) : List StackTrace → List Nat → Result (List StackTrace × List Nat)
  | [], seen => Result.ok ([], seen)
  | stackTrace :: rest, seen =>
    (verifyTrace heap stackTrace seen).bind fun r1 =>
      (verifyTraces heap rest r1.2).bind fun r2 => Result.ok (r1.1 :: r2.1, r2.2)

/-- `SamplingProfiler::processUnverifiedStackTraces`, called with `m_lock` held. -/
def processUnverifiedStackTraces (heap : Heap) (p : SamplingProfiler) :
    Result SamplingProfiler :=
  let i := p.m_indexOfNextStackTraceToVerify
  (verifyTraces heap (p.m_stackTraces.drop i) p.m_seenExecutables).bind fun r =>
    Result.ok
      { p with
        m_stackTraces := p.m_stackTraces.take i ++ r.1
        m_seenExecutables := r.2
        m_indexOfNextStackTraceToVerify := (p.m_stackTraces.take i ++ r.1).length }

/-- `SamplingProfiler::visit`: the pointers handed to
`appendUnbarrieredReadOnlyPointer`. -/
def visit (p : SamplingProfiler) : List Nat :=
  p.m_seenExecutables

/-- `SamplingProfiler::start`. -/
def start (entryScope : Bool) (elapsedTime : Double) (p : SamplingProfiler) : SamplingProfiler :=
  dispatchIfNecessary entryScope elapsedTime { p with m_isActive := true }

/-- `SamplingProfiler::stop`. -/
def stop (p : SamplingProfiler) : SamplingProfiler :=
  { p with m_isActive := false }

/-- `SamplingProfiler::shutdown`. -/
def shutdown (p : SamplingProfiler) : SamplingProfiler :=
  stop p

/-- `SamplingProfiler::pause`. -/
def pause (p : SamplingProfiler) : SamplingProfiler :=
  { p with m_isPaused := true }

/-- `SamplingProfiler::noticeCurrentThreadAsJSCExecutionThread`; `thread` is the
value of `machineThreadForCurrentThread()`. -/
def noticeCurrentThreadAsJSCExecutionThread (thread : Nat) (p : SamplingProfiler) :
    SamplingProfiler :=
  { p with m_jscExecutionThread := thread }

/-- `SamplingProfiler::noticeJSLockAcquisition`. -/
def noticeJSLockAcquisition (thread : Nat) (p : SamplingProfiler) : SamplingProfiler :=
  noticeCurrentThreadAsJSCExecutionThread thread p

/-- `SamplingProfiler::noticeVMEntry`, with the two stopwatch readings it takes. -/
def noticeVMEntry (thread : Nat) (entryScope : Bool) (elapsedTime1 elapsedTime2 : Double)
    (p : SamplingProfiler) : SamplingProfiler :=
  dispatchIfNecessary entryScope elapsedTime2
    { noticeCurrentThreadAsJSCExecutionThread thread p with m_lastTime := elapsedTime1 }

/-- `SamplingProfiler::clearData`. -/
def clearData (p : SamplingProfiler) : SamplingProfiler :=
  { p with m_stackTraces := [], m_seenExecutables := [], m_indexOfNextStackTraceToVerify := 0 }

/-- The static function `displayName`. -/
def displayName (heap : Heap) (stackFrame : StackFrame) : Result String :=
  if stackFrame.frameType = FrameType.Unknown then Result.ok "<unknown>"
  else if stackFrame.frameType = FrameType.Host then Result.ok "<host>"
  else if stackFrame.frameType = FrameType.UnverifiedCallee then Result.releaseAssert
  else
    let executable := heap.executables stackFrame.u
    if executable.isHostFunction then Result.ok "<host>"
    else if executable.isFunctionExecutable then
      if !executable.inferredName.isEmpty then Result.ok executable.inferredName
      else Result.ok "<anonymous-function>"
    else if executable.isEvalExecutable then Result.ok "<eval>"
    else if executable.isProgramExecutable then Result.ok "<global>"
    else if executable.isModuleProgramExecutable then Result.ok "<module>"
    else Result.releaseAssert

/-- The lambda `comma` of `stacktracesAsJSON`. -/
def comma (loopedOnce : Bool) (json : String) : String :=
  if loopedOnce then json ++ "," else json

/-- The inner loop of `stacktracesAsJSON` over the frames of one trace, on the
string builder and the flag `loopedOnce`. -/
def appendFrames (heap : Heap) : List StackFrame → String × Bool → Result (String × Bool)
  | [], s => Result.ok s
  | stackFrame :: rest, s =>
    (displayName heap stackFrame).bind fun name =>
      appendFrames heap rest (comma s.2 s.1 ++ "\"" ++ name ++ "\"", true)

/-- The outer loop of `stacktracesAsJSON` over the traces. -/
def appendTraces (heap : Heap) : List StackTrace → String × Bool → Result (String × Bool)
  | [], s => Result.ok s
  | stackTrace :: rest, s =>
    (appendFrames heap stackTrace.frames (comma s.2 s.1 ++ "[", false)).bind fun s1 =>
      appendTraces heap rest (s1.1 ++ "]", true)

/-- `SamplingProfiler::stacktracesAsJSON`: the profiler after the embedded verifier
run, and the returned string. -/
def stacktracesAsJSON (heap : Heap) (p : SamplingProfiler) : Result (SamplingProfiler × String) :=
  (processUnverifiedStackTraces heap p).bind fun p1 =>
    (appendTraces heap p1.m_stackTraces ("[", false)).bind fun s =>
      Result.ok (p1, s.1 ++ "]")

/-- The operations on a profiler, each with what it observes of its surroundings.
`handler` is the run of a callback that was dispatched to the timer queue. -/
inductive Op where
  | start (entryScope : Bool) (elapsedTime : Double)
  | stop
  | shutdown
  | pause
  | noticeCurrentThreadAsJSCExecutionThread (thread : Nat)
  | noticeJSLockAcquisition (thread : Nat)
  | noticeVMEntry (thread : Nat) (entryScope : Bool) (elapsedTime1 elapsedTime2 : Double)
  | clearData
  | processUnverifiedStackTraces (heap : Heap)
  | stacktracesAsJSON (heap : Heap)
  | handler (env : SampleEnv)

/-- Whether the operation is `clearData`. -/
def Op.isClearData : Op → Bool
  | Op.clearData => true
  | _ => false

/-- An operation can happen in any state, except that a callback runs only when one
is waiting on the timer queue. -/
def Op.enabled : Op → SamplingProfiler → Bool
  | Op.handler _, p => decide (0 < p.m_timerQueue)
  | _, _ => true

/-- The profiler after an operation.  A callback that runs leaves the timer queue
first. -/
def Op.run : Op → SamplingProfiler → Result SamplingProfiler
  | Op.start entryScope elapsedTime, p => Result.ok (JSC.start entryScope elapsedTime p)
  | Op.stop, p => Result.ok (JSC.stop p)
  | Op.shutdown, p => Result.ok (JSC.shutdown p)
  | Op.pause, p => Result.ok (JSC.pause p)
  | Op.noticeCurrentThreadAsJSCExecutionThread thread, p =>
    Result.ok (JSC.noticeCurrentThreadAsJSCExecutionThread thread p)
  | Op.noticeJSLockAcquisition thread, p => Result.ok (JSC.noticeJSLockAcquisition thread p)
  | Op.noticeVMEntry thread entryScope elapsedTime1 elapsedTime2, p =>
    Result.ok (JSC.noticeVMEntry thread entryScope elapsedTime1 elapsedTime2 p)
  | Op.clearData, p => Result.ok (JSC.clearData p)
  | Op.processUnverifiedStackTraces heap, p => JSC.processUnverifiedStackTraces heap p
  | Op.stacktracesAsJSON heap, p =>
    (JSC.stacktracesAsJSON heap p).bind fun r => Result.ok r.1
  | Op.handler env, p =>
    (m_handler env { p with m_timerQueue := p.m_timerQueue - 1 }).bind fun r => Result.ok r.1

/-- The profiler states that arise from a freshly constructed profiler by a finite
sequence of operations. -/
inductive Reachable : SamplingProfiler → Prop where
  | init (lastTime : Double) : Reachable (SamplingProfiler.init lastTime)
  | step {p q : SamplingProfiler} (op : Op) :
      Reachable p → op.enabled p = true → op.run p = Result.ok q → Reachable q

/-- The frame at `f` is not an inlined frame: `resetAtMachineFrame` finds no inline
call frame for it. -/
def hasNoInlining (vm : VM) (f : Nat) : Bool :=
  !vm.dfgJIT || !(vm.codeBlocks (vm.execStates f).codeBlock).hasCodeOrigins ||
    !(vm.codeBlocks (vm.execStates f).codeBlock).canGetCodeOrigin (vm.execStates f).callSiteIndex ||
    decide ((vm.codeBlocks (vm.execStates f).codeBlock).codeOriginInlineCallFrame
      (vm.execStates f).callSiteIndex = 0)

/-- The frame pointer `callFrame` heads the frame chain `frames` (deepest first, the
caller of the last frame being the null root): every frame pointer of the chain is
non-null and within the stack bounds of a registered thread, every frame has its
code block registered in the code-block set, and no frame is inlined. -/
def isPlainChain (vm : VM) : Nat → List Nat → Bool
  | callFrame, [] => decide (callFrame = 0)
  | callFrame, f :: rest =>
    decide (callFrame = f) && decide (f ≠ 0) && isValidFramePointer vm f &&
      isValidCodeBlock vm (vm.execStates f).codeBlock && hasNoInlining vm f &&
      isPlainChain vm (vm.execStates f).callerFrame rest

/-- The entry the walk is expected to write for the machine frame at `f`:
`VerifiedExecutable` with the owner executable of its code block. -/
def verifiedFrame (vm : VM) (f : Nat) : StackFrame :=
  ⟨FrameType.VerifiedExecutable, (vm.codeBlocks (vm.execStates f).codeBlock).ownerExecutable⟩

/-- The buffer `st` after the entries `es` are stored from index `d` on. -/
def writeFrames : List StackFrame → Nat → List StackFrame → List StackFrame
  | st, _, [] => st
  | st, d, e :: es => writeFrames (st.set d e) (d + 1) es

/-- A registered thread whose stack spans the addresses 1 to 1000. -/
def exampleThread : Thread :=
  ⟨1000, 1, by decide, by decide⟩

/-- A machine state with `n` machine frames at the addresses 10, 20, ..., `10 * n`,
deepest first.  The frame at address `a` runs the registered code block `a + 1`
(owned by executable `a + 101`, without code origins) and holds the callee value
`a + 2`; the caller of the last frame is `last`. -/
def exampleVM (n last : Nat) : VM :=
  { dfgJIT := true
    machineThreads := [exampleThread]
    codeBlockSet := (List.range n).map fun i => 10 * (i + 1) + 1
    execStates := fun fp => ⟨fp + 1, fp + 2, if fp < 10 * n then fp + 10 else last, 0⟩
    codeBlocks := fun c => ⟨c + 100, false, fun _ => false, fun _ => 0⟩
    inlineCallFrames := fun _ => ⟨0, 0⟩
    entryScope := true
    topCallFrame := 10
    isExecutingInRegExpJIT := false
    isValidExecutableMemory := fun _ => true
    isLLIntPC := fun _ => false }

/-- A callback that suspends the thread inside JIT code with frame pointer 10, on
the machine state `exampleVM n last`. -/
def exampleEnv (n last : Nat) : SampleEnv :=
  { vm := exampleVM n last
    elapsedTime1 := 5
    elapsedTime2 := 6
    elapsedTime3 := 7
    didSuspend := true
    framePointer := 10
    instructionPointer := 0 }

/-- An active profiler with one callback in flight and a frame buffer of `capacity`
slots. -/
def exampleProfiler (capacity : Nat) : SamplingProfiler :=
  { SamplingProfiler.init 0 with
    m_currentFrames := vectorGrow [] capacity
    m_jscExecutionThread := 1
    m_isActive := true
    m_hasDispatchedFunction := true }

/-- A walker that holds a non-null frame pointer outside every registered stack has
bailed out. -/
def BailInv (vm : VM) (w : FrameWalker) : Prop :=
  w.m_callFrame ≠ 0 → isValidFramePointer vm w.m_callFrame = false → w.m_bailingOut = true

/-- The callback run on the profiler `p` in the surroundings `env` gets as far as
walking the stack (the profiler is active and not paused, an execution thread is
known, the VM is entered, and `suspend()` succeeded), and the walk returns `r`. -/
def Walks (env : SampleEnv) (p : SamplingProfiler) (r : WalkResult) : Prop :=
  p.m_isActive = true ∧ p.m_jscExecutionThread ≠ 0 ∧ p.m_isPaused = false ∧
    env.vm.entryScope = true ∧ env.didSuspend = true ∧
    (FrameWalker.mk0 (chooseCallFrame env)).walk env.vm p.m_currentFrames = Result.ok r

instance (env : SampleEnv) (p : SamplingProfiler) (r : WalkResult) : Decidable (Walks env p r) := by
  unfold Walks
  infer_instance

/-- The verifier turned the frame `f` into `f1`, and the executables it had seen by
then are in `seen1`. -/
def FrameVerified (heap : Heap) (seen1 : List Nat) (f f1 : StackFrame) : Prop :=
  ∃ s s1, verifyFrame heap f s = Result.ok (f1, s1) ∧ ∀ e ∈ s1, e ∈ seen1

/-- The verifier turned the trace `t` into `t1`: an unflagged trace is left alone, a
flagged one has its flag cleared and its frames verified one by one. -/
def TraceVerified (heap : Heap) (seen1 : List Nat) (t t1 : StackTrace) : Prop :=
  (t.needsVerification = false → t1 = t) ∧
    (t.needsVerification = true →
      t1.needsVerification = false ∧ t1.timestamp = t.timestamp ∧
        List.Forall₂ (FrameVerified heap seen1) t.frames t1.frames)

/-- Every one of the first `d` buffer entries is `VerifiedExecutable`, or is
`UnverifiedCallee` with the verification flag `nv` raised. -/
def WalkedEntries (nv : Bool) (st : List StackFrame) (d : Nat) : Prop :=
  ∀ f ∈ st.take d, f.frameType = FrameType.VerifiedExecutable ∨
    (f.frameType = FrameType.UnverifiedCallee ∧ nv = true)

/-- The invariant of the trace store, on `m_stackTraces`, `m_seenExecutables` and
`m_indexOfNextStackTraceToVerify`. -/
structure StoreInv (traces : List StackTrace) (seen : List Nat) (index : Nat) : Prop where
  index_le : index ≤ traces.length
  verified_below : ∀ t ∈ traces.take index, t.needsVerification = false
  no_unverified : ∀ t ∈ traces, t.needsVerification = false →
    ∀ f ∈ t.frames, f.frameType ≠ FrameType.UnverifiedCallee
  walked : ∀ t ∈ traces, t.needsVerification = true →
    ∀ f ∈ t.frames, f.frameType = FrameType.VerifiedExecutable ∨
      f.frameType = FrameType.UnverifiedCallee
  seen_covers : ∀ t ∈ traces, ∀ f ∈ t.frames,
    f.frameType = FrameType.VerifiedExecutable → f.u ∈ seen
  seen_carried : ∀ e ∈ seen, ∃ t ∈ traces, ∃ f ∈ t.frames,
    f.frameType = FrameType.VerifiedExecutable ∧ f.u = e
  nonempty : ∀ t ∈ traces, t.frames ≠ []

/-- The invariant of the reachable profiler states. -/
structure WellFormed (p : SamplingProfiler) : Prop where
  store : StoreInv p.m_stackTraces p.m_seenExecutables p.m_indexOfNextStackTraceToVerify
  timer : p.m_timerQueue = if p.m_hasDispatchedFunction then 1 else 0
  capacity : 256 ≤ p.m_currentFrames.length

/-- The heap is consistent for the verifier: the executable attached to a live
function object is itself a live GC object.  This is what the `RELEASE_ASSERT` on
`Heap::isPointerGCObject` in `processUnverifiedStackTraces` checks. -/
def HeapConsistent (heap : Heap) : Prop :=
  ∀ c, heap.isValueGCObject c = true → heap.isJSFunctionType c = true →
    heap.executable c ≠ 0 → heap.isPointerGCObject (heap.executable c) = true

/-- A machine state with five machine frames: a JS frame at address 10 running the
registered code block 11, then four frames without a code block whose callee slots
hold the values 7, 8, 6 and 100. -/
def exampleHostVM : VM :=
  { dfgJIT := true
    machineThreads := [exampleThread]
    codeBlockSet := [11]
    execStates := fun fp =>
      if fp = 10 then ⟨11, 5, 20, 0⟩
      else if fp = 20 then ⟨0, 7, 30, 0⟩
      else if fp = 30 then ⟨0, 8, 40, 0⟩
      else if fp = 40 then ⟨0, 6, 50, 0⟩
      else ⟨0, 100, 0, 0⟩
    codeBlocks := fun c => ⟨c + 100, false, fun _ => false, fun _ => 0⟩
    inlineCallFrames := fun _ => ⟨0, 0⟩
    entryScope := true
    topCallFrame := 10
    isExecutingInRegExpJIT := false
    isValidExecutableMemory := fun _ => true
    isLLIntPC := fun _ => false }

/-- A callback that suspends the thread with frame pointer 10 on `exampleHostVM`. -/
def exampleHostEnv : SampleEnv :=
  { vm := exampleHostVM
    elapsedTime1 := 5
    elapsedTime2 := 6
    elapsedTime3 := 7
    didSuspend := true
    framePointer := 10
    instructionPointer := 0 }

/-- A heap in which the values below 10 are live cells: 7 is a native function object
(call type Host) with the executable 70 attached, 8 is a function object without an
executable (call type JS), 6 is a host callable that is not a function object; the
value 100 is not a live object. -/
def exampleHeap : Heap :=
  { isValueGCObject := fun v => decide (v < 10)
    isJSFunctionType := fun c => decide (c = 7 ∨ c = 8)
    getCallData := fun c => if c = 6 ∨ c = 7 then CallType.CallTypeHost else CallType.CallTypeJS
    executable := fun c => if c = 7 then 70 else 0
    isPointerGCObject := fun _ => true
    executables := fun e =>
      if e = 111 then ⟨false, true, "f", false, false, false⟩
      else ⟨true, false, "", false, false, false⟩ }

/-- The profiler after `noticeVMEntry`, `start` and one callback on `exampleHostEnv`:
one stored trace, still to be verified. -/
def exampleSampled : SamplingProfiler :=
  { m_stackTraces :=
      [⟨true, 5,
        [⟨FrameType.VerifiedExecutable, 111⟩, ⟨FrameType.UnverifiedCallee, 7⟩,
          ⟨FrameType.UnverifiedCallee, 8⟩, ⟨FrameType.UnverifiedCallee, 6⟩,
          ⟨FrameType.UnverifiedCallee, 100⟩]⟩]
    m_seenExecutables := [111]
    m_indexOfNextStackTraceToVerify := 0
    m_currentFrames :=
      [⟨FrameType.VerifiedExecutable, 111⟩, ⟨FrameType.UnverifiedCallee, 7⟩,
        ⟨FrameType.UnverifiedCallee, 8⟩, ⟨FrameType.UnverifiedCallee, 6⟩,
        ⟨FrameType.UnverifiedCallee, 100⟩] ++ List.replicate 251 StackFrame.default
    m_totalTime := 2
    m_lastTime := 7
    m_jscExecutionThread := 1
    m_isActive := true
    m_isPaused := false
    m_hasDispatchedFunction := true
    m_timerQueue := 1
    m_refCount := 2 }

/-- The profiler `exampleSampled` after a verifier run on `exampleHeap`. -/
def exampleVerified : SamplingProfiler :=
  { exampleSampled with
    m_stackTraces :=
      [⟨false, 5,
        [⟨FrameType.VerifiedExecutable, 111⟩, ⟨FrameType.VerifiedExecutable, 70⟩,
          ⟨FrameType.Unknown, 8⟩, ⟨FrameType.Host, 6⟩, ⟨FrameType.Unknown, 100⟩]⟩]
    m_seenExecutables := [111, 70]
    m_indexOfNextStackTraceToVerify := 1 }

/-- The executable is of one of the kinds `displayName` knows: a host function, a
function, an eval, a program or a module program executable. -/
def ExecutableBase.isKnownKind (e : ExecutableBase) : Bool :=
  e.isHostFunction || e.isFunctionExecutable || e.isEvalExecutable || e.isProgramExecutable ||
    e.isModuleProgramExecutable

/-- The fixed category labels of the report. -/
def categoryLabels : List String :=
  ["<unknown>", "<host>", "<eval>", "<global>", "<module>", "<anonymous-function>"]

/-- The capture time and the number of frames of each stored trace, in store order. -/
def traceShape (traces : List StackTrace) : List (Double × Nat) :=
  traces.map fun t => (t.timestamp, t.frames.length)

/-- The operation is one of the control calls `start`, `stop`, `shutdown`, `pause`,
`noticeCurrentThreadAsJSCExecutionThread`, `noticeJSLockAcquisition`, `noticeVMEntry`. -/
def Op.isControl : Op → Bool
  | Op.start _ _ => true
  | Op.stop => true
  | Op.shutdown => true
  | Op.pause => true
  | Op.noticeCurrentThreadAsJSCExecutionThread _ => true
  | Op.noticeJSLockAcquisition _ => true
  | Op.noticeVMEntry _ _ _ _ => true
  | _ => false

/-- The profiler after `noticeVMEntry` and `start`: active, with one callback waiting
on the timer queue and an empty store. -/
def exampleStarted : SamplingProfiler :=
  { SamplingProfiler.init 0 with
    m_lastTime := 3
    m_jscExecutionThread := 1
    m_isActive := true
    m_hasDispatchedFunction := true
    m_timerQueue := 1
    m_refCount := 2 }

/-- Whether the execution thread is suspended after the events, starting from a
running thread: a successful `suspend()` suspends it, `resume()` resumes it. -/
def threadSuspendedAfter (events : List Event) : Bool :=
  events.foldl
    (fun suspended e =>
      match e with
      | Event.suspend true => true
      | Event.resume => false
      | _ => suspended)
    false

/-- If the verification flag `nv` is raised, one of the first `d` buffer entries is
`UnverifiedCallee`. -/
def FlagRaised (nv : Bool) (st : List StackFrame) (d : Nat) : Prop :=
  nv = true → ∃ f ∈ st.take d, f.frameType = FrameType.UnverifiedCallee

/-- A machine state whose caller chain is cyclic: every frame pointer has the caller
10, every frame runs the registered code block 11.  With `inlined` set, every code
origin points to the inline call frame 5, whose direct caller is again 5. -/
def exampleCyclicVM (inlined : Bool) : VM :=
  { dfgJIT := true
    machineThreads := [exampleThread]
    codeBlockSet := [11]
    execStates := fun _ => ⟨11, 0, 10, 0⟩
    codeBlocks := fun c => ⟨c + 100, inlined, fun _ => true, fun _ => 5⟩
    inlineCallFrames := fun _ => ⟨11, 5⟩
    entryScope := true
    topCallFrame := 10
    isExecutingInRegExpJIT := false
    isValidExecutableMemory := fun _ => true
    isLLIntPC := fun _ => false }

/-- A frame label between double quotes, as the report shows it. -/
def quoted (name : String) : String :=
  "\"" ++ name ++ "\""

/-- The strings joined with one comma between consecutive ones. -/
def joinComma : List String → String
  | [] => ""
  | [s] => s
  | s :: rest => s ++ "," ++ joinComma rest

/-- The report the specification describes for the frame labels `names` of the stored
traces: an array of arrays of quoted labels, traces in store order, frames in stored
order. -/
def specReport (names : List (List String)) : String :=
  "[" ++ joinComma (names.map fun trace => "[" ++ joinComma (trace.map quoted) ++ "]") ++ "]"

/-- The strings written one after the other by a loop that puts a comma before each
of them once the flag `loopedOnce` is set, and sets it after each. -/
def commaSeq : Bool → List String → String
  | _, [] => ""
  | loopedOnce, s :: rest => (if loopedOnce then "," else "") ++ s ++ commaSeq true rest

/-- The inline call frame `resetAtMachineFrame` finds for the machine frame at `f`:
the one of the code origin at the call site index, when the build has `DFG_JIT`, the
code block has code origins and the code origin can be looked up; null otherwise. -/
def inlineCallFrameAt (vm : VM) (f : Nat) : Nat :=
  if vm.dfgJIT && (vm.codeBlocks (vm.execStates f).codeBlock).hasCodeOrigins &&
      (vm.codeBlocks (vm.execStates f).codeBlock).canGetCodeOrigin
        (vm.execStates f).callSiteIndex then
    (vm.codeBlocks (vm.execStates f).codeBlock).codeOriginInlineCallFrame
      (vm.execStates f).callSiteIndex
  else 0

/-- The inline call frame pointer `inlineCallFrame` heads the list `levels` of inlined
levels (innermost first, the direct caller of the last one being null): every level
is non-null and has its baseline code block registered. -/
def isInlineList (vm : VM) : Nat → List Nat → Bool
  | inlineCallFrame, [] => decide (inlineCallFrame = 0)
  | inlineCallFrame, i :: rest =>
    decide (inlineCallFrame = i) && decide (i ≠ 0) &&
      isValidCodeBlock vm (vm.inlineCallFrames i).baselineCodeBlock &&
      isInlineList vm (vm.inlineCallFrames i).directCaller rest

/-- The frame pointer `callFrame` heads the frame chain `frames` (deepest first, the
caller of the last frame being the null root), each machine frame given with the
list of its inlined levels: every frame pointer is non-null and within the stack
bounds of a registered thread, and every code block, of a machine frame or of an
inlined level, is registered in the code-block set. -/
def isInlinedChain (vm : VM) : Nat → List (Nat × List Nat) → Bool
  | callFrame, [] => decide (callFrame = 0)
  | callFrame, x :: rest =>
    decide (callFrame = x.1) && decide (x.1 ≠ 0) && isValidFramePointer vm x.1 &&
      isValidCodeBlock vm (vm.execStates x.1).codeBlock &&
      isInlineList vm (inlineCallFrameAt vm x.1) x.2 &&
      isInlinedChain vm (vm.execStates x.1).callerFrame rest

/-- The entry the walk is expected to write for the inlined level `i`:
`VerifiedExecutable` with the owner executable of its baseline code block. -/
def inlinedFrame (vm : VM) (i : Nat) : StackFrame :=
  ⟨FrameType.VerifiedExecutable,
    (vm.codeBlocks (vm.inlineCallFrames i).baselineCodeBlock).ownerExecutable⟩

/-- The entries of a whole frame chain: for each machine frame its inlined levels,
innermost first, then the frame itself. -/
def chainEntries (vm : VM) : List (Nat × List Nat) → List StackFrame
  | [] => []
  | x :: rest => x.2.map (inlinedFrame vm) ++ verifiedFrame vm x.1 :: chainEntries vm rest

/-- A machine state with two machine frames: the frame at 10 runs the code block 11
at a call site inlined two levels deep (inline call frames 5 and 6, with the baseline
code blocks 31 and 41), its caller at 20 runs the code block 21 without inlining. -/
def exampleInlinedVM : VM :=
  { dfgJIT := true
    machineThreads := [exampleThread]
    codeBlockSet := [11, 21, 31, 41]
    execStates := fun fp => if fp = 10 then ⟨11, 0, 20, 0⟩ else ⟨21, 0, 0, 0⟩
    codeBlocks := fun c => ⟨c + 100, decide (c = 11), fun _ => true, fun _ => 5⟩
    inlineCallFrames := fun i => if i = 5 then ⟨31, 6⟩ else ⟨41, 0⟩
    entryScope := true
    topCallFrame := 10
    isExecutingInRegExpJIT := false
    isValidExecutableMemory := fun _ => true
    isLLIntPC := fun _ => false }

/-! ## The frame walker -/

theorem resetAtMachineFrame_callFrame (vm : VM) (w : FrameWalker) :
    (w.resetAtMachineFrame vm).m_callFrame = w.m_callFrame := by
  unfold FrameWalker.resetAtMachineFrame
  simp only
  split_ifs <;> rfl

theorem resetAtMachineFrame_depth (vm : VM) (w : FrameWalker) :
    (w.resetAtMachineFrame vm).m_depth = w.m_depth := by
  unfold FrameWalker.resetAtMachineFrame
  simp only
  split_ifs <;> rfl

theorem resetAtMachineFrame_bails (vm : VM) (w : FrameWalker) (h0 : w.m_callFrame ≠ 0)
    (hv : isValidFramePointer vm w.m_callFrame = false) :
    (w.resetAtMachineFrame vm).m_bailingOut = true := by
  unfold FrameWalker.resetAtMachineFrame
  simp [FrameWalker.isAtTop, h0, hv]

theorem inlineLoop_frame (vm : VM) (n : Nat) :
    ∀ (fuel : Nat) (w w1 : FrameWalker) (st st1 : List StackFrame),
      inlineLoop vm n fuel w st = Result.ok (w1, st1) →
      w1.m_callFrame = w.m_callFrame ∧ w1.m_bailingOut = w.m_bailingOut := by
  intro fuel
  induction fuel with
  | zero => intro w w1 st st1 h; simp [inlineLoop] at h
  | succ k ih =>
    intro w w1 st st1 h
    unfold inlineLoop at h
    dsimp only at h
    split_ifs at h with h1 h2
    · have h3 := ih _ _ _ _ h
      exact h3
    · simp at h
      obtain ⟨rfl, -⟩ := h
      exact ⟨rfl, rfl⟩

theorem walkLoop_bailInv (vm : VM) (n : Nat) :
    ∀ (fuel : Nat) (s s1 : WalkState), walkLoop vm n fuel s = Result.ok s1 →
      BailInv vm s.w → BailInv vm s1.w := by
  intro fuel
  induction fuel with
  | zero => intro s s1 h; simp [walkLoop] at h
  | succ k ih =>
    intro s s1 h hinv
    unfold walkLoop at h
    split_ifs at h with hc
    · split at h
      · rename_i w1 st1 hin
        have hf := inlineLoop_frame vm n _ _ _ _ _ hin
        dsimp only at h
        split_ifs at h with hd hcb
        · simp at h
          subst h
          intro h0 hv
          simp only at h0 hv ⊢
          rw [hf.1] at h0 hv
          rw [hf.2]
          exact hinv h0 hv
        · refine ih _ _ h ?_
          intro h0 hv
          simp only [resetAtMachineFrame_callFrame] at h0 hv
          exact resetAtMachineFrame_bails vm _ h0 hv
        · refine ih _ _ h ?_
          intro h0 hv
          simp only [resetAtMachineFrame_callFrame] at h0 hv
          exact resetAtMachineFrame_bails vm _ h0 hv
      · simp at h
      · simp at h
    · simp at h
      subst h
      exact hinv

theorem walk_bailInv (vm : VM) (w : FrameWalker) (st : List StackFrame) (r : WalkResult)
    (h : w.walk vm st = Result.ok r) : BailInv vm r.walker := by
  unfold FrameWalker.walk at h
  simp only at h
  split at h
  · rename_i s hs
    simp at h
    subst h
    refine walkLoop_bailInv vm _ _ _ _ hs ?_
    intro h0 hv
    simp only [resetAtMachineFrame_callFrame] at h0 hv
    exact resetAtMachineFrame_bails vm _ h0 hv
  · simp at h
  · simp at h


theorem writeFrames_length : ∀ (es st : List StackFrame) (d : Nat),
    (writeFrames st d es).length = st.length
  | [], st, d => rfl
  | e :: es, st, d => by
    simp [writeFrames, writeFrames_length es]

theorem writeFrames_eq : ∀ (es st : List StackFrame) (d : Nat), d + es.length ≤ st.length →
    writeFrames st d es = st.take d ++ es ++ st.drop (d + es.length)
  | [], st, d, _ => by simp [writeFrames]
  | e :: es, st, d, h => by
    simp only [List.length_cons] at h
    have hd : d < st.length := by omega
    rw [writeFrames, writeFrames_eq es _ _ (by simp; omega)]
    rw [List.drop_set_of_lt e st (by omega : d < d + 1 + es.length)]
    have ht : (st.set d e).take (d + 1) = st.take d ++ [e] := by
      rw [List.set_eq_take_append_cons_drop, if_pos hd]
      rw [List.take_append_eq_append_take]
      simp [List.length_take, Nat.min_eq_left (Nat.le_of_lt hd)]
    rw [ht]
    simp [List.length_cons, Nat.add_assoc, Nat.add_comm 1]

theorem resetAtMachineFrame_plainChain (vm : VM) (frames : List Nat) (callFrame i d : Nat)
    (h : isPlainChain vm callFrame frames = true) :
    FrameWalker.resetAtMachineFrame vm ⟨callFrame, false, i, d⟩ = ⟨callFrame, false, 0, d⟩ := by
  cases frames with
  | nil =>
    simp [isPlainChain] at h
    simp [FrameWalker.resetAtMachineFrame, FrameWalker.isAtTop, h]
  | cons f rest =>
    simp only [isPlainChain, Bool.and_eq_true, decide_eq_true_eq] at h
    obtain ⟨⟨⟨⟨⟨rfl, h0⟩, hv⟩, hc⟩, hi⟩, -⟩ := h
    have hc0 : (vm.execStates callFrame).codeBlock ≠ 0 := by
      intro hz
      simp [isValidCodeBlock, hz] at hc
    simp only [hasNoInlining, Bool.or_eq_true, Bool.not_eq_true', decide_eq_true_eq] at hi
    unfold FrameWalker.resetAtMachineFrame
    simp only [FrameWalker.isAtTop, h0, hv, hc, hc0, decide_False, Bool.not_true, if_false,
      Bool.false_eq_true]
    rcases hi with ((hi | hi) | hi) | hi
    · simp [hi]
    · by_cases hj : vm.dfgJIT = true <;> simp [hj, hi]
    · by_cases hj : vm.dfgJIT = true <;>
        by_cases hk : (vm.codeBlocks (vm.execStates callFrame).codeBlock).hasCodeOrigins = true <;>
        simp [hj, hk, hi]
    · by_cases hj : vm.dfgJIT = true <;>
        by_cases hk : (vm.codeBlocks (vm.execStates callFrame).codeBlock).hasCodeOrigins = true <;>
        by_cases hl : (vm.codeBlocks (vm.execStates callFrame).codeBlock).canGetCodeOrigin
          (vm.execStates callFrame).callSiteIndex = true <;>
        simp [hj, hk, hl, hi]

theorem isPlainChain_drop_ne (vm : VM) : ∀ (frames : List Nat) (k callFrame : Nat),
    isPlainChain vm callFrame frames = true → k < frames.length → (frames.drop k).headD 0 ≠ 0
  | [], k, _, _, hk => by simp at hk
  | f :: rest, 0, _, h, _ => by
    simp only [isPlainChain, Bool.and_eq_true, decide_eq_true_eq] at h
    simpa using h.1.1.1.1.2
  | f :: rest, k + 1, _, h, hk => by
    simp only [isPlainChain, Bool.and_eq_true, decide_eq_true_eq] at h
    simpa using isPlainChain_drop_ne vm rest k _ h.2 (by simpa using hk)

theorem walkLoop_plainChain (vm : VM) (n : Nat) :
    ∀ (frames : List Nat) (k callFrame d : Nat) (st : List StackFrame) (nv : Bool) (fuel : Nat),
      isPlainChain vm callFrame frames = true → k ≤ frames.length → d + k ≤ n →
      (k = frames.length ∨ d + k = n) → k < fuel →
      walkLoop vm n fuel ⟨⟨callFrame, false, 0, d⟩, st, nv⟩ =
        Result.ok ⟨⟨(frames.drop k).headD 0, false, 0, d + k⟩,
          writeFrames st d ((frames.take k).map (verifiedFrame vm)), nv⟩ := by
  intro frames
  induction frames with
  | nil =>
    intro k callFrame d st nv fuel h hk _ _ hfuel
    simp at hk
    subst hk
    simp [isPlainChain] at h
    subst h
    obtain ⟨fuel, rfl⟩ : ∃ m, fuel = m + 1 := ⟨fuel - 1, by omega⟩
    simp [walkLoop, FrameWalker.isAtTop, writeFrames]
  | cons f rest ih =>
    intro k callFrame d st nv fuel h hk hdk hor hfuel
    have h' := h
    simp only [isPlainChain, Bool.and_eq_true, decide_eq_true_eq] at h'
    obtain ⟨⟨⟨⟨⟨rfl, h0⟩, hv⟩, hc⟩, hi⟩, hrest⟩ := h'
    obtain ⟨fuel, rfl⟩ : ∃ m, fuel = m + 1 := ⟨fuel - 1, by omega⟩
    cases k with
    | zero =>
      have hdn : d = n := by
        rcases hor with hor | hor
        · simp at hor
        · simpa using hor
      subst hdn
      simp [walkLoop, writeFrames]
    | succ k =>
      have hlt : d < n := by omega
      have hin : inlineLoop vm n (n + 1) ⟨callFrame, false, 0, d⟩ st =
          Result.ok (⟨callFrame, false, 0, d⟩, st) := by
        simp [inlineLoop]
      unfold walkLoop
      simp only [FrameWalker.isAtTop, h0, hlt, decide_False, decide_True, Bool.not_false,
        Bool.and_self, if_true, hin, ge_iff_le, Nat.not_le.mpr hlt, if_false, hc,
        FrameWalker.advanceToParentFrame]
      rw [resetAtMachineFrame_plainChain vm rest _ _ _ hrest]
      rw [ih k _ (d + 1) _ nv fuel hrest (by simpa using hk) (by omega)
        (by rcases hor with hor | hor
            · left; simpa using hor
            · right; omega) (by omega)]
      simp [writeFrames, verifiedFrame, Nat.add_assoc, Nat.add_comm 1]

/-- C2. For a frame chain of `n` machine frames without inlining, all frame pointers
within registered stack bounds and all code blocks registered, and a buffer of at
least `n` slots, `walk` returns `n`, leaves `didRunOutOfSpace` and
`stacktraceNeedsVerification` false, `wasValidWalk()` is true, and the first `n`
buffer entries are the `VerifiedExecutable` frames of the owner executables, deepest
first (the slots beyond are untouched). -/
theorem walk_plainChain_fits (vm : VM) (callFrame : Nat) (frames : List Nat)
    (buf : List StackFrame) (hchain : isPlainChain vm callFrame frames = true)
    (hcap : frames.length ≤ buf.length) :
    ∃ r, (FrameWalker.mk0 callFrame).walk vm buf = Result.ok r ∧
      r.size = frames.length ∧ r.didRunOutOfSpace = false ∧
      r.stacktraceNeedsVerification = false ∧ r.wasValidWalk = true ∧
      r.stackTrace.take frames.length = frames.map (verifiedFrame vm) ∧
      r.stackTrace.drop frames.length = buf.drop frames.length := by
  have hreset := resetAtMachineFrame_plainChain vm frames callFrame 0 0 hchain
  have hloop := walkLoop_plainChain vm buf.length frames frames.length callFrame 0 buf false
    (buf.length + 1) hchain (Nat.le_refl _) (by omega) (Or.inl rfl) (by omega)
  have hw := writeFrames_eq (frames.map (verifiedFrame vm)) buf 0 (by simpa using hcap)
  simp only [List.take_length, List.drop_length, List.headD_nil, Nat.zero_add] at hloop
  have hwalk : (FrameWalker.mk0 callFrame).walk vm buf = Result.ok
      ⟨⟨0, false, 0, frames.length⟩, writeFrames buf 0 (frames.map (verifiedFrame vm)),
        decide (frames.length ≥ buf.length) && !(decide ((0 : Nat) = 0)), false, frames.length⟩ := by
    unfold FrameWalker.walk FrameWalker.mk0
    simp only [hreset, hloop, FrameWalker.isAtTop]
  refine ⟨_, hwalk, ?_⟩
  simp [hw, WalkResult.wasValidWalk]

/-- C3. For a frame chain of `n` machine frames without inlining, all frame pointers
within registered stack bounds and all code blocks registered, and a buffer of
`c < n` slots, `walk` returns exactly `c`, sets `didRunOutOfSpace`, `wasValidWalk()`
is true, and the buffer holds the `c` deepest frames, deepest first. -/
theorem walk_plainChain_overflows (vm : VM) (callFrame : Nat) (frames : List Nat)
    (buf : List StackFrame) (hchain : isPlainChain vm callFrame frames = true)
    (hcap : buf.length < frames.length) :
    ∃ r, (FrameWalker.mk0 callFrame).walk vm buf = Result.ok r ∧
      r.size = buf.length ∧ r.didRunOutOfSpace = true ∧ r.wasValidWalk = true ∧
      r.stacktraceNeedsVerification = false ∧
      r.stackTrace = (frames.take buf.length).map (verifiedFrame vm) := by
  have hreset := resetAtMachineFrame_plainChain vm frames callFrame 0 0 hchain
  have hloop := walkLoop_plainChain vm buf.length frames buf.length callFrame 0 buf false
    (buf.length + 1) hchain (Nat.le_of_lt hcap) (by omega) (Or.inr (by omega)) (by omega)
  have hne := isPlainChain_drop_ne vm frames buf.length callFrame hchain hcap
  have hw := writeFrames_eq ((frames.take buf.length).map (verifiedFrame vm)) buf 0
    (by simp)
  simp only [Nat.zero_add] at hloop
  have hwalk : (FrameWalker.mk0 callFrame).walk vm buf = Result.ok
      ⟨⟨(frames.drop buf.length).headD 0, false, 0, buf.length⟩,
        writeFrames buf 0 ((frames.take buf.length).map (verifiedFrame vm)),
        decide (buf.length ≥ buf.length) && !(decide ((frames.drop buf.length).headD 0 = 0)),
        false, buf.length⟩ := by
    unfold FrameWalker.walk FrameWalker.mk0
    simp only [hreset, hloop, FrameWalker.isAtTop]
  refine ⟨_, hwalk, rfl, ?_, rfl, rfl, ?_⟩
  · simp only [ge_iff_le, Nat.le_refl, decide_True, Bool.true_and, Bool.not_eq_true',
      decide_eq_false_iff_not]
    exact hne
  · rw [hw]
    simp [Nat.min_eq_left (Nat.le_of_lt hcap)]

theorem walk_plainChain_fits_witness :
    ∃ r, (FrameWalker.mk0 10).walk (exampleVM 5 0) (vectorGrow [] 10) = Result.ok r ∧
      r.size = [10, 20, 30, 40, 50].length ∧ r.didRunOutOfSpace = false ∧
      r.stacktraceNeedsVerification = false ∧ r.wasValidWalk = true ∧
      r.stackTrace.take [10, 20, 30, 40, 50].length =
        [10, 20, 30, 40, 50].map (verifiedFrame (exampleVM 5 0)) ∧
      r.stackTrace.drop [10, 20, 30, 40, 50].length =
        (vectorGrow [] 10).drop [10, 20, 30, 40, 50].length :=
  walk_plainChain_fits (exampleVM 5 0) 10 [10, 20, 30, 40, 50] (vectorGrow [] 10)
    (by decide) (by decide)

theorem walk_plainChain_overflows_witness :
    ∃ r, (FrameWalker.mk0 10).walk (exampleVM 20 0) (vectorGrow [] 8) = Result.ok r ∧
      r.size = (vectorGrow [] 8).length ∧ r.didRunOutOfSpace = true ∧ r.wasValidWalk = true ∧
      r.stacktraceNeedsVerification = false ∧
      r.stackTrace = (((List.range 20).map fun i => 10 * (i + 1)).take
        (vectorGrow [] 8).length).map (verifiedFrame (exampleVM 20 0)) :=
  walk_plainChain_overflows (exampleVM 20 0) 10 ((List.range 20).map fun i => 10 * (i + 1))
    (vectorGrow [] 8) (by decide) (by decide)

theorem inlineLoop_length (vm : VM) (n : Nat) :
    ∀ (fuel : Nat) (w w1 : FrameWalker) (st st1 : List StackFrame),
      inlineLoop vm n fuel w st = Result.ok (w1, st1) → st1.length = st.length := by
  intro fuel
  induction fuel with
  | zero => intro w w1 st st1 h; simp [inlineLoop] at h
  | succ k ih =>
    intro w w1 st st1 h
    unfold inlineLoop at h
    dsimp only at h
    split_ifs at h with h1 h2
    · have h3 := ih _ _ _ _ h
      simpa using h3
    · simp at h
      rw [h.2]

theorem walkLoop_length (vm : VM) (n : Nat) :
    ∀ (fuel : Nat) (s s1 : WalkState), walkLoop vm n fuel s = Result.ok s1 →
      s1.stackTrace.length = s.stackTrace.length := by
  intro fuel
  induction fuel with
  | zero => intro s s1 h; simp [walkLoop] at h
  | succ k ih =>
    intro s s1 h
    unfold walkLoop at h
    split_ifs at h with hc
    · split at h
      · rename_i w1 st1 hin
        have hl := inlineLoop_length vm n _ _ _ _ _ hin
        dsimp only at h
        split_ifs at h with hd hcb
        · simp at h
          subst h
          exact hl
        · have h3 := ih _ _ h
          simpa [hl] using h3
        · have h3 := ih _ _ h
          simpa [hl] using h3
      · simp at h
      · simp at h
    · simp at h
      subst h
      rfl

/-- What a returning `walk` computed, in terms of the final state of its loop. -/
theorem walk_eq_ok (vm : VM) (w : FrameWalker) (st : List StackFrame) (r : WalkResult)
    (h : w.walk vm st = Result.ok r) :
    ∃ s, walkLoop vm st.length (st.length + 1) ⟨w.resetAtMachineFrame vm, st, false⟩ = Result.ok s ∧
      r = ⟨s.w, s.stackTrace, decide (s.w.m_depth ≥ st.length) && !s.w.isAtTop,
        s.stacktraceNeedsVerification, s.w.m_depth⟩ := by
  unfold FrameWalker.walk at h
  dsimp only at h
  split at h
  · rename_i s hs
    simp at h
    exact ⟨s, hs, h.symm⟩
  · simp at h
  · simp at h

theorem walk_length (vm : VM) (w : FrameWalker) (st : List StackFrame) (r : WalkResult)
    (h : w.walk vm st = Result.ok r) : r.stackTrace.length = st.length := by
  obtain ⟨s, hs, rfl⟩ := walk_eq_ok vm w st r h
  exact walkLoop_length vm _ _ _ _ hs

theorem walk_overflow_size (vm : VM) (w : FrameWalker) (st : List StackFrame) (r : WalkResult)
    (h : w.walk vm st = Result.ok r) (ho : r.didRunOutOfSpace = true) : st.length ≤ r.size := by
  obtain ⟨s, hs, rfl⟩ := walk_eq_ok vm w st r h
  simp at ho
  exact ho.1

theorem inlineLoop_depth_le (vm : VM) (n : Nat) :
    ∀ (fuel : Nat) (w w1 : FrameWalker) (st st1 : List StackFrame),
      inlineLoop vm n fuel w st = Result.ok (w1, st1) → w.m_depth ≤ n → w1.m_depth ≤ n := by
  intro fuel
  induction fuel with
  | zero => intro w w1 st st1 h; simp [inlineLoop] at h
  | succ k ih =>
    intro w w1 st st1 h hd
    unfold inlineLoop at h
    dsimp only at h
    split_ifs at h with h1 h2
    · exact ih _ _ _ _ h (by simpa using h1.2)
    · simp at h
      rw [← h.1]
      exact hd

theorem walkLoop_depth_le (vm : VM) (n : Nat) :
    ∀ (fuel : Nat) (s s1 : WalkState), walkLoop vm n fuel s = Result.ok s1 →
      s.w.m_depth ≤ n → s1.w.m_depth ≤ n := by
  intro fuel
  induction fuel with
  | zero => intro s s1 h; simp [walkLoop] at h
  | succ k ih =>
    intro s s1 h hd
    unfold walkLoop at h
    split_ifs at h with hc
    · split at h
      · rename_i w1 st1 hin
        have hl := inlineLoop_depth_le vm n _ _ _ _ _ hin hd
        dsimp only at h
        split_ifs at h with hd1 hcb
        · simp at h
          subst h
          exact hl
        · refine ih _ _ h ?_
          simp only [resetAtMachineFrame_depth, FrameWalker.advanceToParentFrame]
          omega
        · refine ih _ _ h ?_
          simp only [resetAtMachineFrame_depth, FrameWalker.advanceToParentFrame]
          omega
      · simp at h
      · simp at h
    · simp at h
      subst h
      exact hd

theorem walk_size_le (vm : VM) (callFrame : Nat) (st : List StackFrame) (r : WalkResult)
    (h : (FrameWalker.mk0 callFrame).walk vm st = Result.ok r) : r.size ≤ st.length := by
  obtain ⟨s, hs, rfl⟩ := walk_eq_ok vm _ st r h
  refine walkLoop_depth_le vm _ _ _ _ hs ?_
  simp [resetAtMachineFrame_depth, FrameWalker.mk0]

theorem take_set_succ (st : List StackFrame) (d : Nat) (e : StackFrame) (hd : d < st.length) :
    (st.set d e).take (d + 1) = st.take d ++ [e] := by
  rw [List.set_eq_take_append_cons_drop, if_pos hd]
  rw [List.take_append_eq_append_take]
  simp [List.length_take, Nat.min_eq_left (Nat.le_of_lt hd)]

theorem walkedEntries_set {nv : Bool} {st : List StackFrame} {d : Nat} (h : WalkedEntries nv st d)
    (hd : d < st.length) (e : StackFrame)
    (he : e.frameType = FrameType.VerifiedExecutable ∨
      (e.frameType = FrameType.UnverifiedCallee ∧ nv = true)) :
    WalkedEntries nv (st.set d e) (d + 1) := by
  intro f hf
  rw [take_set_succ st d e hd] at hf
  simp only [List.mem_append, List.mem_singleton] at hf
  rcases hf with hf | rfl
  · exact h f hf
  · exact he

theorem walkedEntries_raise {nv : Bool} {st : List StackFrame} {d : Nat}
    (h : WalkedEntries nv st d) : WalkedEntries true st d := by
  intro f hf
  rcases h f hf with h1 | h1
  · exact Or.inl h1
  · exact Or.inr ⟨h1.1, rfl⟩

theorem inlineLoop_walkedEntries (vm : VM) (n : Nat) (nv : Bool) :
    ∀ (fuel : Nat) (w w1 : FrameWalker) (st st1 : List StackFrame),
      inlineLoop vm n fuel w st = Result.ok (w1, st1) → st.length = n →
      WalkedEntries nv st w.m_depth → WalkedEntries nv st1 w1.m_depth := by
  intro fuel
  induction fuel with
  | zero => intro w w1 st st1 h; simp [inlineLoop] at h
  | succ k ih =>
    intro w w1 st st1 h hl hg
    unfold inlineLoop at h
    dsimp only at h
    split_ifs at h with h1 h2
    · refine ih _ _ _ _ h (by simpa using hl) ?_
      exact walkedEntries_set hg (by omega) _ (Or.inl rfl)
    · simp at h
      obtain ⟨rfl, rfl⟩ := h
      exact hg

theorem walkLoop_walkedEntries (vm : VM) (n : Nat) :
    ∀ (fuel : Nat) (s s1 : WalkState), walkLoop vm n fuel s = Result.ok s1 →
      s.stackTrace.length = n →
      WalkedEntries s.stacktraceNeedsVerification s.stackTrace s.w.m_depth →
      WalkedEntries s1.stacktraceNeedsVerification s1.stackTrace s1.w.m_depth := by
  intro fuel
  induction fuel with
  | zero => intro s s1 h; simp [walkLoop] at h
  | succ k ih =>
    intro s s1 h hl hg
    unfold walkLoop at h
    split_ifs at h with hc
    · split at h
      · rename_i w1 st1 hin
        have hl1 := inlineLoop_length vm n _ _ _ _ _ hin
        have hg1 := inlineLoop_walkedEntries vm n _ _ _ _ _ _ hin hl hg
        dsimp only at h
        split_ifs at h with hd1 hcb
        · simp at h
          subst h
          exact hg1
        · refine ih _ _ h (by simp [hl1, hl]) ?_
          simp only [resetAtMachineFrame_depth, FrameWalker.advanceToParentFrame]
          exact walkedEntries_set hg1 (by omega) _ (Or.inl rfl)
        · refine ih _ _ h (by simp [hl1, hl]) ?_
          simp only [resetAtMachineFrame_depth, FrameWalker.advanceToParentFrame]
          exact walkedEntries_set (walkedEntries_raise hg1) (by omega) _ (Or.inr ⟨rfl, rfl⟩)
      · simp at h
      · simp at h
    · simp at h
      subst h
      exact hg

/-- The entries a walk reports are `VerifiedExecutable`, or `UnverifiedCallee` in a
walk that asks for verification. -/
theorem walk_walkedEntries (vm : VM) (callFrame : Nat) (st : List StackFrame) (r : WalkResult)
    (h : (FrameWalker.mk0 callFrame).walk vm st = Result.ok r) :
    WalkedEntries r.stacktraceNeedsVerification r.stackTrace r.size := by
  obtain ⟨s, hs, rfl⟩ := walk_eq_ok vm _ st r h
  refine walkLoop_walkedEntries vm _ _ _ _ hs rfl ?_
  intro f hf
  simp [resetAtMachineFrame_depth, FrameWalker.mk0] at hf

/-! ## The sampler callback -/

/-- The callback, when it gets to walk the stack. -/
theorem m_handler_of_walks (env : SampleEnv) (p : SamplingProfiler) (r : WalkResult)
    (h : Walks env p r) :
    m_handler env p = Result.ok
      (dispatchFunction env.elapsedTime3
        { (recordWalk env.elapsedTime1 r p).1 with m_lastTime := env.elapsedTime2 },
        [Event.lockMachineThreads, Event.lockCodeBlockSet, Event.lockExecutableAllocator] ++
          [Event.suspend true, Event.getRegisters, Event.freeRegisters, Event.walk, Event.resume] ++
          (recordWalk env.elapsedTime1 r p).2 ++ [Event.dispatchAfter]) := by
  obtain ⟨h1, h2, h3, h4, h5, h6⟩ := h
  simp [m_handler, sample, h1, h2, h3, h4, h5, h6]

/-- The callback, when it does not get to walk the stack: nothing but the scheduling
state and `m_lastTime` changes. -/
theorem m_handler_of_not_walks (env : SampleEnv) (p q : SamplingProfiler) (events : List Event)
    (h : m_handler env p = Result.ok (q, events)) (hn : ¬∃ r, Walks env p r) :
    q.m_stackTraces = p.m_stackTraces ∧ q.m_seenExecutables = p.m_seenExecutables ∧
      q.m_currentFrames = p.m_currentFrames ∧ q.m_totalTime = p.m_totalTime ∧
      q.m_indexOfNextStackTraceToVerify = p.m_indexOfNextStackTraceToVerify := by
  unfold m_handler at h
  split_ifs at h with hg
  · simp at h
    obtain ⟨rfl, -⟩ := h
    simp
  · simp only [Bool.or_eq_true, Bool.not_eq_true', decide_eq_true_eq, not_or,
      Bool.not_eq_false] at hg
    obtain ⟨⟨ha, ht⟩, hp⟩ := hg
    unfold sample at h
    by_cases he : env.vm.entryScope = true
    · by_cases hs : env.didSuspend = true
      · simp only [he, hs, if_true] at h
        split at h
        · rename_i p1 ev hsplit
          split at hsplit
          · rename_i r hr
            exact absurd ⟨r, ha, ht, by simpa using hp, he, hs, hr⟩ hn
          · simp at hsplit
          · simp at hsplit
        · simp at h
        · simp at h
      · simp [he, hs] at h
        obtain ⟨rfl, -⟩ := h
        simp [dispatchFunction]
    · simp [he] at h
      obtain ⟨rfl, -⟩ := h
      simp [dispatchFunction]

theorem recordWalk_of_invalid (t : Double) (r : WalkResult) (p : SamplingProfiler)
    (h : r.wasValidWalk = false) :
    (recordWalk t r p).1.m_stackTraces = p.m_stackTraces ∧
      (recordWalk t r p).1.m_seenExecutables = p.m_seenExecutables := by
  simp [recordWalk, h]

/-- C1. A sampler callback whose walk stops at a non-null frame pointer outside the
stack bounds of every registered thread leaves `m_stackTraces` and
`m_seenExecutables` as they were: the callback returns and appends nothing, whatever
the walk had already written into the buffer.  (Every frame pointer the walker takes,
at the start or by `advanceToParentFrame`, is checked by `resetAtMachineFrame`, and
the walk stops at the first one that fails, so the pointer the walker met is the one
it holds on return.) -/
theorem handler_discards_walk_at_invalid_frame_pointer (env : SampleEnv)
    (p : SamplingProfiler) (r : WalkResult)
    (hwalk : (FrameWalker.mk0 (chooseCallFrame env)).walk env.vm p.m_currentFrames = Result.ok r)
    (hnonnull : r.walker.m_callFrame ≠ 0)
    (hinvalid : isValidFramePointer env.vm r.walker.m_callFrame = false) :
    r.wasValidWalk = false ∧
    ∃ q events, m_handler env p = Result.ok (q, events) ∧
      q.m_stackTraces = p.m_stackTraces ∧ q.m_seenExecutables = p.m_seenExecutables := by
  have hbail : r.wasValidWalk = false := by
    have := walk_bailInv env.vm _ _ _ hwalk hnonnull hinvalid
    simp [WalkResult.wasValidWalk, this]
  refine ⟨hbail, ?_⟩
  have hrec := recordWalk_of_invalid env.elapsedTime1 r p hbail
  unfold m_handler sample
  rw [hwalk]
  by_cases hg : (!p.m_isActive || decide (p.m_jscExecutionThread = 0) || p.m_isPaused) = true
  · rw [if_pos hg]
    exact ⟨_, _, rfl, rfl, rfl⟩
  · rw [if_neg hg]
    by_cases he : env.vm.entryScope = true
    · by_cases hs : env.didSuspend = true
      · simp only [he, hs, if_true]
        exact ⟨_, _, rfl, hrec.1, hrec.2⟩
      · simp only [he, hs, if_true]
        exact ⟨_, _, rfl, rfl, rfl⟩
    · simp only [he]
      exact ⟨_, _, rfl, rfl, rfl⟩


theorem handler_discards_walk_at_invalid_frame_pointer_witness :
    WalkResult.wasValidWalk ⟨⟨5000, true, 0, 2⟩,
          [⟨FrameType.VerifiedExecutable, 111⟩, ⟨FrameType.VerifiedExecutable, 121⟩,
            StackFrame.default, StackFrame.default], false, false, 2⟩ = false ∧
    ∃ q events, m_handler (exampleEnv 2 5000) (exampleProfiler 4) = Result.ok (q, events) ∧
      q.m_stackTraces = (exampleProfiler 4).m_stackTraces ∧
      q.m_seenExecutables = (exampleProfiler 4).m_seenExecutables :=
  handler_discards_walk_at_invalid_frame_pointer (exampleEnv 2 5000) (exampleProfiler 4)
    ⟨⟨5000, true, 0, 2⟩,
      [⟨FrameType.VerifiedExecutable, 111⟩, ⟨FrameType.VerifiedExecutable, 121⟩,
        StackFrame.default, StackFrame.default], false, false, 2⟩
    (by decide) (by decide) (by decide)

theorem vectorGrow_length (v : List StackFrame) (n : Nat) (h : v.length ≤ n) :
    (vectorGrow v n).length = n := by
  simp [vectorGrow]
  omega

/-- C4 (amended). When the walk of a sampler callback returns with the overflow flag
set, was valid, and the buffer is not empty, the callback appends the walk result to
`m_stackTraces` and the capacity of `m_currentFrames` becomes
`floor(1.25 * old capacity)`, which is at least the old capacity; in every other
callback (the walk not overflowing, not valid, or no walk at all) the capacity is
unchanged. -/
theorem handler_buffer_capacity (env : SampleEnv) (p : SamplingProfiler) :
    (∀ r, Walks env p r →
      ∃ q events, m_handler env p = Result.ok (q, events) ∧
        (r.didRunOutOfSpace = true ∧ r.wasValidWalk = true ∧ 0 < p.m_currentFrames.length →
          q.m_stackTraces = p.m_stackTraces ++
            [⟨r.stacktraceNeedsVerification, env.elapsedTime1, r.stackTrace.take r.size⟩] ∧
          q.m_currentFrames.length = p.m_currentFrames.length * 5 / 4 ∧
          p.m_currentFrames.length ≤ q.m_currentFrames.length) ∧
        (¬(r.didRunOutOfSpace = true ∧ r.wasValidWalk = true ∧ 0 < p.m_currentFrames.length) →
          q.m_currentFrames.length = p.m_currentFrames.length)) ∧
    (∀ q events, m_handler env p = Result.ok (q, events) → (¬∃ r, Walks env p r) →
      q.m_currentFrames.length = p.m_currentFrames.length) := by
  constructor
  · intro r hw
    refine ⟨_, _, m_handler_of_walks env p r hw, ?_, ?_⟩
    · rintro ⟨ho, hv, hc⟩
      have hlen := walk_length _ _ _ _ hw.2.2.2.2.2
      have hsz := walk_overflow_size _ _ _ _ hw.2.2.2.2.2 ho
      have hs0 : r.size ≠ 0 := by omega
      simp only [dispatchFunction, recordWalk, hv, hs0, ho, ne_eq, not_false_eq_true,
        decide_True, Bool.and_self, if_true]
      refine ⟨trivial, ?_, ?_⟩
      · rw [vectorGrow_length _ _ (by omega), hlen]
      · rw [vectorGrow_length _ _ (by omega), hlen]
        omega
    · intro hn
      have hlen := walk_length _ _ _ _ hw.2.2.2.2.2
      simp only [dispatchFunction, recordWalk]
      by_cases hk : (r.wasValidWalk && decide (r.size ≠ 0)) = true
      · by_cases ho : r.didRunOutOfSpace = true
        · exfalso
          apply hn
          have hsz := walk_overflow_size _ _ _ _ hw.2.2.2.2.2 ho
          refine ⟨ho, (Bool.and_eq_true _ _ ▸ hk).1, ?_⟩
          by_contra hc
          have h0 : p.m_currentFrames.length = 0 := by omega
          have h1 := walk_size_le _ _ _ _ hw.2.2.2.2.2
          simp only [Bool.and_eq_true, decide_eq_true_eq] at hk
          omega
        · simp only [hk, ho, if_true]
          simpa using hlen
      · simp only [hk]
        simpa using hlen
  · intro q events h hn
    rw [(m_handler_of_not_walks env p q events h hn).2.2.1]


theorem handler_buffer_capacity_witness :
    ∃ q events, m_handler (exampleEnv 20 0) (exampleProfiler 8) = Result.ok (q, events) ∧
      q.m_stackTraces.length = 1 ∧ q.m_currentFrames.length = 10 :=
  match (handler_buffer_capacity (exampleEnv 20 0) (exampleProfiler 8)).1
      ⟨⟨90, false, 0, 8⟩, (List.range 8).map (fun i => ⟨FrameType.VerifiedExecutable, 10 * i + 111⟩),
        true, false, 8⟩ (by decide) with
  | ⟨q, events, h, hkeep, _⟩ =>
    ⟨q, events, h, by rw [(hkeep ⟨by decide, by decide, by decide⟩).1]; rfl,
      (hkeep ⟨by decide, by decide, by decide⟩).2.1⟩

/-- C4 fails as stated: on four valid frames whose last caller pointer 5000 lies
outside every registered stack, a walk into a 4-slot buffer returns with
`didRunOutOfSpace` set (and `m_bailingOut` set), yet the callback appends nothing and
the capacity stays 4, not `floor(1.25 * 4) = 5`. -/
theorem handler_overflow_invalid_walk_counterexample :
    Walks (exampleEnv 4 5000) (exampleProfiler 4)
      { walker := ⟨5000, true, 0, 4⟩
        stackTrace := (List.range 4).map fun i => ⟨FrameType.VerifiedExecutable, 10 * i + 111⟩
        didRunOutOfSpace := true
        stacktraceNeedsVerification := false
        size := 4 } ∧
    (m_handler (exampleEnv 4 5000) (exampleProfiler 4)).bind
        (fun x => Result.ok (x.1.m_stackTraces, x.1.m_currentFrames.length)) =
      Result.ok ([], 4) ∧
    (exampleProfiler 4).m_currentFrames.length * 5 / 4 = 5 := by
  decide

/-! ## The deferred verifier -/

theorem Result.bind_eq_ok {α β : Type} (x : Result α) (f : α → Result β) (b : β) :
    x.bind f = Result.ok b ↔ ∃ a, x = Result.ok a ∧ f a = Result.ok b := by
  cases x <;> simp [Result.bind]

theorem hashSetAdd_mem (s : List Nat) (x e : Nat) : e ∈ hashSetAdd s x ↔ e ∈ s ∨ e = x := by
  unfold hashSetAdd
  split_ifs with h
  · constructor
    · exact Or.inl
    · rintro (h1 | rfl)
      · exact h1
      · exact h
  · simp

theorem forall₂_getElem? {α β : Type} {R : α → β → Prop} :
    ∀ {l : List α} {l1 : List β}, List.Forall₂ R l l1 → ∀ (i : Nat) (a : α), l[i]? = some a →
      ∃ b, l1[i]? = some b ∧ R a b
  | _, _, List.Forall₂.nil, i, a, h => by simp at h
  | _, _, List.Forall₂.cons hr hrest, 0, a, h => by
    simp at h
    subst h
    exact ⟨_, by simp, hr⟩
  | _, _, List.Forall₂.cons hr hrest, i + 1, a, h => by
    simp at h
    simpa using forall₂_getElem? hrest i a h

theorem forall₂_mem_right {α β : Type} {R : α → β → Prop} :
    ∀ {l : List α} {l1 : List β}, List.Forall₂ R l l1 → ∀ b ∈ l1, ∃ a ∈ l, R a b
  | _, _, List.Forall₂.nil, b, h => by simp at h
  | _, _, List.Forall₂.cons hr hrest, b, h => by
    simp only [List.mem_cons] at h
    rcases h with rfl | h
    · exact ⟨_, by simp, hr⟩
    · obtain ⟨a, ha, hab⟩ := forall₂_mem_right hrest b h
      exact ⟨a, by simp [ha], hab⟩

theorem forall₂_mem_left {α β : Type} {R : α → β → Prop} :
    ∀ {l : List α} {l1 : List β}, List.Forall₂ R l l1 → ∀ a ∈ l, ∃ b ∈ l1, R a b
  | _, _, List.Forall₂.nil, b, h => by simp at h
  | _, _, List.Forall₂.cons hr hrest, b, h => by
    simp only [List.mem_cons] at h
    rcases h with rfl | h
    · exact ⟨_, by simp, hr⟩
    · obtain ⟨a, ha, hab⟩ := forall₂_mem_left hrest b h
      exact ⟨a, by simp [ha], hab⟩

/-- What `verifyFrame` does to a frame and to the set of seen executables. -/
theorem verifyFrame_spec (heap : Heap) (f f1 : StackFrame) (seen seen1 : List Nat)
    (h : verifyFrame heap f seen = Result.ok (f1, seen1)) :
    (f.frameType ≠ FrameType.UnverifiedCallee →
      f1 = f ∧ seen1 = seen ∧ f.frameType = FrameType.VerifiedExecutable) ∧
    f1.frameType ≠ FrameType.UnverifiedCallee ∧
    (∀ e, e ∈ seen1 ↔ e ∈ seen ∨
      (f.frameType = FrameType.UnverifiedCallee ∧ f1.frameType = FrameType.VerifiedExecutable ∧
        f1.u = e)) := by
  unfold verifyFrame at h
  dsimp only at h
  split_ifs at h with h1 h2 h3 h4 h5 h6
  · simp at h
    obtain ⟨rfl, rfl⟩ := h
    refine ⟨fun _ => ⟨rfl, rfl, h2⟩, h1, fun e => ?_⟩
    simp [h1]
  · simp only [not_not] at h1
    simp at h
    obtain ⟨rfl, rfl⟩ := h
    simp [h1]
  · simp only [not_not] at h1
    simp at h
    obtain ⟨rfl, rfl⟩ := h
    simp [h1, frameTypeFromCallData]
    split_ifs <;> simp
  · simp only [not_not] at h1
    simp at h
    obtain ⟨rfl, rfl⟩ := h
    simp [h1, frameTypeFromCallData]
    split_ifs <;> simp
  · simp only [not_not] at h1
    simp at h
    obtain ⟨rfl, rfl⟩ := h
    simp only [h1, ne_eq, not_true_eq_false, false_implies, reduceCtorEq, not_false_eq_true,
      true_and, hashSetAdd_mem]
    intro e
    constructor
    · rintro (h | h)
      · exact Or.inl h
      · exact Or.inr h.symm
    · rintro (h | h)
      · exact Or.inl h
      · exact Or.inr h.symm

theorem frameVerified_mono {heap : Heap} {seen1 seen2 : List Nat} {f f1 : StackFrame}
    (h : FrameVerified heap seen1 f f1) (hs : ∀ e ∈ seen1, e ∈ seen2) :
    FrameVerified heap seen2 f f1 := by
  obtain ⟨s, s1, h1, h2⟩ := h
  exact ⟨s, s1, h1, fun e he => hs e (h2 e he)⟩

theorem verifyFrames_spec (heap : Heap) :
    ∀ (fs fs1 : List StackFrame) (seen seen1 : List Nat),
      verifyFrames heap fs seen = Result.ok (fs1, seen1) →
      List.Forall₂ (FrameVerified heap seen1) fs fs1 ∧ (∀ e ∈ seen, e ∈ seen1) ∧
        (∀ e ∈ seen1, e ∈ seen ∨
          ∃ f1 ∈ fs1, f1.frameType = FrameType.VerifiedExecutable ∧ f1.u = e)
  | [], fs1, seen, seen1, h => by
    simp [verifyFrames] at h
    obtain ⟨rfl, rfl⟩ := h
    exact ⟨List.Forall₂.nil, fun e he => he, fun e he => Or.inl he⟩
  | f :: fs, fs1, seen, seen1, h => by
    simp only [verifyFrames, Result.bind_eq_ok] at h
    obtain ⟨⟨f2, s2⟩, h1, ⟨fs2, s3⟩, h2, h3⟩ := h
    simp at h3
    obtain ⟨rfl, rfl⟩ := h3
    obtain ⟨ih1, ih2, ih3⟩ := verifyFrames_spec heap fs fs2 s2 s3 h2
    have hspec := verifyFrame_spec heap f f2 seen s2 h1
    refine ⟨List.Forall₂.cons ⟨seen, s2, h1, ih2⟩ ih1, ?_, ?_⟩
    · intro e he
      exact ih2 e ((hspec.2.2 e).2 (Or.inl he))
    · intro e he
      rcases ih3 e he with h4 | ⟨f1, hf1, hv, hu⟩
      · rcases (hspec.2.2 e).1 h4 with h5 | ⟨-, hv, hu⟩
        · exact Or.inl h5
        · exact Or.inr ⟨f2, by simp, hv, hu⟩
      · exact Or.inr ⟨f1, by simp [hf1], hv, hu⟩

theorem traceVerified_mono {heap : Heap} {seen1 seen2 : List Nat} {t t1 : StackTrace}
    (h : TraceVerified heap seen1 t t1) (hs : ∀ e ∈ seen1, e ∈ seen2) :
    TraceVerified heap seen2 t t1 := by
  refine ⟨h.1, fun hn => ?_⟩
  obtain ⟨h1, h2, h3⟩ := h.2 hn
  exact ⟨h1, h2, h3.imp fun _ _ hf => frameVerified_mono hf hs⟩

theorem verifyTrace_spec (heap : Heap) (t t1 : StackTrace) (seen seen1 : List Nat)
    (h : verifyTrace heap t seen = Result.ok (t1, seen1)) :
    TraceVerified heap seen1 t t1 ∧ (∀ e ∈ seen, e ∈ seen1) ∧
      (∀ e ∈ seen1, e ∈ seen ∨
        ∃ f1 ∈ t1.frames, f1.frameType = FrameType.VerifiedExecutable ∧ f1.u = e) := by
  unfold verifyTrace at h
  split_ifs at h with hn
  · simp at h
    obtain ⟨rfl, rfl⟩ := h
    simp at hn
    exact ⟨⟨fun _ => rfl, fun h2 => by simp [hn] at h2⟩, fun e he => he, fun e he => Or.inl he⟩
  · simp only [Result.bind_eq_ok] at h
    obtain ⟨⟨fs2, s2⟩, h1, h2⟩ := h
    simp at h2
    obtain ⟨rfl, rfl⟩ := h2
    simp at hn
    obtain ⟨ih1, ih2, ih3⟩ := verifyFrames_spec heap _ _ _ _ h1
    exact ⟨⟨fun h2 => by simp [hn] at h2, fun _ => ⟨rfl, rfl, ih1⟩⟩, ih2, ih3⟩

theorem verifyTraces_spec (heap : Heap) :
    ∀ (ts ts1 : List StackTrace) (seen seen1 : List Nat),
      verifyTraces heap ts seen = Result.ok (ts1, seen1) →
      List.Forall₂ (TraceVerified heap seen1) ts ts1 ∧ (∀ e ∈ seen, e ∈ seen1) ∧
        (∀ e ∈ seen1, e ∈ seen ∨
          ∃ t1 ∈ ts1, ∃ f1 ∈ t1.frames, f1.frameType = FrameType.VerifiedExecutable ∧ f1.u = e)
  | [], ts1, seen, seen1, h => by
    simp [verifyTraces] at h
    obtain ⟨rfl, rfl⟩ := h
    exact ⟨List.Forall₂.nil, fun e he => he, fun e he => Or.inl he⟩
  | t :: ts, ts1, seen, seen1, h => by
    simp only [verifyTraces, Result.bind_eq_ok] at h
    obtain ⟨⟨t2, s2⟩, h1, ⟨ts2, s3⟩, h2, h3⟩ := h
    simp at h3
    obtain ⟨rfl, rfl⟩ := h3
    obtain ⟨ih1, ih2, ih3⟩ := verifyTraces_spec heap ts ts2 s2 s3 h2
    obtain ⟨hs1, hs2, hs3⟩ := verifyTrace_spec heap t t2 seen s2 h1
    refine ⟨List.Forall₂.cons (traceVerified_mono hs1 ih2) ih1, fun e he => ih2 e (hs2 e he), ?_⟩
    intro e he
    rcases ih3 e he with h4 | ⟨t1, ht1, hx⟩
    · rcases hs3 e h4 with h5 | hx
      · exact Or.inl h5
      · exact Or.inr ⟨t2, by simp, hx⟩
    · exact Or.inr ⟨t1, by simp [ht1], hx⟩

/-- What a returning verifier run computed. -/
theorem processUnverifiedStackTraces_eq_ok (heap : Heap) (p q : SamplingProfiler)
    (h : processUnverifiedStackTraces heap p = Result.ok q) :
    ∃ ts seen,
      verifyTraces heap (p.m_stackTraces.drop p.m_indexOfNextStackTraceToVerify)
        p.m_seenExecutables = Result.ok (ts, seen) ∧
      q = { p with
        m_stackTraces := p.m_stackTraces.take p.m_indexOfNextStackTraceToVerify ++ ts
        m_seenExecutables := seen
        m_indexOfNextStackTraceToVerify :=
          (p.m_stackTraces.take p.m_indexOfNextStackTraceToVerify ++ ts).length } := by
  unfold processUnverifiedStackTraces at h
  simp only [Result.bind_eq_ok] at h
  obtain ⟨⟨ts, seen⟩, h1, h2⟩ := h
  simp only [Result.ok.injEq] at h2
  exact ⟨ts, seen, h1, h2.symm⟩

/-- The traces a verifier run leaves behind, position by position. -/
theorem processUnverifiedStackTraces_getElem? (heap : Heap) (p q : SamplingProfiler)
    (h : processUnverifiedStackTraces heap p = Result.ok q) (i : Nat) (t : StackTrace)
    (ht : p.m_stackTraces[i]? = some t) :
    (i < p.m_indexOfNextStackTraceToVerify → q.m_stackTraces[i]? = some t) ∧
    (p.m_indexOfNextStackTraceToVerify ≤ i →
      ∃ t1, q.m_stackTraces[i]? = some t1 ∧ TraceVerified heap q.m_seenExecutables t t1) := by
  obtain ⟨ts, seen, hv, rfl⟩ := processUnverifiedStackTraces_eq_ok heap p q h
  obtain ⟨hrel, -, -⟩ := verifyTraces_spec heap _ _ _ _ hv
  have hi : i < p.m_stackTraces.length := by
    rcases Nat.lt_or_ge i p.m_stackTraces.length with h1 | h1
    · exact h1
    · rw [List.getElem?_eq_none h1] at ht
      simp at ht
  constructor
  · intro hlt
    simp only
    rw [List.getElem?_append_left (by simp; omega), List.getElem?_take_of_lt hlt]
    exact ht
  · intro hge
    simp only
    have hlen : (p.m_stackTraces.take p.m_indexOfNextStackTraceToVerify).length =
        p.m_indexOfNextStackTraceToVerify := by
      simp; omega
    rw [List.getElem?_append_right (by omega), hlen]
    have hd : (p.m_stackTraces.drop p.m_indexOfNextStackTraceToVerify)[i -
        p.m_indexOfNextStackTraceToVerify]? = some t := by
      rw [List.getElem?_drop]
      rw [← ht]
      congr 1
      omega
    exact forall₂_getElem? hrel _ _ hd

/-- After a verifier run the index of the next trace to verify is the number of
stored traces. -/
theorem processUnverifiedStackTraces_index (heap : Heap) (p q : SamplingProfiler)
    (h : processUnverifiedStackTraces heap p = Result.ok q) :
    q.m_indexOfNextStackTraceToVerify = q.m_stackTraces.length := by
  obtain ⟨ts, seen, -, rfl⟩ := processUnverifiedStackTraces_eq_ok heap p q h
  rfl

/-- C5. `processUnverifiedStackTraces` is idempotent: a stored trace whose
`needsVerification` flag is false before a run is the same trace (same frames, types
and payloads) after it, and a second run right after a first one, with any heap,
returns the very same profiler: no trace, no frame, and neither `m_seenExecutables`
nor `m_indexOfNextStackTraceToVerify` changes. -/
theorem verifier_idempotent (heap1 heap2 : Heap) (p q : SamplingProfiler)
    (h : processUnverifiedStackTraces heap1 p = Result.ok q) :
    (∀ (i : Nat) (t : StackTrace), p.m_stackTraces[i]? = some t → t.needsVerification = false →
      q.m_stackTraces[i]? = some t) ∧
    processUnverifiedStackTraces heap2 q = Result.ok q := by
  constructor
  · intro i t ht hn
    obtain ⟨h1, h2⟩ := processUnverifiedStackTraces_getElem? heap1 p q h i t ht
    rcases Nat.lt_or_ge i p.m_indexOfNextStackTraceToVerify with hlt | hge
    · exact h1 hlt
    · obtain ⟨t1, ht1, hrel⟩ := h2 hge
      rw [ht1, hrel.1 hn]
  · have hidx := processUnverifiedStackTraces_index heap1 p q h
    unfold processUnverifiedStackTraces
    rw [hidx]
    simp [verifyTraces, Result.bind]
    rw [← hidx]

/-! ## Invariants of the reachable states -/

theorem addSeenExecutables_mem : ∀ (fs : List StackFrame) (seen : List Nat) (e : Nat),
    e ∈ addSeenExecutables fs seen ↔
      e ∈ seen ∨ ∃ f ∈ fs, f.frameType = FrameType.VerifiedExecutable ∧ f.u = e
  | [], seen, e => by simp [addSeenExecutables]
  | f :: fs, seen, e => by
    have ih := addSeenExecutables_mem fs
    unfold addSeenExecutables at ih ⊢
    rw [List.foldl_cons, ih]
    split_ifs with hv
    · rw [hashSetAdd_mem]
      constructor
      · rintro ((h | h) | ⟨g, hg, h⟩)
        · exact Or.inl h
        · exact Or.inr ⟨f, by simp, hv, h.symm⟩
        · exact Or.inr ⟨g, by simp [hg], h⟩
      · rintro (h | ⟨g, hg, h1, h2⟩)
        · exact Or.inl (Or.inl h)
        · simp only [List.mem_cons] at hg
          rcases hg with rfl | hg
          · exact Or.inl (Or.inr h2.symm)
          · exact Or.inr ⟨g, hg, h1, h2⟩
    · constructor
      · rintro (h | ⟨g, hg, h⟩)
        · exact Or.inl h
        · exact Or.inr ⟨g, by simp [hg], h⟩
      · rintro (h | ⟨g, hg, h1, h2⟩)
        · exact Or.inl h
        · simp only [List.mem_cons] at hg
          rcases hg with rfl | hg
          · exact absurd h1 hv
          · exact Or.inr ⟨g, hg, h1, h2⟩

theorem storeInv_nil : StoreInv [] [] 0 :=
  { index_le := Nat.le_refl _
    verified_below := by simp
    no_unverified := by simp
    walked := by simp
    seen_covers := by simp
    seen_carried := by simp
    nonempty := by simp }

/-- The store invariant survives the append of a walked trace. -/
theorem storeInv_append {traces : List StackTrace} {seen : List Nat} {index : Nat}
    (h : StoreInv traces seen index) (nv : Bool) (time : Double) (st : List StackFrame) (size : Nat)
    (hg : WalkedEntries nv st size) (h0 : size ≠ 0) (hle : size ≤ st.length) :
    StoreInv (traces ++ [⟨nv, time, st.take size⟩]) (addSeenExecutables (st.take size) seen)
      index := by
  refine ⟨?_, ?_, ?_, ?_, ?_, ?_, ?_⟩
  · simp
    exact Nat.le_succ_of_le h.index_le
  · rw [List.take_append_of_le_length h.index_le]
    exact h.verified_below
  · intro t ht hn f hf
    simp only [List.mem_append, List.mem_singleton] at ht
    rcases ht with ht | rfl
    · exact h.no_unverified t ht hn f hf
    · rcases hg f hf with h1 | h1
      · rw [h1]
        decide
      · simp only at hn
        rw [hn] at h1
        exact absurd h1.2 (by decide)
  · intro t ht hn f hf
    simp only [List.mem_append, List.mem_singleton] at ht
    rcases ht with ht | rfl
    · exact h.walked t ht hn f hf
    · rcases hg f hf with h1 | h1
      · exact Or.inl h1
      · exact Or.inr h1.1
  · intro t ht f hf hv
    rw [addSeenExecutables_mem]
    simp only [List.mem_append, List.mem_singleton] at ht
    rcases ht with ht | rfl
    · exact Or.inl (h.seen_covers t ht f hf hv)
    · exact Or.inr ⟨f, hf, hv, rfl⟩
  · intro e he
    rw [addSeenExecutables_mem] at he
    rcases he with he | ⟨f, hf, hv, hu⟩
    · obtain ⟨t, ht, hx⟩ := h.seen_carried e he
      exact ⟨t, by simp [ht], hx⟩
    · exact ⟨⟨nv, time, st.take size⟩, by simp, f, hf, hv, hu⟩
  · intro t ht
    simp only [List.mem_append, List.mem_singleton] at ht
    rcases ht with ht | rfl
    · exact h.nonempty t ht
    · simp only
      intro hnil
      have := congrArg List.length hnil
      rw [List.length_take, List.length_nil] at this
      omega


/-- What the store invariant gives for a trace after the verifier handled it. -/
theorem traceVerified_facts {heap : Heap} {traces : List StackTrace} {seen seen1 : List Nat}
    {index : Nat} (h : StoreInv traces seen index) {t t1 : StackTrace} (ht : t ∈ traces)
    (hrel : TraceVerified heap seen1 t t1) (hmono : ∀ e ∈ seen, e ∈ seen1) :
    t1.needsVerification = false ∧
    (∀ f1 ∈ t1.frames, f1.frameType ≠ FrameType.UnverifiedCallee) ∧
    (∀ f1 ∈ t1.frames, f1.frameType = FrameType.VerifiedExecutable → f1.u ∈ seen1) ∧
    t1.frames ≠ [] ∧
    (∀ f ∈ t.frames, f.frameType = FrameType.VerifiedExecutable → f ∈ t1.frames) := by
  cases hn : t.needsVerification with
  | false =>
    have := hrel.1 hn
    subst this
    exact ⟨hn, h.no_unverified _ ht hn, fun f hf hv => hmono _ (h.seen_covers _ ht f hf hv),
      h.nonempty _ ht, fun f hf _ => hf⟩
  | true =>
    obtain ⟨h1, -, h3⟩ := hrel.2 hn
    refine ⟨h1, ?_, ?_, ?_, ?_⟩
    · intro f1 hf1
      obtain ⟨f, -, s, s1, hv, -⟩ := forall₂_mem_right h3 f1 hf1
      exact (verifyFrame_spec heap f f1 s s1 hv).2.1
    · intro f1 hf1 hv1
      obtain ⟨f, hf, s, s1, hv, hsub⟩ := forall₂_mem_right h3 f1 hf1
      have hspec := verifyFrame_spec heap f f1 s s1 hv
      by_cases hu : f.frameType = FrameType.UnverifiedCallee
      · exact hsub _ ((hspec.2.2 f1.u).2 (Or.inr ⟨hu, hv1, rfl⟩))
      · obtain ⟨rfl, -, -⟩ := hspec.1 hu
        exact hmono _ (h.seen_covers _ ht _ hf hv1)
    · intro hnil
      have hlen := h3.length_eq
      rw [hnil] at hlen
      exact h.nonempty _ ht (List.length_eq_zero.mp hlen)
    · intro f hf hv
      obtain ⟨f1, hf1, s, s1, hvf, -⟩ := forall₂_mem_left h3 f hf
      have hspec := verifyFrame_spec heap f f1 s s1 hvf
      obtain ⟨rfl, -, -⟩ := hspec.1 (by rw [hv]; decide)
      exact hf1

/-- The store invariant survives a verifier run. -/
theorem storeInv_verify {heap : Heap} {traces ts1 : List StackTrace} {seen seen1 : List Nat}
    {index : Nat} (h : StoreInv traces seen index)
    (hv : verifyTraces heap (traces.drop index) seen = Result.ok (ts1, seen1)) :
    StoreInv (traces.take index ++ ts1) seen1 (traces.take index ++ ts1).length := by
  obtain ⟨hrel, hmono, horigin⟩ := verifyTraces_spec heap _ _ _ _ hv
  have hpre : ∀ t ∈ traces.take index, t ∈ traces := fun t ht => List.mem_of_mem_take ht
  have hpost : ∀ t1 ∈ ts1, ∃ t ∈ traces, TraceVerified heap seen1 t t1 := by
    intro t1 ht1
    obtain ⟨t, ht, hr⟩ := forall₂_mem_right hrel t1 ht1
    exact ⟨t, List.mem_of_mem_drop ht, hr⟩
  refine ⟨Nat.le_refl _, ?_, ?_, ?_, ?_, ?_, ?_⟩
  · rw [List.take_length]
    intro t ht
    simp only [List.mem_append] at ht
    rcases ht with ht | ht
    · exact h.verified_below t ht
    · obtain ⟨t0, ht0, hr⟩ := hpost t ht
      exact (traceVerified_facts h ht0 hr hmono).1
  · intro t ht hn
    simp only [List.mem_append] at ht
    rcases ht with ht | ht
    · exact h.no_unverified t (hpre t ht) hn
    · obtain ⟨t0, ht0, hr⟩ := hpost t ht
      exact (traceVerified_facts h ht0 hr hmono).2.1
  · intro t ht hn
    simp only [List.mem_append] at ht
    rcases ht with ht | ht
    · rw [h.verified_below t ht] at hn
      exact absurd hn (by decide)
    · obtain ⟨t0, ht0, hr⟩ := hpost t ht
      rw [(traceVerified_facts h ht0 hr hmono).1] at hn
      exact absurd hn (by decide)
  · intro t ht
    simp only [List.mem_append] at ht
    rcases ht with ht | ht
    · intro f hf hvf
      exact hmono _ (h.seen_covers t (hpre t ht) f hf hvf)
    · obtain ⟨t0, ht0, hr⟩ := hpost t ht
      exact (traceVerified_facts h ht0 hr hmono).2.2.1
  · intro e he
    rcases horigin e he with he | ⟨t1, ht1, hx⟩
    · obtain ⟨t, ht, f, hf, hvf, hu⟩ := h.seen_carried e he
      rw [← List.take_append_drop index traces] at ht
      simp only [List.mem_append] at ht
      rcases ht with ht | ht
      · exact ⟨t, by simp [ht], f, hf, hvf, hu⟩
      · obtain ⟨t1, ht1, hr⟩ := forall₂_mem_left hrel t ht
        have hfacts := traceVerified_facts h (List.mem_of_mem_drop ht) hr hmono
        exact ⟨t1, by simp [ht1], f, hfacts.2.2.2.2 f hf hvf, hvf, hu⟩
    · exact ⟨t1, by simp [ht1], hx⟩
  · intro t ht
    simp only [List.mem_append] at ht
    rcases ht with ht | ht
    · exact h.nonempty t (hpre t ht)
    · obtain ⟨t0, ht0, hr⟩ := hpost t ht
      exact (traceVerified_facts h ht0 hr hmono).2.2.2.1

/-- The three ways a returning callback can have run: it found the profiler stopped,
paused or without a thread; it rescheduled itself without walking; or it walked the
stack and rescheduled itself. -/
theorem m_handler_cases (env : SampleEnv) (p q : SamplingProfiler) (events : List Event)
    (h : m_handler env p = Result.ok (q, events)) :
    q = { p with m_hasDispatchedFunction := false, m_refCount := p.m_refCount - 1 } ∨
    q = dispatchFunction env.elapsedTime3 { p with m_lastTime := env.elapsedTime2 } ∨
    ∃ r, Walks env p r ∧
      q = dispatchFunction env.elapsedTime3
        { (recordWalk env.elapsedTime1 r p).1 with m_lastTime := env.elapsedTime2 } := by
  by_cases hw : ∃ r, Walks env p r
  · obtain ⟨r, hr⟩ := hw
    rw [m_handler_of_walks env p r hr] at h
    simp only [Result.ok.injEq, Prod.mk.injEq] at h
    exact Or.inr (Or.inr ⟨r, hr, h.1.symm⟩)
  · unfold m_handler at h
    split_ifs at h with hg
    · simp only [Result.ok.injEq, Prod.mk.injEq] at h
      exact Or.inl h.1.symm
    · simp only [Bool.or_eq_true, Bool.not_eq_true', decide_eq_true_eq, not_or,
        Bool.not_eq_false] at hg
      obtain ⟨⟨ha, ht⟩, hp⟩ := hg
      unfold sample at h
      by_cases he : env.vm.entryScope = true
      · by_cases hs : env.didSuspend = true
        · simp only [he, hs, if_true] at h
          split at h
          · rename_i p1 ev hsplit
            split at hsplit
            · rename_i r hr
              exact absurd ⟨r, ha, ht, by simpa using hp, he, hs, hr⟩ hw
            · simp at hsplit
            · simp at hsplit
          · simp at h
          · simp at h
        · simp [he, hs] at h
          obtain ⟨rfl, -⟩ := h
          exact Or.inr (Or.inl rfl)
      · simp [he] at h
        obtain ⟨rfl, -⟩ := h
        exact Or.inr (Or.inl rfl)

/-- What `recordWalk` does to the profiler: it keeps the scheduling state and the
verifier index, never shrinks the buffer, and either leaves the store alone or
appends the walked frames as one trace. -/
theorem recordWalk_spec (time : Double) (r : WalkResult) (p : SamplingProfiler) :
    (recordWalk time r p).1.m_indexOfNextStackTraceToVerify = p.m_indexOfNextStackTraceToVerify ∧
    (recordWalk time r p).1.m_timerQueue = p.m_timerQueue ∧
    (recordWalk time r p).1.m_hasDispatchedFunction = p.m_hasDispatchedFunction ∧
    r.stackTrace.length ≤ (recordWalk time r p).1.m_currentFrames.length ∧
    (((recordWalk time r p).1.m_stackTraces = p.m_stackTraces ∧
        (recordWalk time r p).1.m_seenExecutables = p.m_seenExecutables) ∨
      (r.wasValidWalk = true ∧ r.size ≠ 0 ∧
        (recordWalk time r p).1.m_stackTraces = p.m_stackTraces ++
          [⟨r.stacktraceNeedsVerification, time, r.stackTrace.take r.size⟩] ∧
        (recordWalk time r p).1.m_seenExecutables =
          addSeenExecutables (r.stackTrace.take r.size) p.m_seenExecutables)) := by
  unfold recordWalk
  dsimp only
  split_ifs with hk ho
  · simp only [Bool.and_eq_true, decide_eq_true_eq] at hk
    refine ⟨rfl, rfl, rfl, ?_, Or.inr ⟨hk.1, hk.2, rfl, rfl⟩⟩
    simp [vectorGrow]
  · simp only [Bool.and_eq_true, decide_eq_true_eq] at hk
    exact ⟨rfl, rfl, rfl, Nat.le_refl _, Or.inr ⟨hk.1, hk.2, rfl, rfl⟩⟩
  · exact ⟨rfl, rfl, rfl, Nat.le_refl _, Or.inl ⟨rfl, rfl⟩⟩

/-- The store invariant survives a sampler callback. -/
theorem m_handler_storeInv (env : SampleEnv) (p q : SamplingProfiler) (events : List Event)
    (h : m_handler env p = Result.ok (q, events))
    (hs : StoreInv p.m_stackTraces p.m_seenExecutables p.m_indexOfNextStackTraceToVerify) :
    StoreInv q.m_stackTraces q.m_seenExecutables q.m_indexOfNextStackTraceToVerify := by
  rcases m_handler_cases env p q events h with rfl | rfl | ⟨r, hr, rfl⟩
  · exact hs
  · exact hs
  · obtain ⟨h1, -, -, -, h5⟩ := recordWalk_spec env.elapsedTime1 r p
    simp only [dispatchFunction]
    rw [h1]
    rcases h5 with ⟨h6, h7⟩ | ⟨-, h0, h6, h7⟩
    · rw [h6, h7]
      exact hs
    · rw [h6, h7]
      have hwalk := hr.2.2.2.2.2
      have hle : r.size ≤ r.stackTrace.length := by
        rw [walk_length _ _ _ _ hwalk]
        exact walk_size_le _ _ _ _ hwalk
      exact storeInv_append hs _ _ _ _ (walk_walkedEntries _ _ _ _ hwalk) h0 hle

/-- The scheduling flag and the timer queue after a sampler callback. -/
theorem m_handler_timer (env : SampleEnv) (p q : SamplingProfiler) (events : List Event)
    (h : m_handler env p = Result.ok (q, events)) :
    (q.m_hasDispatchedFunction = false ∧ q.m_timerQueue = p.m_timerQueue) ∨
      (q.m_hasDispatchedFunction = true ∧ q.m_timerQueue = p.m_timerQueue + 1) := by
  rcases m_handler_cases env p q events h with rfl | rfl | ⟨r, hr, rfl⟩
  · exact Or.inl ⟨rfl, rfl⟩
  · exact Or.inr ⟨rfl, rfl⟩
  · obtain ⟨-, h2, -, -, -⟩ := recordWalk_spec env.elapsedTime1 r p
    exact Or.inr ⟨rfl, by simp [dispatchFunction, h2]⟩

/-- A sampler callback never shrinks the frame buffer. -/
theorem m_handler_capacity_le (env : SampleEnv) (p q : SamplingProfiler) (events : List Event)
    (h : m_handler env p = Result.ok (q, events)) :
    p.m_currentFrames.length ≤ q.m_currentFrames.length := by
  rcases m_handler_cases env p q events h with rfl | rfl | ⟨r, hr, rfl⟩
  · exact Nat.le_refl _
  · exact Nat.le_refl _
  · obtain ⟨-, -, -, h4, -⟩ := recordWalk_spec env.elapsedTime1 r p
    rw [walk_length _ _ _ _ hr.2.2.2.2.2] at h4
    exact h4

/-- The profiler that `stacktracesAsJSON` leaves behind is the one its verifier run
produced. -/
theorem stacktracesAsJSON_state (heap : Heap) (p q : SamplingProfiler) (json : String)
    (h : stacktracesAsJSON heap p = Result.ok (q, json)) :
    processUnverifiedStackTraces heap p = Result.ok q := by
  unfold stacktracesAsJSON at h
  simp only [Result.bind_eq_ok] at h
  obtain ⟨p1, h1, s, -, h2⟩ := h
  simp only [Result.ok.injEq, Prod.mk.injEq] at h2
  rw [h1, h2.1]

theorem dispatchIfNecessary_store (entryScope : Bool) (time : Double) (p : SamplingProfiler) :
    (dispatchIfNecessary entryScope time p).m_stackTraces = p.m_stackTraces ∧
    (dispatchIfNecessary entryScope time p).m_seenExecutables = p.m_seenExecutables ∧
    (dispatchIfNecessary entryScope time p).m_indexOfNextStackTraceToVerify =
      p.m_indexOfNextStackTraceToVerify ∧
    (dispatchIfNecessary entryScope time p).m_currentFrames = p.m_currentFrames := by
  unfold dispatchIfNecessary
  split_ifs <;> exact ⟨rfl, rfl, rfl, rfl⟩

theorem dispatchIfNecessary_timer (entryScope : Bool) (time : Double) (p : SamplingProfiler)
    (h : p.m_timerQueue = if p.m_hasDispatchedFunction then 1 else 0) :
    (dispatchIfNecessary entryScope time p).m_timerQueue =
      if (dispatchIfNecessary entryScope time p).m_hasDispatchedFunction then 1 else 0 := by
  unfold dispatchIfNecessary
  by_cases hc : (p.m_isActive && !p.m_hasDispatchedFunction &&
      decide (p.m_jscExecutionThread ≠ 0) && entryScope) = true
  · rw [if_pos hc]
    simp only [Bool.and_eq_true, Bool.not_eq_true', decide_eq_true_eq] at hc
    simp [dispatchFunction, h, hc.1.1.2]
  · rw [if_neg hc]
    exact h

/-- Every operation keeps the invariant. -/
theorem run_wellFormed (op : Op) (p q : SamplingProfiler) (hp : WellFormed p)
    (he : op.enabled p = true) (h : op.run p = Result.ok q) : WellFormed q := by
  cases op with
  | start entryScope elapsedTime =>
    simp only [Op.run, Result.ok.injEq] at h
    subst h
    obtain ⟨h1, h2, h3, h4⟩ := dispatchIfNecessary_store entryScope elapsedTime
      { p with m_isActive := true }
    refine ⟨?_, ?_, ?_⟩
    · simp only [start, h1, h2, h3]
      exact hp.store
    · exact dispatchIfNecessary_timer _ _ _ hp.timer
    · simp only [start, h4]
      exact hp.capacity
  | stop =>
    simp only [Op.run, Result.ok.injEq] at h
    subst h
    exact ⟨hp.store, hp.timer, hp.capacity⟩
  | shutdown =>
    simp only [Op.run, Result.ok.injEq] at h
    subst h
    exact ⟨hp.store, hp.timer, hp.capacity⟩
  | pause =>
    simp only [Op.run, Result.ok.injEq] at h
    subst h
    exact ⟨hp.store, hp.timer, hp.capacity⟩
  | noticeCurrentThreadAsJSCExecutionThread thread =>
    simp only [Op.run, Result.ok.injEq] at h
    subst h
    exact ⟨hp.store, hp.timer, hp.capacity⟩
  | noticeJSLockAcquisition thread =>
    simp only [Op.run, Result.ok.injEq] at h
    subst h
    exact ⟨hp.store, hp.timer, hp.capacity⟩
  | noticeVMEntry thread entryScope elapsedTime1 elapsedTime2 =>
    simp only [Op.run, Result.ok.injEq] at h
    subst h
    obtain ⟨h1, h2, h3, h4⟩ := dispatchIfNecessary_store entryScope elapsedTime2
      { noticeCurrentThreadAsJSCExecutionThread thread p with m_lastTime := elapsedTime1 }
    refine ⟨?_, ?_, ?_⟩
    · simp only [noticeVMEntry, h1, h2, h3]
      exact hp.store
    · exact dispatchIfNecessary_timer _ _ _ hp.timer
    · simp only [noticeVMEntry, h4]
      exact hp.capacity
  | clearData =>
    simp only [Op.run, Result.ok.injEq] at h
    subst h
    exact ⟨storeInv_nil, hp.timer, hp.capacity⟩
  | processUnverifiedStackTraces heap =>
    simp only [Op.run] at h
    obtain ⟨ts, seen, hv, rfl⟩ := processUnverifiedStackTraces_eq_ok heap p q h
    exact ⟨storeInv_verify hp.store hv, hp.timer, hp.capacity⟩
  | stacktracesAsJSON heap =>
    simp only [Op.run, Result.bind_eq_ok] at h
    obtain ⟨⟨q1, json⟩, h1, h3⟩ := h
    simp only [Result.ok.injEq] at h3
    subst h3
    obtain ⟨ts, seen, hv, rfl⟩ := processUnverifiedStackTraces_eq_ok heap p _
      (stacktracesAsJSON_state heap p _ _ h1)
    exact ⟨storeInv_verify hp.store hv, hp.timer, hp.capacity⟩
  | handler env =>
    simp only [Op.run, Result.bind_eq_ok] at h
    obtain ⟨⟨q1, events⟩, h1, h2⟩ := h
    simp only [Result.ok.injEq] at h2
    subst h2
    simp only [Op.enabled, decide_eq_true_eq] at he
    have htimer := hp.timer
    have hflag : p.m_hasDispatchedFunction = true := by
      by_contra hf
      simp [hf] at htimer
      omega
    rw [hflag] at htimer
    simp only [if_true] at htimer
    refine ⟨m_handler_storeInv env _ _ _ h1 hp.store, ?_, ?_⟩
    · rcases m_handler_timer env _ _ _ h1 with ⟨h3, h4⟩ | ⟨h3, h4⟩
      · rw [h3, h4]
        simp [htimer]
      · rw [h3, h4]
        simp [htimer]
    · exact Nat.le_trans hp.capacity
        (m_handler_capacity_le env { p with m_timerQueue := p.m_timerQueue - 1 } _ _ h1)

/-- A freshly constructed profiler satisfies the invariant. -/
theorem init_wellFormed (lastTime : Double) : WellFormed (SamplingProfiler.init lastTime) :=
  ⟨storeInv_nil, rfl, by
    show 256 ≤ (vectorGrow [] 256).length
    rw [vectorGrow_length [] 256 (Nat.zero_le _)]⟩

/-- Every reachable profiler state satisfies the invariant. -/
theorem reachable_wellFormed (p : SamplingProfiler) (h : Reachable p) : WellFormed p := by
  induction h with
  | init lastTime => exact init_wellFormed lastTime
  | step op _ he hrun ih => exact run_wellFormed op _ _ ih he hrun

/-! ## Example states -/

set_option maxRecDepth 100000 in
theorem exampleSampled_reachable : Reachable exampleSampled :=
  Reachable.step (Op.handler exampleHostEnv)
    (Reachable.step (Op.start true 3)
      (Reachable.step (Op.noticeVMEntry 1 true 1 2) (Reachable.init 0) rfl rfl) rfl rfl)
    (by decide) (by decide)

set_option maxRecDepth 100000 in
theorem exampleVerified_eq :
    processUnverifiedStackTraces exampleHeap exampleSampled = Result.ok exampleVerified := by
  decide

theorem exampleHeap_consistent : HeapConsistent exampleHeap :=
  fun _ _ _ _ => rfl

/-! ## The verifier on reachable states -/

/-- The outcome of `verifyFrame` on an `UnverifiedCallee` entry, by the three cases of
the source. -/
theorem verifyFrame_unverified (heap : Heap) (f f1 : StackFrame) (s s1 : List Nat)
    (hu : f.frameType = FrameType.UnverifiedCallee)
    (h : verifyFrame heap f s = Result.ok (f1, s1)) :
    (heap.isValueGCObject f.u = false → f1 = ⟨FrameType.Unknown, f.u⟩) ∧
    (heap.isValueGCObject f.u = true →
      ¬(heap.isJSFunctionType f.u = true ∧ heap.executable f.u ≠ 0) →
      f1 = ⟨frameTypeFromCallData heap f.u, f.u⟩) ∧
    (heap.isValueGCObject f.u = true → heap.isJSFunctionType f.u = true →
      heap.executable f.u ≠ 0 →
      f1 = ⟨FrameType.VerifiedExecutable, heap.executable f.u⟩ ∧ heap.executable f.u ∈ s1) := by
  unfold verifyFrame at h
  dsimp only at h
  rw [if_neg (by simp [hu])] at h
  split_ifs at h with h3 h4 h5 h6
  · simp only [Result.ok.injEq, Prod.mk.injEq] at h
    obtain ⟨rfl, rfl⟩ := h
    simp only [Bool.not_eq_true', ] at h3
    simp [h3]
  · simp only [Result.ok.injEq, Prod.mk.injEq] at h
    obtain ⟨rfl, rfl⟩ := h
    simp only [Bool.not_eq_true', Bool.not_eq_false] at h3 h4
    simp [h3, h4]
  · simp only [Result.ok.injEq, Prod.mk.injEq] at h
    obtain ⟨rfl, rfl⟩ := h
    simp only [Bool.not_eq_true', Bool.not_eq_false] at h3 h4
    simp [h3, h4, h5]
  · simp only [Result.ok.injEq, Prod.mk.injEq] at h
    obtain ⟨rfl, rfl⟩ := h
    simp only [Bool.not_eq_true', Bool.not_eq_false] at h3 h4
    simp [h3, h4, h5, hashSetAdd_mem]

/-- Where the verifier puts the entry `j` of a flagged trace `i` of a well-formed
store. -/
theorem verifier_entry (heap : Heap) (p q : SamplingProfiler)
    (hs : StoreInv p.m_stackTraces p.m_seenExecutables p.m_indexOfNextStackTraceToVerify)
    (h : processUnverifiedStackTraces heap p = Result.ok q) (i j : Nat) (t : StackTrace)
    (f : StackFrame) (ht : p.m_stackTraces[i]? = some t) (hn : t.needsVerification = true)
    (hf : t.frames[j]? = some f) :
    ∃ t1 f1, q.m_stackTraces[i]? = some t1 ∧ t1.frames[j]? = some f1 ∧
      FrameVerified heap q.m_seenExecutables f f1 := by
  have hge : p.m_indexOfNextStackTraceToVerify ≤ i := by
    by_contra hlt
    have hmem : t ∈ p.m_stackTraces.take p.m_indexOfNextStackTraceToVerify := by
      rw [List.mem_iff_getElem?]
      exact ⟨i, by rw [List.getElem?_take_of_lt (by omega)]; exact ht⟩
    rw [hs.verified_below t hmem] at hn
    exact absurd hn (by decide)
  obtain ⟨t1, ht1, hrel⟩ := (processUnverifiedStackTraces_getElem? heap p q h i t ht).2 hge
  obtain ⟨f1, hf1, hfv⟩ := forall₂_getElem? (hrel.2 hn).2.2 j f hf
  exact ⟨t1, f1, ht1, hf1, hfv⟩

theorem verifyFrame_returns (heap : Heap) (hc : HeapConsistent heap) (f : StackFrame)
    (seen : List Nat)
    (hf : f.frameType = FrameType.VerifiedExecutable ∨ f.frameType = FrameType.UnverifiedCallee) :
    ∃ r, verifyFrame heap f seen = Result.ok r := by
  unfold verifyFrame
  dsimp only
  rcases hf with hf | hf
  · rw [if_pos (by rw [hf]; decide), if_pos hf]
    exact ⟨_, rfl⟩
  · rw [if_neg (by simp [hf])]
    split_ifs with h3 h4 h5 h6
    · exact ⟨_, rfl⟩
    · exact ⟨_, rfl⟩
    · exact ⟨_, rfl⟩
    · exact ⟨_, rfl⟩
    · simp only [Bool.not_eq_true', Bool.not_eq_false] at h3 h4
      exact absurd (hc _ h3 h4 h5) h6

theorem verifyFrames_returns (heap : Heap) (hc : HeapConsistent heap) :
    ∀ (fs : List StackFrame) (seen : List Nat),
      (∀ f ∈ fs, f.frameType = FrameType.VerifiedExecutable ∨
        f.frameType = FrameType.UnverifiedCallee) →
      ∃ r, verifyFrames heap fs seen = Result.ok r
  | [], seen, _ => ⟨_, rfl⟩
  | f :: fs, seen, h => by
    obtain ⟨r1, h1⟩ := verifyFrame_returns heap hc f seen (h f (by simp))
    obtain ⟨r2, h2⟩ := verifyFrames_returns heap hc fs r1.2 fun g hg => h g (by simp [hg])
    simp only [verifyFrames, h1, h2, Result.bind]
    exact ⟨_, rfl⟩

theorem verifyTraces_returns (heap : Heap) (hc : HeapConsistent heap) :
    ∀ (ts : List StackTrace) (seen : List Nat),
      (∀ t ∈ ts, t.needsVerification = true → ∀ f ∈ t.frames,
        f.frameType = FrameType.VerifiedExecutable ∨ f.frameType = FrameType.UnverifiedCallee) →
      ∃ r, verifyTraces heap ts seen = Result.ok r
  | [], seen, _ => ⟨_, rfl⟩
  | t :: ts, seen, h => by
    have h1 : ∃ r1, verifyTrace heap t seen = Result.ok r1 := by
      unfold verifyTrace
      by_cases hn : t.needsVerification = true
      · obtain ⟨r, hr⟩ := verifyFrames_returns heap hc t.frames seen (h t (by simp) hn)
        simp only [hn, hr, Result.bind, Bool.not_true, Bool.false_eq_true, if_false]
        exact ⟨_, rfl⟩
      · simp only [Bool.not_eq_true] at hn
        simp only [hn, Bool.not_false, if_true]
        exact ⟨_, rfl⟩
    obtain ⟨r1, h1⟩ := h1
    obtain ⟨r2, h2⟩ := verifyTraces_returns heap hc ts r1.2 fun g hg => h g (by simp [hg])
    simp only [verifyTraces, h1, h2, Result.bind]
    exact ⟨_, rfl⟩

/-- On a well-formed store and a consistent heap the verifier returns. -/
theorem processUnverifiedStackTraces_returns (heap : Heap) (hc : HeapConsistent heap)
    (p : SamplingProfiler)
    (hs : StoreInv p.m_stackTraces p.m_seenExecutables p.m_indexOfNextStackTraceToVerify) :
    ∃ q, processUnverifiedStackTraces heap p = Result.ok q := by
  obtain ⟨r, hr⟩ := verifyTraces_returns heap hc
    (p.m_stackTraces.drop p.m_indexOfNextStackTraceToVerify) p.m_seenExecutables
    fun t ht => hs.walked t (List.mem_of_mem_drop ht)
  simp only [processUnverifiedStackTraces, hr, Result.bind]
  exact ⟨_, rfl⟩

/-- C6 (amended). In a reachable profiler state, with a heap on which the
`RELEASE_ASSERT`s of the verifier hold, `processUnverifiedStackTraces` returns, and
whenever it returns it has rewritten every `UnverifiedCallee` entry of every trace
marked `needsVerification` as follows: if the decoded value is not a live GC object
the entry is `Unknown`; if it is a live cell that is not a function object with an
attached executable and its call type is Host, the entry is `Host`; if it is a live
function object with an attached executable (whatever its call type), the entry is
`VerifiedExecutable` with exactly that executable, which is in `m_seenExecutables`
afterwards. -/
theorem verifier_rewrites_unverified_entries (heap : Heap) (p : SamplingProfiler)
    (hp : Reachable p) :
    (HeapConsistent heap → ∃ q, processUnverifiedStackTraces heap p = Result.ok q) ∧
    ∀ q, processUnverifiedStackTraces heap p = Result.ok q →
      ∀ (i j : Nat) (t : StackTrace) (f : StackFrame), p.m_stackTraces[i]? = some t →
        t.needsVerification = true → t.frames[j]? = some f →
        f.frameType = FrameType.UnverifiedCallee →
        ∃ t1 f1, q.m_stackTraces[i]? = some t1 ∧ t1.frames[j]? = some f1 ∧
          (heap.isValueGCObject f.u = false → f1 = ⟨FrameType.Unknown, f.u⟩) ∧
          (heap.isValueGCObject f.u = true →
            ¬(heap.isJSFunctionType f.u = true ∧ heap.executable f.u ≠ 0) →
            heap.getCallData f.u = CallType.CallTypeHost → f1 = ⟨FrameType.Host, f.u⟩) ∧
          (heap.isValueGCObject f.u = true → heap.isJSFunctionType f.u = true →
            heap.executable f.u ≠ 0 →
            f1 = ⟨FrameType.VerifiedExecutable, heap.executable f.u⟩ ∧
              heap.executable f.u ∈ q.m_seenExecutables) := by
  have hs := (reachable_wellFormed p hp).store
  refine ⟨fun hc => processUnverifiedStackTraces_returns heap hc p hs, ?_⟩
  intro q h i j t f ht hn hf hu
  obtain ⟨t1, f1, ht1, hf1, s, s1, hv, hsub⟩ := verifier_entry heap p q hs h i j t f ht hn hf
  obtain ⟨h1, h2, h3⟩ := verifyFrame_unverified heap f f1 s s1 hu hv
  refine ⟨t1, f1, ht1, hf1, h1, ?_, ?_⟩
  · intro hl hnf hhost
    rw [h2 hl hnf]
    simp [frameTypeFromCallData, hhost]
  · intro hl hfn hex
    obtain ⟨h4, h5⟩ := h3 hl hfn hex
    exact ⟨h4, hsub _ h5⟩

/-- C7 (amended). In a reachable profiler state, with a heap on which the
`RELEASE_ASSERT`s of the verifier hold, `processUnverifiedStackTraces` returns, and
whenever it returns, every `UnverifiedCallee` entry of a trace marked
`needsVerification` whose decoded value is a live function object (`JSFunctionType`)
without an attached executable is `Host` if `getCallData` reports the call type Host
for the cell, and `Unknown` otherwise. -/
theorem verifier_function_without_executable (heap : Heap) (p : SamplingProfiler)
    (hp : Reachable p) :
    (HeapConsistent heap → ∃ q, processUnverifiedStackTraces heap p = Result.ok q) ∧
    ∀ q, processUnverifiedStackTraces heap p = Result.ok q →
      ∀ (i j : Nat) (t : StackTrace) (f : StackFrame), p.m_stackTraces[i]? = some t →
        t.needsVerification = true → t.frames[j]? = some f →
        f.frameType = FrameType.UnverifiedCallee →
        heap.isValueGCObject f.u = true → heap.isJSFunctionType f.u = true →
        heap.executable f.u = 0 →
        ∃ t1 f1, q.m_stackTraces[i]? = some t1 ∧ t1.frames[j]? = some f1 ∧
          (heap.getCallData f.u = CallType.CallTypeHost → f1 = ⟨FrameType.Host, f.u⟩) ∧
          (heap.getCallData f.u ≠ CallType.CallTypeHost → f1 = ⟨FrameType.Unknown, f.u⟩) := by
  have hs := (reachable_wellFormed p hp).store
  refine ⟨fun hc => processUnverifiedStackTraces_returns heap hc p hs, ?_⟩
  intro q h i j t f ht hn hf hu hl hfn hex
  obtain ⟨t1, f1, ht1, hf1, s, s1, hv, -⟩ := verifier_entry heap p q hs h i j t f ht hn hf
  obtain ⟨-, h2, -⟩ := verifyFrame_unverified heap f f1 s s1 hu hv
  have h3 := h2 hl (fun hx => hx.2 hex)
  refine ⟨t1, f1, ht1, hf1, ?_, ?_⟩
  · intro hhost
    rw [h3]
    simp [frameTypeFromCallData, hhost]
  · intro hhost
    rw [h3]
    simp [frameTypeFromCallData, hhost]

theorem verifier_rewrites_unverified_entries_witness :
    (∃ q, processUnverifiedStackTraces exampleHeap exampleSampled = Result.ok q) ∧
    (∃ t1 f1, exampleVerified.m_stackTraces[0]? = some t1 ∧ t1.frames[4]? = some f1 ∧
      f1 = ⟨FrameType.Unknown, 100⟩) ∧
    (∃ t1 f1, exampleVerified.m_stackTraces[0]? = some t1 ∧ t1.frames[3]? = some f1 ∧
      f1 = ⟨FrameType.Host, 6⟩) ∧
    (∃ t1 f1, exampleVerified.m_stackTraces[0]? = some t1 ∧ t1.frames[1]? = some f1 ∧
      f1 = ⟨FrameType.VerifiedExecutable, 70⟩ ∧ 70 ∈ exampleVerified.m_seenExecutables) := by
  have h := verifier_rewrites_unverified_entries exampleHeap exampleSampled
    exampleSampled_reachable
  refine ⟨h.1 exampleHeap_consistent, ?_, ?_, ?_⟩
  · obtain ⟨t1, f1, h1, h2, h3, -, -⟩ := h.2 exampleVerified exampleVerified_eq 0 4 _
      ⟨FrameType.UnverifiedCallee, 100⟩ rfl rfl rfl rfl
    exact ⟨t1, f1, h1, h2, h3 (by decide)⟩
  · obtain ⟨t1, f1, h1, h2, -, h4, -⟩ := h.2 exampleVerified exampleVerified_eq 0 3 _
      ⟨FrameType.UnverifiedCallee, 6⟩ rfl rfl rfl rfl
    exact ⟨t1, f1, h1, h2, h4 (by decide) (by decide) (by decide)⟩
  · obtain ⟨t1, f1, h1, h2, -, -, h5⟩ := h.2 exampleVerified exampleVerified_eq 0 1 _
      ⟨FrameType.UnverifiedCallee, 7⟩ rfl rfl rfl rfl
    exact ⟨t1, f1, h1, h2, h5 (by decide) (by decide) (by decide)⟩

/-- C6 fails as stated: in the reachable state `exampleSampled` the entry 1 of the
flagged trace is `UnverifiedCallee` with the value 7, a live cell whose call type is
Host; it is also a function object with the executable 70 attached, and the verifier
makes the entry `VerifiedExecutable` with 70, not `Host`. -/
theorem verifier_host_function_counterexample :
    Reachable exampleSampled ∧
    (exampleSampled.m_stackTraces.map fun t => (t.needsVerification, t.frames[1]?)) =
      [(true, some ⟨FrameType.UnverifiedCallee, 7⟩)] ∧
    exampleHeap.isValueGCObject 7 = true ∧
    exampleHeap.getCallData 7 = CallType.CallTypeHost ∧
    (processUnverifiedStackTraces exampleHeap exampleSampled).bind
        (fun q => Result.ok (q.m_stackTraces.map fun t => t.frames[1]?)) =
      Result.ok [some ⟨FrameType.VerifiedExecutable, 70⟩] :=
  ⟨exampleSampled_reachable, by decide, by decide, by decide, by decide⟩

theorem verifier_function_without_executable_witness :
    (∃ q, processUnverifiedStackTraces exampleHeap exampleSampled = Result.ok q) ∧
    ∃ t1 f1, exampleVerified.m_stackTraces[0]? = some t1 ∧ t1.frames[2]? = some f1 ∧
      f1 = ⟨FrameType.Unknown, 8⟩ := by
  have h := verifier_function_without_executable exampleHeap exampleSampled
    exampleSampled_reachable
  refine ⟨h.1 exampleHeap_consistent, ?_⟩
  obtain ⟨t1, f1, h1, h2, -, h4⟩ := h.2 exampleVerified exampleVerified_eq 0 2 _
    ⟨FrameType.UnverifiedCallee, 8⟩ rfl rfl rfl rfl (by decide) (by decide) (by decide)
  exact ⟨t1, f1, h1, h2, h4 (by decide)⟩

/-- C7 fails as stated: in the reachable state `exampleSampled` the entry 2 of the
flagged trace is `UnverifiedCallee` with the value 8, a live function object without
an attached executable whose call type is JS; the verifier makes the entry `Unknown`,
not `Host`. -/
theorem verifier_function_without_executable_counterexample :
    Reachable exampleSampled ∧
    (exampleSampled.m_stackTraces.map fun t => (t.needsVerification, t.frames[2]?)) =
      [(true, some ⟨FrameType.UnverifiedCallee, 8⟩)] ∧
    exampleHeap.isValueGCObject 8 = true ∧
    exampleHeap.isJSFunctionType 8 = true ∧
    exampleHeap.executable 8 = 0 ∧
    exampleHeap.getCallData 8 = CallType.CallTypeJS ∧
    (processUnverifiedStackTraces exampleHeap exampleSampled).bind
        (fun q => Result.ok (q.m_stackTraces.map fun t => t.frames[2]?)) =
      Result.ok [some ⟨FrameType.Unknown, 8⟩] :=
  ⟨exampleSampled_reachable, by decide, by decide, by decide, by decide, by decide, by decide⟩

theorem verifier_idempotent_witness :
    (∀ (i : Nat) (t : StackTrace), exampleSampled.m_stackTraces[i]? = some t →
        t.needsVerification = false → exampleVerified.m_stackTraces[i]? = some t) ∧
      processUnverifiedStackTraces exampleHeap exampleVerified = Result.ok exampleVerified :=
  verifier_idempotent exampleHeap exampleHeap exampleSampled exampleVerified exampleVerified_eq

/-- A verifier run keeps the number of stored traces. -/
theorem processUnverifiedStackTraces_length (heap : Heap) (p q : SamplingProfiler)
    (h : processUnverifiedStackTraces heap p = Result.ok q) :
    q.m_stackTraces.length = p.m_stackTraces.length := by
  obtain ⟨ts, seen, hv, rfl⟩ := processUnverifiedStackTraces_eq_ok heap p q h
  obtain ⟨hrel, -, -⟩ := verifyTraces_spec heap _ _ _ _ hv
  have hlen := hrel.length_eq
  simp only [List.length_append, List.length_take, List.length_drop] at hlen ⊢
  omega

/-- A verifier run only adds to `m_seenExecutables`. -/
theorem processUnverifiedStackTraces_seen (heap : Heap) (p q : SamplingProfiler)
    (h : processUnverifiedStackTraces heap p = Result.ok q) :
    ∀ e ∈ p.m_seenExecutables, e ∈ q.m_seenExecutables := by
  obtain ⟨ts, seen, hv, rfl⟩ := processUnverifiedStackTraces_eq_ok heap p q h
  exact (verifyTraces_spec heap _ _ _ _ hv).2.1

/-- A sampler callback keeps the verifier index and only adds to
`m_seenExecutables`. -/
theorem m_handler_index_seen (env : SampleEnv) (p q : SamplingProfiler) (events : List Event)
    (h : m_handler env p = Result.ok (q, events)) :
    q.m_indexOfNextStackTraceToVerify = p.m_indexOfNextStackTraceToVerify ∧
      ∀ e ∈ p.m_seenExecutables, e ∈ q.m_seenExecutables := by
  rcases m_handler_cases env p q events h with rfl | rfl | ⟨r, hr, rfl⟩
  · exact ⟨rfl, fun e he => he⟩
  · exact ⟨rfl, fun e he => he⟩
  · obtain ⟨h1, -, -, -, h5⟩ := recordWalk_spec env.elapsedTime1 r p
    refine ⟨h1, fun e he => ?_⟩
    simp only [dispatchFunction]
    rcases h5 with ⟨-, h7⟩ | ⟨-, -, -, h7⟩
    · rw [h7]
      exact he
    · rw [h7, addSeenExecutables_mem]
      exact Or.inl he

/-- No operation other than `clearData` lowers the verifier index of a well-formed
profiler or removes an executable from `m_seenExecutables`. -/
theorem run_index_seen (op : Op) (p q : SamplingProfiler) (hp : WellFormed p)
    (h : op.run p = Result.ok q) (hc : op.isClearData = false) :
    p.m_indexOfNextStackTraceToVerify ≤ q.m_indexOfNextStackTraceToVerify ∧
      ∀ e ∈ p.m_seenExecutables, e ∈ q.m_seenExecutables := by
  cases op with
  | start entryScope elapsedTime =>
    simp only [Op.run, Result.ok.injEq] at h
    subst h
    obtain ⟨-, h2, h3, -⟩ := dispatchIfNecessary_store entryScope elapsedTime
      { p with m_isActive := true }
    simp only [start, h2, h3]
    exact ⟨Nat.le_refl _, fun e he => he⟩
  | stop =>
    simp only [Op.run, Result.ok.injEq] at h
    subst h
    exact ⟨Nat.le_refl _, fun e he => he⟩
  | shutdown =>
    simp only [Op.run, Result.ok.injEq] at h
    subst h
    exact ⟨Nat.le_refl _, fun e he => he⟩
  | pause =>
    simp only [Op.run, Result.ok.injEq] at h
    subst h
    exact ⟨Nat.le_refl _, fun e he => he⟩
  | noticeCurrentThreadAsJSCExecutionThread thread =>
    simp only [Op.run, Result.ok.injEq] at h
    subst h
    exact ⟨Nat.le_refl _, fun e he => he⟩
  | noticeJSLockAcquisition thread =>
    simp only [Op.run, Result.ok.injEq] at h
    subst h
    exact ⟨Nat.le_refl _, fun e he => he⟩
  | noticeVMEntry thread entryScope elapsedTime1 elapsedTime2 =>
    simp only [Op.run, Result.ok.injEq] at h
    subst h
    obtain ⟨-, h2, h3, -⟩ := dispatchIfNecessary_store entryScope elapsedTime2
      { noticeCurrentThreadAsJSCExecutionThread thread p with m_lastTime := elapsedTime1 }
    simp only [noticeVMEntry, h2, h3]
    exact ⟨Nat.le_refl _, fun e he => he⟩
  | clearData => simp [Op.isClearData] at hc
  | processUnverifiedStackTraces heap =>
    simp only [Op.run] at h
    refine ⟨?_, processUnverifiedStackTraces_seen heap p q h⟩
    rw [processUnverifiedStackTraces_index heap p q h,
      processUnverifiedStackTraces_length heap p q h]
    exact hp.store.index_le
  | stacktracesAsJSON heap =>
    simp only [Op.run, Result.bind_eq_ok] at h
    obtain ⟨⟨q1, json⟩, h1, h3⟩ := h
    simp only [Result.ok.injEq] at h3
    subst h3
    have h2 := stacktracesAsJSON_state heap p _ _ h1
    refine ⟨?_, processUnverifiedStackTraces_seen heap p _ h2⟩
    rw [processUnverifiedStackTraces_index heap p _ h2,
      processUnverifiedStackTraces_length heap p _ h2]
    exact hp.store.index_le
  | handler env =>
    simp only [Op.run, Result.bind_eq_ok] at h
    obtain ⟨⟨q1, events⟩, h1, h2⟩ := h
    simp only [Result.ok.injEq] at h2
    subst h2
    obtain ⟨h3, h4⟩ := m_handler_index_seen env _ _ _ h1
    exact ⟨Nat.le_of_eq h3.symm, h4⟩

/-- C8. In every reachable profiler state: right after `processUnverifiedStackTraces`
returns, every stored trace has `needsVerification = false`, no stored frame has type
`UnverifiedCallee`, and `m_indexOfNextStackTraceToVerify` equals
`m_stackTraces.size()`; and no operation other than `clearData` lowers the index. -/
theorem verifier_leaves_store_verified (p : SamplingProfiler) (hp : Reachable p) :
    (∀ heap q, processUnverifiedStackTraces heap p = Result.ok q →
      (∀ t ∈ q.m_stackTraces, t.needsVerification = false ∧
        ∀ f ∈ t.frames, f.frameType ≠ FrameType.UnverifiedCallee) ∧
      q.m_indexOfNextStackTraceToVerify = q.m_stackTraces.length) ∧
    (∀ (op : Op) q, op.enabled p = true → op.run p = Result.ok q → op.isClearData = false →
      p.m_indexOfNextStackTraceToVerify ≤ q.m_indexOfNextStackTraceToVerify) := by
  have hw := reachable_wellFormed p hp
  constructor
  · intro heap q h
    have hq : WellFormed q :=
      run_wellFormed (Op.processUnverifiedStackTraces heap) p q hw rfl h
    have hidx := processUnverifiedStackTraces_index heap p q h
    refine ⟨fun t ht => ?_, hidx⟩
    have hflag : t.needsVerification = false := by
      refine hq.store.verified_below t ?_
      rw [hidx, List.take_length]
      exact ht
    exact ⟨hflag, hq.store.no_unverified t ht hflag⟩
  · intro op q _ h hc
    exact (run_index_seen op p q hw h hc).1

/-- C9. In every reachable profiler state every member of `m_seenExecutables` is the
executable of a `VerifiedExecutable` frame of a stored trace, and every operation
other than `clearData` leaves `m_seenExecutables` equal to or a superset of its
previous value. -/
theorem seenExecutables_carried_and_monotone (p : SamplingProfiler) (hp : Reachable p) :
    (∀ e ∈ p.m_seenExecutables, ∃ t ∈ p.m_stackTraces, ∃ f ∈ t.frames,
      f.frameType = FrameType.VerifiedExecutable ∧ f.u = e) ∧
    (∀ (op : Op) q, op.enabled p = true → op.run p = Result.ok q → op.isClearData = false →
      ∀ e ∈ p.m_seenExecutables, e ∈ q.m_seenExecutables) := by
  have hw := reachable_wellFormed p hp
  exact ⟨hw.store.seen_carried, fun op q _ h hc => (run_index_seen op p q hw h hc).2⟩

/-- C10. In every reachable profiler state the executable of every
`VerifiedExecutable` frame of every stored trace is a member of `m_seenExecutables`,
so it is among the pointers `visit` hands to the slot visitor. -/
theorem visit_covers_verified_frames (p : SamplingProfiler) (hp : Reachable p) :
    ∀ t ∈ p.m_stackTraces, ∀ f ∈ t.frames, f.frameType = FrameType.VerifiedExecutable →
      f.u ∈ p.m_seenExecutables ∧ f.u ∈ visit p := by
  intro t ht f hf hv
  have h := (reachable_wellFormed p hp).store.seen_covers t ht f hf hv
  exact ⟨h, h⟩

theorem exampleVerified_reachable : Reachable exampleVerified :=
  Reachable.step (Op.processUnverifiedStackTraces exampleHeap) exampleSampled_reachable rfl
    exampleVerified_eq

theorem verifier_leaves_store_verified_witness :
    ((∀ t ∈ exampleVerified.m_stackTraces, t.needsVerification = false ∧
        ∀ f ∈ t.frames, f.frameType ≠ FrameType.UnverifiedCallee) ∧
      exampleVerified.m_indexOfNextStackTraceToVerify = exampleVerified.m_stackTraces.length) ∧
    exampleSampled.m_indexOfNextStackTraceToVerify ≤
      exampleVerified.m_indexOfNextStackTraceToVerify :=
  ⟨(verifier_leaves_store_verified exampleSampled exampleSampled_reachable).1 exampleHeap
      exampleVerified exampleVerified_eq,
    (verifier_leaves_store_verified exampleSampled exampleSampled_reachable).2
      (Op.processUnverifiedStackTraces exampleHeap) exampleVerified rfl exampleVerified_eq rfl⟩

theorem seenExecutables_carried_and_monotone_witness :
    (∃ t ∈ exampleVerified.m_stackTraces, ∃ f ∈ t.frames,
      f.frameType = FrameType.VerifiedExecutable ∧ f.u = 70) ∧
    (∀ e ∈ exampleSampled.m_seenExecutables, e ∈ exampleVerified.m_seenExecutables) :=
  ⟨(seenExecutables_carried_and_monotone exampleVerified exampleVerified_reachable).1 70
      (by decide),
    (seenExecutables_carried_and_monotone exampleSampled exampleSampled_reachable).2
      (Op.processUnverifiedStackTraces exampleHeap) exampleVerified rfl exampleVerified_eq rfl⟩

theorem visit_covers_verified_frames_witness :
    70 ∈ exampleVerified.m_seenExecutables ∧ 70 ∈ visit exampleVerified :=
  visit_covers_verified_frames exampleVerified exampleVerified_reachable
    ⟨false, 5,
      [⟨FrameType.VerifiedExecutable, 111⟩, ⟨FrameType.VerifiedExecutable, 70⟩,
        ⟨FrameType.Unknown, 8⟩, ⟨FrameType.Host, 6⟩, ⟨FrameType.Unknown, 100⟩]⟩
    (by decide) ⟨FrameType.VerifiedExecutable, 70⟩ (by decide) rfl

/-! ## The reporter -/

/-- C11. For every profiler state, `clearData()` followed immediately by
`stacktracesAsJSON()` returns exactly the string `[]` (and leaves the cleared
profiler as it is); `clearData` leaves `m_stackTraces` and `m_seenExecutables` empty
and `m_indexOfNextStackTraceToVerify` equal to 0. -/
theorem clearData_then_stacktracesAsJSON (heap : Heap) (p : SamplingProfiler) :
    stacktracesAsJSON heap (clearData p) = Result.ok (clearData p, "[]") ∧
    (clearData p).m_stackTraces = [] ∧ (clearData p).m_seenExecutables = [] ∧
    (clearData p).m_indexOfNextStackTraceToVerify = 0 := by
  refine ⟨?_, rfl, rfl, rfl⟩
  simp only [stacktracesAsJSON, processUnverifiedStackTraces, clearData, List.drop_nil,
    List.take_nil, verifyTraces, Result.bind, List.append_nil, List.length_nil, appendTraces]
  rfl

/-- What `displayName` returns: one of the fixed labels, or the non-empty inferred
name of the function executable of a `VerifiedExecutable` frame. -/
theorem displayName_eq_ok (heap : Heap) (f : StackFrame) (s : String)
    (h : displayName heap f = Result.ok s) :
    f.frameType ≠ FrameType.UnverifiedCallee ∧
    (s ∈ categoryLabels ∨
      (f.frameType = FrameType.VerifiedExecutable ∧
        (heap.executables f.u).isFunctionExecutable = true ∧
        s = (heap.executables f.u).inferredName ∧ s.isEmpty = false)) := by
  unfold displayName at h
  dsimp only at h
  split_ifs at h with h1 h2 h3 h4 h5 h6 h7 h8 h9 <;>
    simp only [Result.ok.injEq] at h <;> subst h
  · exact ⟨by rw [h1]; decide, Or.inl (by decide)⟩
  · exact ⟨by rw [h2]; decide, Or.inl (by decide)⟩
  · exact ⟨h3, Or.inl (by decide)⟩
  · refine ⟨h3, Or.inr ⟨?_, h5, rfl, by simpa using h6⟩⟩
    cases hft : f.frameType <;> simp_all
  · exact ⟨h3, Or.inl (by decide)⟩
  · exact ⟨h3, Or.inl (by decide)⟩
  · exact ⟨h3, Or.inl (by decide)⟩
  · exact ⟨h3, Or.inl (by decide)⟩


/-- On a frame that is not `UnverifiedCallee` and whose executable, if it carries
one, is of a known kind, `displayName` returns. -/
theorem displayName_returns (heap : Heap) (f : StackFrame)
    (hu : f.frameType ≠ FrameType.UnverifiedCallee)
    (hk : f.frameType = FrameType.VerifiedExecutable →
      (heap.executables f.u).isKnownKind = true) :
    ∃ s, displayName heap f = Result.ok s := by
  unfold displayName
  dsimp only
  by_cases hv : f.frameType = FrameType.VerifiedExecutable
  · have hkk := hk hv
    simp only [ExecutableBase.isKnownKind, Bool.or_eq_true] at hkk
    simp only [hv, reduceCtorEq, if_false]
    split_ifs with h4 h5 h6 h7 h8 h9
    all_goals first
      | exact ⟨_, rfl⟩
      | (exfalso; rcases hkk with (((hkk | hkk) | hkk) | hkk) | hkk <;> contradiction)
  · split_ifs with h1 h2 h4 h5 h6 h7 h8 h9
    all_goals first
      | exact ⟨_, rfl⟩
      | (exfalso; cases hft : f.frameType <;> simp_all)

theorem appendFrames_returns (heap : Heap) :
    ∀ (fs : List StackFrame) (s : String × Bool),
      (∀ f ∈ fs, f.frameType ≠ FrameType.UnverifiedCallee ∧
        (f.frameType = FrameType.VerifiedExecutable →
          (heap.executables f.u).isKnownKind = true)) →
      ∃ r, appendFrames heap fs s = Result.ok r
  | [], s, _ => ⟨_, rfl⟩
  | f :: fs, s, h => by
    obtain ⟨name, hn⟩ := displayName_returns heap f (h f (by simp)).1 (h f (by simp)).2
    simp only [appendFrames, hn, Result.bind]
    exact appendFrames_returns heap fs _ fun g hg => h g (by simp [hg])

theorem appendTraces_returns (heap : Heap) :
    ∀ (ts : List StackTrace) (s : String × Bool),
      (∀ t ∈ ts, ∀ f ∈ t.frames, f.frameType ≠ FrameType.UnverifiedCallee ∧
        (f.frameType = FrameType.VerifiedExecutable →
          (heap.executables f.u).isKnownKind = true)) →
      ∃ r, appendTraces heap ts s = Result.ok r
  | [], s, _ => ⟨_, rfl⟩
  | t :: ts, s, h => by
    obtain ⟨r1, h1⟩ := appendFrames_returns heap t.frames (comma s.2 s.1 ++ "[", false)
      (h t (by simp))
    simp only [appendTraces, h1, Result.bind]
    exact appendTraces_returns heap ts _ fun g hg => h g (by simp [hg])

/-- A sampler callback leaves the stored traces alone or appends one trace. -/
theorem m_handler_traces (env : SampleEnv) (p q : SamplingProfiler) (events : List Event)
    (h : m_handler env p = Result.ok (q, events)) :
    q.m_stackTraces = p.m_stackTraces ∨ ∃ t, q.m_stackTraces = p.m_stackTraces ++ [t] := by
  rcases m_handler_cases env p q events h with rfl | rfl | ⟨r, hr, rfl⟩
  · exact Or.inl rfl
  · exact Or.inl rfl
  · obtain ⟨-, -, -, -, h5⟩ := recordWalk_spec env.elapsedTime1 r p
    rcases h5 with ⟨h6, -⟩ | ⟨-, -, h6, -⟩
    · exact Or.inl h6
    · exact Or.inr ⟨_, h6⟩

/-- What an operation other than `clearData` can do to the stored traces: nothing
(the control calls), append one trace (a callback), or what a verifier run does. -/
theorem run_traces_cases (op : Op) (p q : SamplingProfiler) (h : op.run p = Result.ok q)
    (hc : op.isClearData = false) :
    (op.isControl = true ∧ q.m_stackTraces = p.m_stackTraces) ∨
    ((∃ env, op = Op.handler env) ∧
      (q.m_stackTraces = p.m_stackTraces ∨ ∃ t, q.m_stackTraces = p.m_stackTraces ++ [t])) ∨
    ((∃ heap, op = Op.processUnverifiedStackTraces heap ∨ op = Op.stacktracesAsJSON heap) ∧
      ∃ heap, processUnverifiedStackTraces heap p = Result.ok q) := by
  cases op with
  | start entryScope elapsedTime =>
    simp only [Op.run, Result.ok.injEq] at h
    subst h
    exact Or.inl ⟨rfl, (dispatchIfNecessary_store _ _ _).1⟩
  | stop =>
    simp only [Op.run, Result.ok.injEq] at h
    subst h
    exact Or.inl ⟨rfl, rfl⟩
  | shutdown =>
    simp only [Op.run, Result.ok.injEq] at h
    subst h
    exact Or.inl ⟨rfl, rfl⟩
  | pause =>
    simp only [Op.run, Result.ok.injEq] at h
    subst h
    exact Or.inl ⟨rfl, rfl⟩
  | noticeCurrentThreadAsJSCExecutionThread thread =>
    simp only [Op.run, Result.ok.injEq] at h
    subst h
    exact Or.inl ⟨rfl, rfl⟩
  | noticeJSLockAcquisition thread =>
    simp only [Op.run, Result.ok.injEq] at h
    subst h
    exact Or.inl ⟨rfl, rfl⟩
  | noticeVMEntry thread entryScope elapsedTime1 elapsedTime2 =>
    simp only [Op.run, Result.ok.injEq] at h
    subst h
    exact Or.inl ⟨rfl, (dispatchIfNecessary_store _ _ _).1⟩
  | clearData => simp [Op.isClearData] at hc
  | processUnverifiedStackTraces heap =>
    exact Or.inr (Or.inr ⟨⟨heap, Or.inl rfl⟩, heap, h⟩)
  | stacktracesAsJSON heap =>
    simp only [Op.run, Result.bind_eq_ok] at h
    obtain ⟨⟨q1, json⟩, h1, h3⟩ := h
    simp only [Result.ok.injEq] at h3
    subst h3
    exact Or.inr (Or.inr ⟨⟨heap, Or.inr rfl⟩, heap, stacktracesAsJSON_state heap p _ _ h1⟩)
  | handler env =>
    simp only [Op.run, Result.bind_eq_ok] at h
    obtain ⟨⟨q1, events⟩, h1, h2⟩ := h
    simp only [Result.ok.injEq] at h2
    subst h2
    exact Or.inr (Or.inl ⟨⟨env, rfl⟩,
      m_handler_traces env { p with m_timerQueue := p.m_timerQueue - 1 } _ _ h1⟩)

/-- A verifier run keeps every frame that is not `UnverifiedCallee` where it is. -/
theorem processUnverifiedStackTraces_keeps (heap : Heap) (p q : SamplingProfiler)
    (h : processUnverifiedStackTraces heap p = Result.ok q) (i j : Nat) (t : StackTrace)
    (f : StackFrame) (ht : p.m_stackTraces[i]? = some t) (hf : t.frames[j]? = some f)
    (hu : f.frameType ≠ FrameType.UnverifiedCallee) :
    ∃ t1, q.m_stackTraces[i]? = some t1 ∧ t1.frames[j]? = some f := by
  obtain ⟨h1, h2⟩ := processUnverifiedStackTraces_getElem? heap p q h i t ht
  rcases Nat.lt_or_ge i p.m_indexOfNextStackTraceToVerify with hlt | hge
  · exact ⟨t, h1 hlt, hf⟩
  · obtain ⟨t1, ht1, hrel⟩ := h2 hge
    cases hn : t.needsVerification with
    | false =>
      rw [hrel.1 hn] at ht1
      exact ⟨t, ht1, hf⟩
    | true =>
      obtain ⟨f1, hf1, s, s1, hv, -⟩ := forall₂_getElem? (hrel.2 hn).2.2 j f hf
      obtain ⟨rfl, -, -⟩ := (verifyFrame_spec heap f f1 s s1 hv).1 hu
      exact ⟨t1, ht1, hf1⟩

theorem traceVerified_shape {heap : Heap} {seen1 : List Nat} :
    ∀ {ts ts1 : List StackTrace}, List.Forall₂ (TraceVerified heap seen1) ts ts1 →
      traceShape ts1 = traceShape ts
  | _, _, List.Forall₂.nil => rfl
  | _, _, @List.Forall₂.cons _ _ _ t t1 _ _ hr hrest => by
    have ih := traceVerified_shape hrest
    simp only [traceShape, List.map_cons, List.cons.injEq, Prod.mk.injEq] at ih ⊢
    refine ⟨?_, ih⟩
    cases hn : t.needsVerification with
    | false =>
      rw [hr.1 hn]
      exact ⟨rfl, rfl⟩
    | true =>
      obtain ⟨-, h2, h3⟩ := hr.2 hn
      exact ⟨h2, h3.length_eq.symm⟩

/-- A verifier run keeps the number and order of the traces and the length of each. -/
theorem processUnverifiedStackTraces_shape (heap : Heap) (p q : SamplingProfiler)
    (h : processUnverifiedStackTraces heap p = Result.ok q) :
    traceShape q.m_stackTraces = traceShape p.m_stackTraces := by
  obtain ⟨ts, seen, hv, rfl⟩ := processUnverifiedStackTraces_eq_ok heap p q h
  obtain ⟨hrel, -, -⟩ := verifyTraces_spec heap _ _ _ _ hv
  have hs := traceVerified_shape hrel
  simp only [traceShape] at hs ⊢
  rw [List.map_append, hs, ← List.map_append, List.take_append_drop]


/-- C13. For every operation other than `clearData` and every stored frame whose type
before the operation is `Host`, `Unknown` or `VerifiedExecutable`, the frame at the
same trace index and frame index after the operation is the same frame (same type,
same payload); so a frame that was rewritten was of type `UnverifiedCallee`. -/
theorem stored_frames_never_revert (op : Op) (p q : SamplingProfiler)
    (hc : op.isClearData = false) (h : op.run p = Result.ok q) (i j : Nat) (t : StackTrace)
    (f : StackFrame) (ht : p.m_stackTraces[i]? = some t) (hf : t.frames[j]? = some f) :
    (f.frameType = FrameType.Host ∨ f.frameType = FrameType.Unknown ∨
        f.frameType = FrameType.VerifiedExecutable →
      ∃ t1, q.m_stackTraces[i]? = some t1 ∧ t1.frames[j]? = some f) ∧
    (∀ t1 f1, q.m_stackTraces[i]? = some t1 → t1.frames[j]? = some f1 → f1 ≠ f →
      f.frameType = FrameType.UnverifiedCallee) := by
  have hi : i < p.m_stackTraces.length := by
    rcases Nat.lt_or_ge i p.m_stackTraces.length with h1 | h1
    · exact h1
    · rw [List.getElem?_eq_none h1] at ht
      exact absurd ht (by simp)
  have key : f.frameType ≠ FrameType.UnverifiedCallee →
      ∃ t1, q.m_stackTraces[i]? = some t1 ∧ t1.frames[j]? = some f := by
    intro hu
    rcases run_traces_cases op p q h hc with ⟨-, h1⟩ | ⟨-, h1 | ⟨t2, h1⟩⟩ | ⟨-, heap, h1⟩
    · rw [h1]
      exact ⟨t, ht, hf⟩
    · rw [h1]
      exact ⟨t, ht, hf⟩
    · rw [h1, List.getElem?_append_left hi]
      exact ⟨t, ht, hf⟩
    · exact processUnverifiedStackTraces_keeps heap p q h1 i j t f ht hf hu
  constructor
  · intro hk
    apply key
    rcases hk with hk | hk | hk <;> rw [hk] <;> decide
  · intro t1 f1 ht1 hf1 hne
    by_contra hu
    obtain ⟨t2, ht2, hf2⟩ := key hu
    rw [ht1] at ht2
    simp only [Option.some.injEq] at ht2
    subst ht2
    rw [hf1] at hf2
    simp only [Option.some.injEq] at hf2
    exact hne hf2

/-- C14. The trace store is append-only: an operation other than `clearData` extends
the sequence of (timestamp, number of frames) of the stored traces at the end; the
control calls (`start`, `stop`, `pause`, `noticeVMEntry`, `noticeJSLockAcquisition`,
...) leave `m_stackTraces` unchanged; a sampler callback appends at most one trace at
the end; a verifier run keeps the number and order of the traces and the length of
each. -/
theorem trace_store_append_only (op : Op) (p q : SamplingProfiler)
    (h : op.run p = Result.ok q) :
    (op.isClearData = false → ∃ rest, traceShape q.m_stackTraces =
      traceShape p.m_stackTraces ++ rest) ∧
    (op.isControl = true → q.m_stackTraces = p.m_stackTraces) ∧
    ((∃ env, op = Op.handler env) →
      q.m_stackTraces = p.m_stackTraces ∨ ∃ t, q.m_stackTraces = p.m_stackTraces ++ [t]) ∧
    ((∃ heap, op = Op.processUnverifiedStackTraces heap) →
      traceShape q.m_stackTraces = traceShape p.m_stackTraces ∧
      q.m_stackTraces.length = p.m_stackTraces.length) := by
  refine ⟨fun hc => ?_, fun hk => ?_, fun hk => ?_, fun hk => ?_⟩
  · rcases run_traces_cases op p q h hc with ⟨-, h1⟩ | ⟨-, h1 | ⟨t2, h1⟩⟩ | ⟨-, heap, h1⟩
    · exact ⟨[], by rw [h1, List.append_nil]⟩
    · exact ⟨[], by rw [h1, List.append_nil]⟩
    · exact ⟨traceShape [t2], by rw [h1]; simp [traceShape]⟩
    · exact ⟨[], by rw [processUnverifiedStackTraces_shape heap p q h1, List.append_nil]⟩
  · have hc : op.isClearData = false := by
      cases op <;> simp_all [Op.isControl, Op.isClearData]
    rcases run_traces_cases op p q h hc with ⟨-, h1⟩ | ⟨⟨env, rfl⟩, -⟩ | ⟨⟨heap, rfl | rfl⟩, -⟩
    · exact h1
    · simp [Op.isControl] at hk
    · simp [Op.isControl] at hk
    · simp [Op.isControl] at hk
  · obtain ⟨env, rfl⟩ := hk
    rcases run_traces_cases _ p q h rfl with ⟨h0, -⟩ | ⟨-, h1⟩ | ⟨⟨heap, h0 | h0⟩, -⟩
    · simp [Op.isControl] at h0
    · exact h1
    · simp at h0
    · simp at h0
  · obtain ⟨heap, rfl⟩ := hk
    simp only [Op.run] at h
    exact ⟨processUnverifiedStackTraces_shape heap p q h,
      processUnverifiedStackTraces_length heap p q h⟩

/-! ## Operations and the stored traces -/

theorem exampleStarted_reachable : Reachable exampleStarted :=
  Reachable.step (Op.start true 3)
    (Reachable.step (Op.noticeVMEntry 1 true 1 2) (Reachable.init 0) rfl rfl) rfl rfl

set_option maxRecDepth 100000 in
theorem exampleSampled_step :
    (Op.handler exampleHostEnv).run exampleStarted = Result.ok exampleSampled := by
  decide

theorem stored_frames_never_revert_witness :
    ∃ t1, exampleVerified.m_stackTraces[0]? = some t1 ∧
      t1.frames[0]? = some ⟨FrameType.VerifiedExecutable, 111⟩ :=
  (stored_frames_never_revert (Op.processUnverifiedStackTraces exampleHeap) exampleSampled
    exampleVerified rfl exampleVerified_eq 0 0 _ _ rfl rfl).1 (Or.inr (Or.inr rfl))

theorem trace_store_append_only_witness :
    (exampleSampled.m_stackTraces = exampleStarted.m_stackTraces ∨
      ∃ t, exampleSampled.m_stackTraces = exampleStarted.m_stackTraces ++ [t]) ∧
    (traceShape exampleVerified.m_stackTraces = traceShape exampleSampled.m_stackTraces ∧
      exampleVerified.m_stackTraces.length = exampleSampled.m_stackTraces.length) :=
  ⟨(trace_store_append_only (Op.handler exampleHostEnv) exampleStarted exampleSampled
      exampleSampled_step).2.2.1 ⟨exampleHostEnv, rfl⟩,
    (trace_store_append_only (Op.processUnverifiedStackTraces exampleHeap) exampleSampled
      exampleVerified exampleVerified_eq).2.2.2 ⟨exampleHeap, rfl⟩⟩

/-- C15. A sampler callback that runs while the profiler is stopped (`m_isActive`
false) or paused (`m_isPaused` true) produces no sample: it returns with
`m_stackTraces`, `m_seenExecutables`, `m_currentFrames` and `m_totalTime` unchanged,
makes no attempt to suspend the execution thread, sets `m_hasDispatchedFunction` to
false, and schedules no further callback (no `dispatchAfter`, timer queue
unchanged). -/
theorem handler_stopped_or_paused (env : SampleEnv) (p : SamplingProfiler)
    (h : p.m_isActive = false ∨ p.m_isPaused = true) :
    ∃ q events, m_handler env p = Result.ok (q, events) ∧
      q.m_stackTraces = p.m_stackTraces ∧ q.m_seenExecutables = p.m_seenExecutables ∧
      q.m_currentFrames = p.m_currentFrames ∧ q.m_totalTime = p.m_totalTime ∧
      q.m_hasDispatchedFunction = false ∧ q.m_timerQueue = p.m_timerQueue ∧
      (∀ b, Event.suspend b ∉ events) ∧ Event.resume ∉ events ∧
      Event.dispatchAfter ∉ events := by
  have hg : (!p.m_isActive || decide (p.m_jscExecutionThread = 0) || p.m_isPaused) = true := by
    rcases h with h | h <;> simp [h]
  have hrun : m_handler env p = Result.ok
      ({ p with m_hasDispatchedFunction := false, m_refCount := p.m_refCount - 1 },
        [Event.deref]) := by
    rw [m_handler, if_pos hg]
  refine ⟨_, _, hrun, rfl, rfl, rfl, rfl, rfl, rfl, ?_, ?_, ?_⟩
  · intro b
    simp
  · simp
  · simp

theorem handler_stopped_or_paused_witness :
    ∃ q events, m_handler exampleHostEnv (stop exampleStarted) = Result.ok (q, events) ∧
      q.m_stackTraces = (stop exampleStarted).m_stackTraces ∧
      q.m_seenExecutables = (stop exampleStarted).m_seenExecutables ∧
      q.m_currentFrames = (stop exampleStarted).m_currentFrames ∧
      q.m_totalTime = (stop exampleStarted).m_totalTime ∧
      q.m_hasDispatchedFunction = false ∧ q.m_timerQueue = (stop exampleStarted).m_timerQueue ∧
      (∀ b, Event.suspend b ∉ events) ∧ Event.resume ∉ events ∧
      Event.dispatchAfter ∉ events :=
  handler_stopped_or_paused exampleHostEnv (stop exampleStarted) (Or.inl rfl)

/-- C16. In every reachable profiler state the number of callbacks waiting on the
timer queue is 1 when `m_hasDispatchedFunction` is true and 0 when it is false; hence
at most one callback is ever outstanding. -/
theorem timer_queue_matches_flag (p : SamplingProfiler) (hp : Reachable p) :
    (p.m_hasDispatchedFunction = true → p.m_timerQueue = 1) ∧
    (p.m_hasDispatchedFunction = false → p.m_timerQueue = 0) ∧
    p.m_timerQueue ≤ 1 := by
  have h := (reachable_wellFormed p hp).timer
  refine ⟨fun hf => ?_, fun hf => ?_, ?_⟩
  · rw [h, if_pos hf]
  · rw [h, if_neg (by simp [hf])]
  · rw [h]
    split_ifs <;> omega

theorem timer_queue_matches_flag_witness :
    (exampleSampled.m_hasDispatchedFunction = true → exampleSampled.m_timerQueue = 1) ∧
    (exampleSampled.m_hasDispatchedFunction = false → exampleSampled.m_timerQueue = 0) ∧
    exampleSampled.m_timerQueue ≤ 1 :=
  timer_queue_matches_flag exampleSampled exampleSampled_reachable

theorem recordWalk_totalTime (time : Double) (r : WalkResult) (p : SamplingProfiler) :
    (recordWalk time r p).1.m_totalTime =
      if (r.wasValidWalk && decide (r.size ≠ 0)) = true then
        p.m_totalTime + (time - p.m_lastTime)
      else p.m_totalTime := by
  unfold recordWalk
  dsimp only
  split_ifs <;> rfl

/-- C17 (amended). For a sampler callback that gets to walk the stack, `m_totalTime`
after the callback is `m_totalTime` before it plus the time between `m_lastTime` and
this sample's capture time (the `double` sum `m_totalTime + (nowTime - m_lastTime)`,
each of the two operations rounded as `double` arithmetic rounds) when the walk was
valid and non-empty (the sample is stored), and is unchanged when the walk was invalid
or returned zero frames; a callback that does not get to walk leaves `m_totalTime`
unchanged. -/
theorem handler_total_time (env : SampleEnv) (p : SamplingProfiler) :
    (∀ r, Walks env p r →
      ∃ q events, m_handler env p = Result.ok (q, events) ∧
        (r.wasValidWalk = true ∧ r.size ≠ 0 →
          q.m_totalTime = p.m_totalTime + (env.elapsedTime1 - p.m_lastTime)) ∧
        (¬(r.wasValidWalk = true ∧ r.size ≠ 0) → q.m_totalTime = p.m_totalTime)) ∧
    (∀ q events, m_handler env p = Result.ok (q, events) → (¬∃ r, Walks env p r) →
      q.m_totalTime = p.m_totalTime) := by
  constructor
  · intro r hw
    refine ⟨_, _, m_handler_of_walks env p r hw, ?_, ?_⟩
    · rintro ⟨hv, h0⟩
      have hk : (r.wasValidWalk && decide (r.size ≠ 0)) = true := by
        simp [hv, h0]
      show (recordWalk env.elapsedTime1 r p).1.m_totalTime = _
      rw [recordWalk_totalTime, if_pos hk]
    · intro hn
      have hk : ¬(r.wasValidWalk && decide (r.size ≠ 0)) = true := by
        simpa using hn
      show (recordWalk env.elapsedTime1 r p).1.m_totalTime = _
      rw [recordWalk_totalTime, if_neg hk]
  · intro q events h hn
    exact (m_handler_of_not_walks env p q events h hn).2.2.2.1

set_option maxRecDepth 100000 in
theorem handler_total_time_witness :
    ∃ q events, m_handler exampleHostEnv exampleStarted = Result.ok (q, events) ∧
      q.m_totalTime = 2 :=
  match (handler_total_time exampleHostEnv exampleStarted).1
      { walker := ⟨0, false, 0, 5⟩
        stackTrace := exampleSampled.m_currentFrames
        didRunOutOfSpace := false
        stacktraceNeedsVerification := true
        size := 5 } (by decide) with
  | ⟨q, events, h, hkeep, _⟩ => ⟨q, events, h, hkeep ⟨by decide, by decide⟩⟩

set_option maxRecDepth 100000 in
/-- C17 fails as stated: in the reachable state `exampleStarted` (active, not paused,
`m_lastTime` 3, `m_totalTime` 0) a callback that suspends the thread at time 5 and
walks two valid frames into the frame pointer 5000, outside every registered stack,
leaves `m_totalTime` at 0, although 2 time units passed since `m_lastTime`. -/
theorem handler_total_time_invalid_walk_counterexample :
    Reachable exampleStarted ∧
    Walks (exampleEnv 2 5000) exampleStarted
      { walker := ⟨5000, true, 0, 2⟩
        stackTrace :=
          [⟨FrameType.VerifiedExecutable, 111⟩, ⟨FrameType.VerifiedExecutable, 121⟩] ++
            List.replicate 254 StackFrame.default
        didRunOutOfSpace := false
        stacktraceNeedsVerification := false
        size := 2 } ∧
    (m_handler (exampleEnv 2 5000) exampleStarted).bind
        (fun x => Result.ok x.1.m_totalTime) = Result.ok 0 ∧
    exampleStarted.m_totalTime + ((exampleEnv 2 5000).elapsedTime1 - exampleStarted.m_lastTime)
      = 2 :=
  ⟨exampleStarted_reachable, by decide, by decide, by decide⟩

/-- A walk started from the null frame pointer. -/
theorem walk_null (vm : VM) (buf : List StackFrame) :
    (FrameWalker.mk0 0).walk vm buf = Result.ok
      { walker := ⟨0, false, 0, 0⟩
        stackTrace := buf
        didRunOutOfSpace := false
        stacktraceNeedsVerification := false
        size := 0 } := by
  simp [FrameWalker.walk, FrameWalker.mk0, FrameWalker.resetAtMachineFrame,
    FrameWalker.isAtTop, walkLoop]

/-- C19. A walk started from a null (root) frame pointer returns 0 with
`didRunOutOfSpace` false, `stacktraceNeedsVerification` false and `wasValidWalk()`
true, for every buffer; a sampler callback whose walk starts from the null frame
pointer returns and appends nothing; and every trace stored in a reachable profiler
state has at least one frame. -/
theorem null_walk_is_empty_and_not_stored :
    (∀ (vm : VM) (buf : List StackFrame), ∃ r,
      (FrameWalker.mk0 0).walk vm buf = Result.ok r ∧ r.size = 0 ∧
        r.didRunOutOfSpace = false ∧ r.stacktraceNeedsVerification = false ∧
        r.wasValidWalk = true ∧ r.stackTrace = buf) ∧
    (∀ (env : SampleEnv) (p : SamplingProfiler), chooseCallFrame env = 0 →
      ∃ q events, m_handler env p = Result.ok (q, events) ∧
        q.m_stackTraces = p.m_stackTraces ∧ q.m_seenExecutables = p.m_seenExecutables) ∧
    (∀ p, Reachable p → ∀ t ∈ p.m_stackTraces, 1 ≤ t.frames.length) := by
  refine ⟨fun vm buf => ⟨_, walk_null vm buf, rfl, rfl, rfl, rfl, rfl⟩, ?_, ?_⟩
  · intro env p h0
    have hwalk : (FrameWalker.mk0 (chooseCallFrame env)).walk env.vm p.m_currentFrames =
        Result.ok ⟨⟨0, false, 0, 0⟩, p.m_currentFrames, false, false, 0⟩ := by
      rw [h0]
      exact walk_null env.vm p.m_currentFrames
    have hrec : (recordWalk env.elapsedTime1
          ⟨⟨0, false, 0, 0⟩, p.m_currentFrames, false, false, 0⟩ p).1.m_stackTraces =
          p.m_stackTraces ∧
        (recordWalk env.elapsedTime1
          ⟨⟨0, false, 0, 0⟩, p.m_currentFrames, false, false, 0⟩ p).1.m_seenExecutables =
          p.m_seenExecutables := by
      rcases (recordWalk_spec env.elapsedTime1
        ⟨⟨0, false, 0, 0⟩, p.m_currentFrames, false, false, 0⟩ p).2.2.2.2 with h | h
      · exact h
      · exact absurd rfl h.2.1
    unfold m_handler sample
    rw [hwalk]
    by_cases hg : (!p.m_isActive || decide (p.m_jscExecutionThread = 0) || p.m_isPaused) = true
    · rw [if_pos hg]
      exact ⟨_, _, rfl, rfl, rfl⟩
    · rw [if_neg hg]
      by_cases he : env.vm.entryScope = true
      · by_cases hs : env.didSuspend = true
        · simp only [he, hs, if_true]
          exact ⟨_, _, rfl, hrec.1, hrec.2⟩
        · simp only [he, hs, if_true]
          exact ⟨_, _, rfl, rfl, rfl⟩
      · simp only [he]
        exact ⟨_, _, rfl, rfl, rfl⟩
  · intro p hp t ht
    have hne := (reachable_wellFormed p hp).store.nonempty t ht
    cases hf : t.frames with
    | nil => exact absurd hf hne
    | cons f fs => simp

theorem null_walk_is_empty_and_not_stored_witness :
    (∃ r, (FrameWalker.mk0 0).walk (exampleVM 5 0) (vectorGrow [] 10) = Result.ok r ∧
        r.size = 0 ∧ r.didRunOutOfSpace = false ∧ r.stacktraceNeedsVerification = false ∧
        r.wasValidWalk = true ∧ r.stackTrace = vectorGrow [] 10) ∧
    1 ≤ (StackTrace.mk true 5
      [⟨FrameType.VerifiedExecutable, 111⟩, ⟨FrameType.UnverifiedCallee, 7⟩,
        ⟨FrameType.UnverifiedCallee, 8⟩, ⟨FrameType.UnverifiedCallee, 6⟩,
        ⟨FrameType.UnverifiedCallee, 100⟩]).frames.length ∧
    (∃ q events, m_handler { exampleHostEnv with framePointer := 0 } exampleStarted =
        Result.ok (q, events) ∧
      q.m_stackTraces = exampleStarted.m_stackTraces ∧
      q.m_seenExecutables = exampleStarted.m_seenExecutables) :=
  ⟨null_walk_is_empty_and_not_stored.1 (exampleVM 5 0) (vectorGrow [] 10),
    null_walk_is_empty_and_not_stored.2.2 exampleSampled exampleSampled_reachable _
      (by decide),
    null_walk_is_empty_and_not_stored.2.1 { exampleHostEnv with framePointer := 0 }
      exampleStarted rfl⟩

/-- The events `recordWalk` reports. -/
theorem recordWalk_events (time : Double) (r : WalkResult) (p : SamplingProfiler) :
    (recordWalk time r p).2 = [] ∨ (recordWalk time r p).2 = [Event.appendStackTrace] ∨
      (recordWalk time r p).2 = [Event.appendStackTrace, Event.growCurrentFrames] := by
  unfold recordWalk
  dsimp only
  split_ifs
  · exact Or.inr (Or.inr rfl)
  · exact Or.inr (Or.inl rfl)
  · exact Or.inl rfl

/-- The event sequences of a returning callback. -/
theorem m_handler_events (env : SampleEnv) (p q : SamplingProfiler) (events : List Event)
    (h : m_handler env p = Result.ok (q, events)) :
    events = [Event.deref] ∨ events = [Event.dispatchAfter] ∨
    events = [Event.lockMachineThreads, Event.lockCodeBlockSet, Event.lockExecutableAllocator,
      Event.suspend false, Event.dispatchAfter] ∨
    ∃ rest, events = [Event.lockMachineThreads, Event.lockCodeBlockSet,
        Event.lockExecutableAllocator, Event.suspend true, Event.getRegisters,
        Event.freeRegisters, Event.walk, Event.resume] ++ rest ++ [Event.dispatchAfter] ∧
      (rest = [] ∨ rest = [Event.appendStackTrace] ∨
        rest = [Event.appendStackTrace, Event.growCurrentFrames]) := by
  by_cases hw : ∃ r, Walks env p r
  · obtain ⟨r, hr⟩ := hw
    rw [m_handler_of_walks env p r hr] at h
    simp only [Result.ok.injEq, Prod.mk.injEq] at h
    exact Or.inr (Or.inr (Or.inr ⟨_, by rw [← h.2]; simp,
      recordWalk_events env.elapsedTime1 r p⟩))
  · unfold m_handler at h
    split_ifs at h with hg
    · simp only [Result.ok.injEq, Prod.mk.injEq] at h
      exact Or.inl h.2.symm
    · simp only [Bool.or_eq_true, Bool.not_eq_true', decide_eq_true_eq, not_or,
        Bool.not_eq_false] at hg
      obtain ⟨⟨ha, ht⟩, hp⟩ := hg
      unfold sample at h
      by_cases he : env.vm.entryScope = true
      · by_cases hs : env.didSuspend = true
        · simp only [he, hs, if_true] at h
          split at h
          · rename_i p1 ev hsplit
            split at hsplit
            · rename_i r hr
              exact absurd ⟨r, ha, ht, by simpa using hp, he, hs, hr⟩ hw
            · simp at hsplit
            · simp at hsplit
          · simp at h
          · simp at h
        · simp [he, hs] at h
          exact Or.inr (Or.inr (Or.inl h.2.symm))
      · simp [he] at h
        exact Or.inr (Or.inl h.2.symm)

/-- C20. A sampler callback whose walk returns (valid or invalid, empty or truncated)
returns itself, after a successful `suspend()`; and in the event sequence of every
returning sampler callback, `resume()` is called exactly once if `suspend()` returned
true and never otherwise; when it is called it follows the walk directly and precedes
any append to `m_stackTraces` and any growth of `m_currentFrames`, and the thread is
not suspended when the callback returns. -/
theorem handler_resumes_thread (env : SampleEnv) (p : SamplingProfiler) :
    (∀ r, Walks env p r →
      ∃ q events, m_handler env p = Result.ok (q, events) ∧ Event.suspend true ∈ events) ∧
    (∀ q events, m_handler env p = Result.ok (q, events) →
      (Event.suspend true ∈ events → events.count Event.resume = 1) ∧
      (Event.suspend true ∉ events → events.count Event.resume = 0) ∧
      (Event.suspend true ∈ events →
        ∃ rest, events = [Event.lockMachineThreads, Event.lockCodeBlockSet,
            Event.lockExecutableAllocator, Event.suspend true, Event.getRegisters,
            Event.freeRegisters, Event.walk, Event.resume] ++ rest ++ [Event.dispatchAfter] ∧
          (rest = [] ∨ rest = [Event.appendStackTrace] ∨
            rest = [Event.appendStackTrace, Event.growCurrentFrames])) ∧
      threadSuspendedAfter events = false) := by
  constructor
  · intro r hr
    exact ⟨_, _, m_handler_of_walks env p r hr, by simp⟩
  · intro q events h
    rcases m_handler_events env p q events h with rfl | rfl | rfl | ⟨rest, rfl, hrest⟩
    · exact ⟨by decide, by decide, fun hm => absurd hm (by decide), by decide⟩
    · exact ⟨by decide, by decide, fun hm => absurd hm (by decide), by decide⟩
    · exact ⟨by decide, by decide, fun hm => absurd hm (by decide), by decide⟩
    · rcases hrest with rfl | rfl | rfl
      · exact ⟨by decide, by decide, fun _ => ⟨[], rfl, Or.inl rfl⟩, by decide⟩
      · exact ⟨by decide, by decide, fun _ => ⟨_, rfl, Or.inr (Or.inl rfl)⟩, by decide⟩
      · exact ⟨by decide, by decide, fun _ => ⟨_, rfl, Or.inr (Or.inr rfl)⟩, by decide⟩

set_option maxRecDepth 100000 in
theorem handler_resumes_thread_witness :
    (Event.suspend true ∈
        [Event.lockMachineThreads, Event.lockCodeBlockSet, Event.lockExecutableAllocator,
          Event.suspend true, Event.getRegisters, Event.freeRegisters, Event.walk,
          Event.resume, Event.appendStackTrace, Event.dispatchAfter] →
      List.count Event.resume
        [Event.lockMachineThreads, Event.lockCodeBlockSet, Event.lockExecutableAllocator,
          Event.suspend true, Event.getRegisters, Event.freeRegisters, Event.walk,
          Event.resume, Event.appendStackTrace, Event.dispatchAfter] = 1) ∧
    threadSuspendedAfter
      [Event.lockMachineThreads, Event.lockCodeBlockSet, Event.lockExecutableAllocator,
        Event.suspend true, Event.getRegisters, Event.freeRegisters, Event.walk,
        Event.resume, Event.appendStackTrace, Event.dispatchAfter] = false :=
  ⟨((handler_resumes_thread exampleHostEnv { exampleStarted with m_timerQueue := 0 }).2
      exampleSampled _ (by decide)).1,
    ((handler_resumes_thread exampleHostEnv { exampleStarted with m_timerQueue := 0 }).2
      exampleSampled _ (by decide)).2.2.2⟩

/-! ## One machine frame of the walk -/

/-- C18 (amended). For a machine frame the walk arrives at with a valid frame pointer
and room in the buffer: if its code block is registered, `resetAtMachineFrame` does
not bail out and, once the inlined levels are emitted with room left, the walk stores
a `VerifiedExecutable` entry with the owner executable and goes on at the caller; if
the frame has no code block, or the code block is unregistered in a build without
`DFG_JIT`, the walk stores an `UnverifiedCallee` entry with the encoded callee of the
frame, raises `stacktraceNeedsVerification`, and goes on at the caller without having
bailed out; in a `DFG_JIT` build a non-null unregistered code block makes
`resetAtMachineFrame` bail out instead: the walk stops, invalid, with no entry for the
frame. -/
theorem walk_machine_frame (vm : VM) (maxStackTraceSize fuel : Nat) (w0 : FrameWalker)
    (st : List StackFrame) (nv : Bool) (h0 : w0.m_callFrame ≠ 0)
    (hv : isValidFramePointer vm w0.m_callFrame = true) (hb : w0.m_bailingOut = false)
    (hd : w0.m_depth < maxStackTraceSize) :
    (isValidCodeBlock vm (vm.execStates w0.m_callFrame).codeBlock = true →
      (w0.resetAtMachineFrame vm).m_bailingOut = false ∧
      ∀ w1 st1,
        inlineLoop vm maxStackTraceSize (maxStackTraceSize + 1) (w0.resetAtMachineFrame vm) st =
          Result.ok (w1, st1) →
        w1.m_depth < maxStackTraceSize →
        walkLoop vm maxStackTraceSize (fuel + 1) ⟨w0.resetAtMachineFrame vm, st, nv⟩ =
          walkLoop vm maxStackTraceSize fuel
            ⟨(FrameWalker.advanceToParentFrame vm
                { w1 with m_depth := w1.m_depth + 1 }).resetAtMachineFrame vm,
              st1.set w1.m_depth
                ⟨FrameType.VerifiedExecutable,
                  (vm.codeBlocks (vm.execStates w0.m_callFrame).codeBlock).ownerExecutable⟩,
              nv⟩) ∧
    (isValidCodeBlock vm (vm.execStates w0.m_callFrame).codeBlock = false →
      (vm.execStates w0.m_callFrame).codeBlock = 0 ∨ vm.dfgJIT = false →
      (w0.resetAtMachineFrame vm).m_bailingOut = false ∧
      walkLoop vm maxStackTraceSize (fuel + 1) ⟨w0.resetAtMachineFrame vm, st, nv⟩ =
        walkLoop vm maxStackTraceSize fuel
          ⟨(FrameWalker.advanceToParentFrame vm
              { w0 with m_inlineCallFrame := 0, m_depth := w0.m_depth + 1 }).resetAtMachineFrame
              vm,
            st.set w0.m_depth
              ⟨FrameType.UnverifiedCallee, (vm.execStates w0.m_callFrame).unsafeCallee⟩,
            true⟩) ∧
    (isValidCodeBlock vm (vm.execStates w0.m_callFrame).codeBlock = false →
      (vm.execStates w0.m_callFrame).codeBlock ≠ 0 → vm.dfgJIT = true →
      (w0.resetAtMachineFrame vm).m_bailingOut = true ∧
      walkLoop vm maxStackTraceSize (fuel + 1) ⟨w0.resetAtMachineFrame vm, st, nv⟩ =
        Result.ok ⟨w0.resetAtMachineFrame vm, st, nv⟩) := by
  refine ⟨fun hc => ?_, fun hc hor => ?_, fun hc hne hj => ?_⟩
  · have hbail : (w0.resetAtMachineFrame vm).m_bailingOut = false := by
      unfold FrameWalker.resetAtMachineFrame
      simp only [FrameWalker.isAtTop, h0, hv, hc, decide_False, Bool.not_true, if_false,
        Bool.false_eq_true]
      split_ifs <;> exact hb
    refine ⟨hbail, fun w1 st1 hin hroom => ?_⟩
    have hf := inlineLoop_frame vm _ _ _ _ _ _ hin
    rw [resetAtMachineFrame_callFrame] at hf
    have hcond : (!(w0.resetAtMachineFrame vm).isAtTop &&
        !(w0.resetAtMachineFrame vm).m_bailingOut &&
        decide ((w0.resetAtMachineFrame vm).m_depth < maxStackTraceSize)) = true := by
      simp [FrameWalker.isAtTop, resetAtMachineFrame_callFrame, resetAtMachineFrame_depth, h0,
        hbail, hd]
    rw [walkLoop]
    simp only [hcond, if_true, hin, ge_iff_le, Nat.not_le.mpr hroom, if_false, hf.1, hc]
  · have hreset : w0.resetAtMachineFrame vm = { w0 with m_inlineCallFrame := 0 } := by
      unfold FrameWalker.resetAtMachineFrame
      simp only [FrameWalker.isAtTop, h0, hv, decide_False, Bool.not_true, if_false,
        Bool.false_eq_true]
      rcases hor with hz | hj
      · simp [hz]
      · simp [hj]
    rw [hreset]
    refine ⟨hb, ?_⟩
    have hin : inlineLoop vm maxStackTraceSize (maxStackTraceSize + 1)
        { w0 with m_inlineCallFrame := 0 } st =
        Result.ok ({ w0 with m_inlineCallFrame := 0 }, st) := by
      simp [inlineLoop]
    simp only [hb] at hin
    rw [walkLoop]
    simp only [FrameWalker.isAtTop, h0, hb, hd, decide_False, decide_True, Bool.not_false,
      Bool.and_self, if_true, hin, ge_iff_le, Nat.not_le.mpr hd, if_false, hc,
      Bool.false_eq_true]
  · have hbail : (w0.resetAtMachineFrame vm).m_bailingOut = true := by
      unfold FrameWalker.resetAtMachineFrame
      simp [FrameWalker.isAtTop, h0, hv, hc, hne, hj]
    refine ⟨hbail, ?_⟩
    rw [walkLoop]
    simp [hbail]

theorem walk_machine_frame_witness :
    ((FrameWalker.resetAtMachineFrame exampleHostVM ⟨20, false, 0, 1⟩).m_bailingOut = false ∧
      walkLoop exampleHostVM 4 (4 + 1)
          ⟨FrameWalker.resetAtMachineFrame exampleHostVM ⟨20, false, 0, 1⟩,
            [⟨FrameType.VerifiedExecutable, 111⟩, StackFrame.default, StackFrame.default,
              StackFrame.default], false⟩ =
        walkLoop exampleHostVM 4 4
          ⟨(FrameWalker.advanceToParentFrame exampleHostVM
              ⟨20, false, 0, 1 + 1⟩).resetAtMachineFrame exampleHostVM,
            [⟨FrameType.VerifiedExecutable, 111⟩, StackFrame.default, StackFrame.default,
              StackFrame.default].set 1 ⟨FrameType.UnverifiedCallee, 7⟩,
            true⟩) ∧
    ((FrameWalker.resetAtMachineFrame (exampleVM 1 20) ⟨20, false, 0, 1⟩).m_bailingOut = true ∧
      walkLoop (exampleVM 1 20) 4 (4 + 1)
          ⟨FrameWalker.resetAtMachineFrame (exampleVM 1 20) ⟨20, false, 0, 1⟩,
            [⟨FrameType.VerifiedExecutable, 111⟩, StackFrame.default, StackFrame.default,
              StackFrame.default], false⟩ =
        Result.ok
          ⟨FrameWalker.resetAtMachineFrame (exampleVM 1 20) ⟨20, false, 0, 1⟩,
            [⟨FrameType.VerifiedExecutable, 111⟩, StackFrame.default, StackFrame.default,
              StackFrame.default], false⟩) :=
  ⟨(walk_machine_frame exampleHostVM 4 4 ⟨20, false, 0, 1⟩
      [⟨FrameType.VerifiedExecutable, 111⟩, StackFrame.default, StackFrame.default,
        StackFrame.default] false (by decide) (by decide) rfl (by decide)).2.1
      (by decide) (Or.inl rfl),
    (walk_machine_frame (exampleVM 1 20) 4 4 ⟨20, false, 0, 1⟩
      [⟨FrameType.VerifiedExecutable, 111⟩, StackFrame.default, StackFrame.default,
        StackFrame.default] false (by decide) (by decide) rfl (by decide)).2.2
      (by decide) (by decide) rfl⟩

/-- C18 fails as stated: in the `DFG_JIT` machine state `exampleVM 1 20` the walk
arrives, with three free buffer slots, at the frame 20, whose frame pointer is valid
and whose code block 21 is not registered; it stores no `UnverifiedCallee` entry,
leaves `stacktraceNeedsVerification` false, and ends invalid after the one entry of
the first frame. -/
theorem walk_unregistered_code_block_counterexample :
    (exampleVM 1 20).dfgJIT = true ∧
    ((exampleVM 1 20).execStates 10).callerFrame = 20 ∧
    isValidFramePointer (exampleVM 1 20) 20 = true ∧
    ((exampleVM 1 20).execStates 20).codeBlock = 21 ∧
    isValidCodeBlock (exampleVM 1 20) 21 = false ∧
    (FrameWalker.mk0 10).walk (exampleVM 1 20) (vectorGrow [] 4) =
      Result.ok
        { walker := ⟨20, true, 0, 1⟩
          stackTrace :=
            [⟨FrameType.VerifiedExecutable, 111⟩, StackFrame.default, StackFrame.default,
              StackFrame.default]
          didRunOutOfSpace := false
          stacktraceNeedsVerification := false
          size := 1 } ∧
    WalkResult.wasValidWalk
        { walker := ⟨20, true, 0, 1⟩
          stackTrace :=
            [⟨FrameType.VerifiedExecutable, 111⟩, StackFrame.default, StackFrame.default,
              StackFrame.default]
          didRunOutOfSpace := false
          stacktraceNeedsVerification := false
          size := 1 } = false := by
  decide

/-! ## The remaining properties of the callback and the walker -/

/-- C21. A sampler callback that runs while the profiler is active and not paused,
with the VM entered, and whose `suspend()` of the execution thread returns false,
returns without recording anything (`m_stackTraces`, `m_seenExecutables`,
`m_currentFrames` and `m_totalTime` are unchanged, the thread is not resumed, no walk
is made) and re-arms itself: exactly one `dispatchAfter`, one more callback on the
timer queue, and `m_hasDispatchedFunction` true. -/
theorem handler_suspend_failure (env : SampleEnv) (p : SamplingProfiler)
    (hactive : p.m_isActive = true) (hpaused : p.m_isPaused = false)
    (hthread : p.m_jscExecutionThread ≠ 0) (hentry : env.vm.entryScope = true)
    (hsuspend : env.didSuspend = false) :
    ∃ q events, m_handler env p = Result.ok (q, events) ∧
      q.m_stackTraces = p.m_stackTraces ∧ q.m_seenExecutables = p.m_seenExecutables ∧
      q.m_currentFrames = p.m_currentFrames ∧ q.m_totalTime = p.m_totalTime ∧
      q.m_hasDispatchedFunction = true ∧ q.m_timerQueue = p.m_timerQueue + 1 ∧
      events = [Event.lockMachineThreads, Event.lockCodeBlockSet,
        Event.lockExecutableAllocator, Event.suspend false, Event.dispatchAfter] ∧
      events.count Event.dispatchAfter = 1 ∧ Event.walk ∉ events ∧
      Event.appendStackTrace ∉ events := by
  have hrun : m_handler env p = Result.ok
      (dispatchFunction env.elapsedTime3 { p with m_lastTime := env.elapsedTime2 },
        [Event.lockMachineThreads, Event.lockCodeBlockSet, Event.lockExecutableAllocator,
          Event.suspend false, Event.dispatchAfter]) := by
    simp [m_handler, sample, hactive, hpaused, hthread, hentry, hsuspend]
  exact ⟨_, _, hrun, rfl, rfl, rfl, rfl, rfl, rfl, rfl, by decide, by decide, by decide⟩

theorem handler_suspend_failure_witness :
    ∃ q events,
      m_handler { exampleHostEnv with didSuspend := false } exampleSampled =
        Result.ok (q, events) ∧
      q.m_stackTraces = exampleSampled.m_stackTraces ∧
      q.m_seenExecutables = exampleSampled.m_seenExecutables ∧
      q.m_currentFrames = exampleSampled.m_currentFrames ∧
      q.m_totalTime = exampleSampled.m_totalTime ∧
      q.m_hasDispatchedFunction = true ∧ q.m_timerQueue = exampleSampled.m_timerQueue + 1 ∧
      events = [Event.lockMachineThreads, Event.lockCodeBlockSet,
        Event.lockExecutableAllocator, Event.suspend false, Event.dispatchAfter] ∧
      events.count Event.dispatchAfter = 1 ∧ Event.walk ∉ events ∧
      Event.appendStackTrace ∉ events :=
  handler_suspend_failure { exampleHostEnv with didSuspend := false } exampleSampled rfl rfl
    (by decide) rfl rfl

theorem inlineLoop_drop (vm : VM) (n : Nat) :
    ∀ (fuel : Nat) (w w1 : FrameWalker) (st st1 : List StackFrame),
      inlineLoop vm n fuel w st = Result.ok (w1, st1) →
      w.m_depth ≤ w1.m_depth ∧ st1.drop w1.m_depth = st.drop w1.m_depth := by
  intro fuel
  induction fuel with
  | zero => intro w w1 st st1 h; simp [inlineLoop] at h
  | succ k ih =>
    intro w w1 st st1 h
    unfold inlineLoop at h
    dsimp only at h
    split_ifs at h with h1 h2
    · obtain ⟨h3, h4⟩ := ih _ _ _ _ h
      simp only at h3
      refine ⟨by omega, ?_⟩
      rw [h4, List.drop_set_of_lt _ _ (by omega)]
    · simp at h
      obtain ⟨rfl, rfl⟩ := h
      exact ⟨Nat.le_refl _, rfl⟩

theorem walkLoop_drop (vm : VM) (n : Nat) :
    ∀ (fuel : Nat) (s s1 : WalkState), walkLoop vm n fuel s = Result.ok s1 →
      s.w.m_depth ≤ s1.w.m_depth ∧
        s1.stackTrace.drop s1.w.m_depth = s.stackTrace.drop s1.w.m_depth := by
  intro fuel
  induction fuel with
  | zero => intro s s1 h; simp [walkLoop] at h
  | succ k ih =>
    intro s s1 h
    unfold walkLoop at h
    split_ifs at h with hc
    · split at h
      · rename_i w1 st1 hin
        obtain ⟨hl1, hl2⟩ := inlineLoop_drop vm n _ _ _ _ _ hin
        dsimp only at h
        split_ifs at h with hd1 hcb
        · simp at h
          subst h
          exact ⟨hl1, hl2⟩
        · obtain ⟨h3, h4⟩ := ih _ _ h
          simp only [resetAtMachineFrame_depth, FrameWalker.advanceToParentFrame] at h3 h4
          refine ⟨by omega, ?_⟩
          rw [h4, List.drop_set_of_lt _ _ (by omega)]
          have hd : s1.w.m_depth = w1.m_depth + (s1.w.m_depth - w1.m_depth) := by omega
          rw [hd, ← List.drop_drop, ← List.drop_drop, hl2]
        · obtain ⟨h3, h4⟩ := ih _ _ h
          simp only [resetAtMachineFrame_depth, FrameWalker.advanceToParentFrame] at h3 h4
          refine ⟨by omega, ?_⟩
          rw [h4, List.drop_set_of_lt _ _ (by omega)]
          have hd : s1.w.m_depth = w1.m_depth + (s1.w.m_depth - w1.m_depth) := by omega
          rw [hd, ← List.drop_drop, ← List.drop_drop, hl2]
      · simp at h
      · simp at h
    · simp at h
      subst h
      exact ⟨Nat.le_refl _, rfl⟩

theorem flagRaised_set {nv : Bool} {st : List StackFrame} {d : Nat} (h : FlagRaised nv st d)
    (hd : d < st.length) (e : StackFrame) : FlagRaised nv (st.set d e) (d + 1) := by
  intro hn
  obtain ⟨f, hf, hu⟩ := h hn
  exact ⟨f, by rw [take_set_succ st d e hd]; simp [hf], hu⟩

theorem inlineLoop_flagRaised (vm : VM) (n : Nat) (nv : Bool) :
    ∀ (fuel : Nat) (w w1 : FrameWalker) (st st1 : List StackFrame),
      inlineLoop vm n fuel w st = Result.ok (w1, st1) → st.length = n →
      FlagRaised nv st w.m_depth → FlagRaised nv st1 w1.m_depth := by
  intro fuel
  induction fuel with
  | zero => intro w w1 st st1 h; simp [inlineLoop] at h
  | succ k ih =>
    intro w w1 st st1 h hl hg
    unfold inlineLoop at h
    dsimp only at h
    split_ifs at h with h1 h2
    · refine ih _ _ _ _ h (by simpa using hl) ?_
      exact flagRaised_set hg (by omega) _
    · simp at h
      obtain ⟨rfl, rfl⟩ := h
      exact hg

theorem walkLoop_flagRaised (vm : VM) (n : Nat) :
    ∀ (fuel : Nat) (s s1 : WalkState), walkLoop vm n fuel s = Result.ok s1 →
      s.stackTrace.length = n →
      FlagRaised s.stacktraceNeedsVerification s.stackTrace s.w.m_depth →
      FlagRaised s1.stacktraceNeedsVerification s1.stackTrace s1.w.m_depth := by
  intro fuel
  induction fuel with
  | zero => intro s s1 h; simp [walkLoop] at h
  | succ k ih =>
    intro s s1 h hl hg
    unfold walkLoop at h
    split_ifs at h with hc
    · split at h
      · rename_i w1 st1 hin
        have hl1 := inlineLoop_length vm n _ _ _ _ _ hin
        have hg1 := inlineLoop_flagRaised vm n _ _ _ _ _ _ hin hl hg
        dsimp only at h
        split_ifs at h with hd1 hcb
        · simp at h
          subst h
          exact hg1
        · refine ih _ _ h (by simp [hl1, hl]) ?_
          simp only [resetAtMachineFrame_depth, FrameWalker.advanceToParentFrame]
          exact flagRaised_set hg1 (by omega) _
        · refine ih _ _ h (by simp [hl1, hl]) ?_
          simp only [resetAtMachineFrame_depth, FrameWalker.advanceToParentFrame]
          intro _
          refine ⟨⟨FrameType.UnverifiedCallee, (vm.execStates w1.m_callFrame).unsafeCallee⟩,
            ?_, rfl⟩
          rw [take_set_succ _ _ _ (by omega)]
          simp
      · simp at h
      · simp at h
    · simp at h
      subst h
      exact hg

/-- C24. On return from `FrameWalker::walk` with result `k`, for every machine state
and every buffer: `k` is at most the buffer capacity, the buffer keeps its length and
its entries at the indices from `k` on, every entry below `k` is `VerifiedExecutable`
or `UnverifiedCallee`, and `stacktraceNeedsVerification` is true if and only if an
entry below `k` is `UnverifiedCallee`. -/
theorem walk_result_contract (vm : VM) (callFrame : Nat) (buf : List StackFrame)
    (r : WalkResult) (h : (FrameWalker.mk0 callFrame).walk vm buf = Result.ok r) :
    r.size ≤ buf.length ∧ r.stackTrace.length = buf.length ∧
    r.stackTrace.drop r.size = buf.drop r.size ∧
    (∀ (i : Nat) (f : StackFrame), i < r.size → r.stackTrace[i]? = some f →
      f.frameType = FrameType.VerifiedExecutable ∨ f.frameType = FrameType.UnverifiedCallee) ∧
    (r.stacktraceNeedsVerification = true ↔
      ∃ (i : Nat) (f : StackFrame), i < r.size ∧ r.stackTrace[i]? = some f ∧
        f.frameType = FrameType.UnverifiedCallee) := by
  have hsize := walk_size_le vm callFrame buf r h
  have hlen := walk_length vm _ buf r h
  have hwalked := walk_walkedEntries vm callFrame buf r h
  obtain ⟨s, hs, rfl⟩ := walk_eq_ok vm _ buf r h
  have hdrop := (walkLoop_drop vm _ _ _ _ hs).2
  have hflag := walkLoop_flagRaised vm _ _ _ _ hs rfl (by intro hn; simp at hn)
  have hmem : ∀ (i : Nat) (f : StackFrame), i < s.w.m_depth → s.stackTrace[i]? = some f →
      f ∈ s.stackTrace.take s.w.m_depth := by
    intro i f hi hf
    rw [List.mem_iff_getElem?]
    exact ⟨i, by rw [List.getElem?_take_of_lt hi]; exact hf⟩
  refine ⟨hsize, hlen, hdrop, ?_, ?_, ?_⟩
  · intro i f hi hf
    rcases hwalked f (hmem i f hi hf) with h1 | h1
    · exact Or.inl h1
    · exact Or.inr h1.1
  · intro hn
    obtain ⟨f, hf, hu⟩ := hflag hn
    rw [List.mem_iff_getElem?] at hf
    obtain ⟨i, hi⟩ := hf
    have hlt : i < s.w.m_depth := by
      by_contra hge
      rw [List.getElem?_take_eq_none (by omega)] at hi
      simp at hi
    rw [List.getElem?_take_of_lt hlt] at hi
    exact ⟨i, f, hlt, hi, hu⟩
  · rintro ⟨i, f, hi, hf, hu⟩
    rcases hwalked f (hmem i f hi hf) with h1 | h1
    · rw [h1] at hu
      exact absurd hu (by decide)
    · exact h1.2


theorem walk_result_contract_witness :
    (5 ≤ (vectorGrow [] 6).length ∧
    [⟨FrameType.VerifiedExecutable, 111⟩, ⟨FrameType.UnverifiedCallee, 7⟩,
        ⟨FrameType.UnverifiedCallee, 8⟩, ⟨FrameType.UnverifiedCallee, 6⟩,
        ⟨FrameType.UnverifiedCallee, 100⟩, StackFrame.default].length =
      (vectorGrow [] 6).length) ∧
    (true = true ↔
      ∃ (i : Nat) (f : StackFrame), i < 5 ∧
        [⟨FrameType.VerifiedExecutable, 111⟩, ⟨FrameType.UnverifiedCallee, 7⟩,
          ⟨FrameType.UnverifiedCallee, 8⟩, ⟨FrameType.UnverifiedCallee, 6⟩,
          ⟨FrameType.UnverifiedCallee, 100⟩, StackFrame.default][i]? = some f ∧
        f.frameType = FrameType.UnverifiedCallee) :=
  ⟨⟨(walk_result_contract exampleHostVM 10 (vectorGrow [] 6)
      ⟨⟨0, false, 0, 5⟩,
        [⟨FrameType.VerifiedExecutable, 111⟩, ⟨FrameType.UnverifiedCallee, 7⟩,
          ⟨FrameType.UnverifiedCallee, 8⟩, ⟨FrameType.UnverifiedCallee, 6⟩,
          ⟨FrameType.UnverifiedCallee, 100⟩, StackFrame.default], false, true, 5⟩
      (by decide)).1,
    (walk_result_contract exampleHostVM 10 (vectorGrow [] 6)
      ⟨⟨0, false, 0, 5⟩,
        [⟨FrameType.VerifiedExecutable, 111⟩, ⟨FrameType.UnverifiedCallee, 7⟩,
          ⟨FrameType.UnverifiedCallee, 8⟩, ⟨FrameType.UnverifiedCallee, 6⟩,
          ⟨FrameType.UnverifiedCallee, 100⟩, StackFrame.default], false, true, 5⟩
      (by decide)).2.1⟩,
    (walk_result_contract exampleHostVM 10 (vectorGrow [] 6)
      ⟨⟨0, false, 0, 5⟩,
        [⟨FrameType.VerifiedExecutable, 111⟩, ⟨FrameType.UnverifiedCallee, 7⟩,
          ⟨FrameType.UnverifiedCallee, 8⟩, ⟨FrameType.UnverifiedCallee, 6⟩,
          ⟨FrameType.UnverifiedCallee, 100⟩, StackFrame.default], false, true, 5⟩
      (by decide)).2.2.2.2⟩

/-- C25. `isValidFramePointer(fp)` is true if and only if some thread of the
registered thread list has `stackEnd <= fp <= stackBase`; and when the walker takes a
non-null frame pointer for which it is false, `resetAtMachineFrame` bails out and the
loop stops at once with the buffer, the depth and the verification flag as they were
(no entry for that frame or any caller), and `wasValidWalk()` is false for every walk
that ends on such a frame pointer. -/
theorem invalid_frame_pointer_stops_walk (vm : VM) :
    (∀ fp, isValidFramePointer vm fp = true ↔
      ∃ thread ∈ vm.machineThreads, thread.stackEnd ≤ fp ∧ fp ≤ thread.stackBase) ∧
    (∀ (w0 : FrameWalker) (st : List StackFrame) (nv : Bool) (maxStackTraceSize fuel : Nat),
      w0.m_callFrame ≠ 0 → isValidFramePointer vm w0.m_callFrame = false →
      (w0.resetAtMachineFrame vm).m_bailingOut = true ∧
      (w0.resetAtMachineFrame vm).m_depth = w0.m_depth ∧
      walkLoop vm maxStackTraceSize (fuel + 1) ⟨w0.resetAtMachineFrame vm, st, nv⟩ =
        Result.ok ⟨w0.resetAtMachineFrame vm, st, nv⟩) ∧
    (∀ (callFrame : Nat) (buf : List StackFrame) (r : WalkResult),
      (FrameWalker.mk0 callFrame).walk vm buf = Result.ok r → r.walker.m_callFrame ≠ 0 →
      isValidFramePointer vm r.walker.m_callFrame = false → r.wasValidWalk = false) := by
  refine ⟨fun fp => ?_, ?_, ?_⟩
  · simp only [isValidFramePointer, List.any_eq_true, Bool.and_eq_true, decide_eq_true_eq,
      ge_iff_le]
    constructor
    · rintro ⟨t, ht, h1, h2⟩
      exact ⟨t, ht, h2, h1⟩
    · rintro ⟨t, ht, h1, h2⟩
      exact ⟨t, ht, h2, h1⟩
  · intro w0 st nv n fuel h0 hv
    have hbail := resetAtMachineFrame_bails vm w0 h0 hv
    refine ⟨hbail, resetAtMachineFrame_depth vm w0, ?_⟩
    rw [walkLoop]
    simp [hbail]
  · intro callFrame buf r h h0 hv
    have := walk_bailInv vm _ _ _ h h0 hv
    simp [WalkResult.wasValidWalk, this]

theorem invalid_frame_pointer_stops_walk_witness :
    (isValidFramePointer (exampleVM 2 5000) 1000 = true ↔
      ∃ thread ∈ (exampleVM 2 5000).machineThreads,
        thread.stackEnd ≤ 1000 ∧ 1000 ≤ thread.stackBase) ∧
    ((FrameWalker.resetAtMachineFrame (exampleVM 2 5000) ⟨5000, false, 0, 2⟩).m_bailingOut =
        true ∧
      (FrameWalker.resetAtMachineFrame (exampleVM 2 5000) ⟨5000, false, 0, 2⟩).m_depth = 2 ∧
      walkLoop (exampleVM 2 5000) 4 (4 + 1)
          ⟨FrameWalker.resetAtMachineFrame (exampleVM 2 5000) ⟨5000, false, 0, 2⟩,
            [⟨FrameType.VerifiedExecutable, 111⟩, ⟨FrameType.VerifiedExecutable, 121⟩,
              StackFrame.default, StackFrame.default], false⟩ =
        Result.ok
          ⟨FrameWalker.resetAtMachineFrame (exampleVM 2 5000) ⟨5000, false, 0, 2⟩,
            [⟨FrameType.VerifiedExecutable, 111⟩, ⟨FrameType.VerifiedExecutable, 121⟩,
              StackFrame.default, StackFrame.default], false⟩) :=
  ⟨(invalid_frame_pointer_stops_walk (exampleVM 2 5000)).1 1000,
    (invalid_frame_pointer_stops_walk (exampleVM 2 5000)).2.1 ⟨5000, false, 0, 2⟩
      [⟨FrameType.VerifiedExecutable, 111⟩, ⟨FrameType.VerifiedExecutable, 121⟩,
        StackFrame.default, StackFrame.default] false 4 4 (by decide) (by decide)⟩

theorem inlineLoop_fuel (vm : VM) (n : Nat) :
    ∀ (fuel1 fuel2 : Nat) (w : FrameWalker) (st : List StackFrame),
      n - w.m_depth < fuel1 → n - w.m_depth < fuel2 →
      inlineLoop vm n fuel1 w st = inlineLoop vm n fuel2 w st ∧
        inlineLoop vm n fuel1 w st ≠ Result.outOfFuel := by
  intro fuel1
  induction fuel1 with
  | zero => intro fuel2 w st h1; omega
  | succ a ih =>
    intro fuel2 w st h1 h2
    obtain ⟨b, rfl⟩ : ∃ b, fuel2 = b + 1 := ⟨fuel2 - 1, by omega⟩
    unfold inlineLoop
    dsimp only
    split_ifs with hc hv
    · exact ih b _ _ (by simp only; omega) (by simp only; omega)
    · exact ⟨rfl, by simp⟩
    · exact ⟨rfl, by simp⟩

theorem walkLoop_fuel (vm : VM) (n : Nat) :
    ∀ (fuel1 fuel2 : Nat) (s : WalkState),
      n - s.w.m_depth < fuel1 → n - s.w.m_depth < fuel2 →
      walkLoop vm n fuel1 s = walkLoop vm n fuel2 s ∧
        walkLoop vm n fuel1 s ≠ Result.outOfFuel := by
  intro fuel1
  induction fuel1 with
  | zero => intro fuel2 s h1; omega
  | succ a ih =>
    intro fuel2 s h1 h2
    obtain ⟨b, rfl⟩ : ∃ b, fuel2 = b + 1 := ⟨fuel2 - 1, by omega⟩
    unfold walkLoop
    split_ifs with hc
    · have hin := (inlineLoop_fuel vm n (n + 1) (n + 1) s.w s.stackTrace (by omega)
        (by omega)).2
      cases hres : inlineLoop vm n (n + 1) s.w s.stackTrace with
      | ok r =>
        obtain ⟨w1, st1⟩ := r
        have hmono := (inlineLoop_drop vm n _ _ _ _ _ hres).1
        dsimp only
        split_ifs with hd hcb
        · exact ⟨rfl, by simp⟩
        · exact ih b _
            (by simp only [resetAtMachineFrame_depth, FrameWalker.advanceToParentFrame]; omega)
            (by simp only [resetAtMachineFrame_depth, FrameWalker.advanceToParentFrame]; omega)
        · exact ih b _
            (by simp only [resetAtMachineFrame_depth, FrameWalker.advanceToParentFrame]; omega)
            (by simp only [resetAtMachineFrame_depth, FrameWalker.advanceToParentFrame]; omega)
      | releaseAssert => exact ⟨rfl, by simp⟩
      | outOfFuel => exact absurd hres hin
    · exact ⟨rfl, by simp⟩

/-- C26. `FrameWalker::walk` terminates on every machine state, cyclic caller chains
and cyclic inline-caller chains included, and every buffer: it never exhausts the
iteration bound; both loops give the same result under every iteration bound above
the number of free buffer slots (each iteration uses up one slot), so neither makes
more iterations than the capacity; and the number of entries written is at most the
capacity. -/
theorem walk_terminates (vm : VM) (buf : List StackFrame) :
    (∀ w : FrameWalker, w.walk vm buf ≠ Result.outOfFuel) ∧
    (∀ (s : WalkState) (fuel : Nat), buf.length - s.w.m_depth < fuel →
      walkLoop vm buf.length fuel s = walkLoop vm buf.length (buf.length - s.w.m_depth + 1) s ∧
      walkLoop vm buf.length fuel s ≠ Result.outOfFuel) ∧
    (∀ (w : FrameWalker) (st : List StackFrame) (fuel : Nat), buf.length - w.m_depth < fuel →
      inlineLoop vm buf.length fuel w st =
        inlineLoop vm buf.length (buf.length - w.m_depth + 1) w st ∧
      inlineLoop vm buf.length fuel w st ≠ Result.outOfFuel) ∧
    (∀ (callFrame : Nat) (r : WalkResult),
      (FrameWalker.mk0 callFrame).walk vm buf = Result.ok r → r.size ≤ buf.length) := by
  refine ⟨fun w => ?_, fun s fuel hf => walkLoop_fuel vm _ _ _ s hf (by omega),
    fun w st fuel hf => inlineLoop_fuel vm _ _ _ w st hf (by omega),
    fun callFrame r h => walk_size_le vm callFrame buf r h⟩
  have hloop := (walkLoop_fuel vm buf.length (buf.length + 1) (buf.length + 1)
    ⟨w.resetAtMachineFrame vm, buf, false⟩ (by simp only; omega) (by simp only; omega)).2
  unfold FrameWalker.walk
  dsimp only
  cases hres : walkLoop vm buf.length (buf.length + 1) ⟨w.resetAtMachineFrame vm, buf, false⟩ with
  | ok s => simp
  | releaseAssert => simp
  | outOfFuel => exact absurd hres hloop

theorem walk_terminates_witness :
    (FrameWalker.mk0 10).walk (exampleCyclicVM false) (vectorGrow [] 4) ≠ Result.outOfFuel ∧
    (FrameWalker.mk0 10).walk (exampleCyclicVM true) (vectorGrow [] 4) ≠ Result.outOfFuel ∧
    (FrameWalker.mk0 10).walk (exampleCyclicVM true) (vectorGrow [] 4) =
      Result.ok
        { walker := ⟨10, false, 5, 4⟩
          stackTrace := List.replicate 4 ⟨FrameType.VerifiedExecutable, 111⟩
          didRunOutOfSpace := true
          stacktraceNeedsVerification := false
          size := 4 } :=
  ⟨(walk_terminates (exampleCyclicVM false) (vectorGrow [] 4)).1 (FrameWalker.mk0 10),
    (walk_terminates (exampleCyclicVM true) (vectorGrow [] 4)).1 (FrameWalker.mk0 10),
    by decide⟩

theorem append_commaSeq_true : ∀ (s : String) (rest : List String),
    s ++ commaSeq true rest = joinComma (s :: rest)
  | s, [] => by simp [commaSeq, joinComma]
  | s, t :: rest => by
    have ih := append_commaSeq_true t rest
    simp only [commaSeq, if_true, joinComma]
    rw [← ih]
    simp only [String.append_assoc]

theorem commaSeq_false : ∀ items : List String, commaSeq false items = joinComma items
  | [] => rfl
  | s :: rest => by
    rw [← append_commaSeq_true s rest]
    simp [commaSeq]

theorem comma_eq (loopedOnce : Bool) (json : String) :
    comma loopedOnce json = json ++ (if loopedOnce then "," else "") := by
  unfold comma
  split_ifs <;> simp

/-- What the inner loop of `stacktracesAsJSON` appends to the string builder. -/
theorem appendFrames_eq_ok (heap : Heap) :
    ∀ (fs : List StackFrame) (s r : String × Bool), appendFrames heap fs s = Result.ok r →
      ∃ names, List.Forall₂ (fun f n => displayName heap f = Result.ok n) fs names ∧
        r.1 = s.1 ++ commaSeq s.2 (names.map quoted)
  | [], s, r, h => by
    simp only [appendFrames, Result.ok.injEq] at h
    subst h
    exact ⟨[], List.Forall₂.nil, by simp [commaSeq]⟩
  | f :: fs, s, r, h => by
    simp only [appendFrames, Result.bind_eq_ok] at h
    obtain ⟨name, hn, h2⟩ := h
    obtain ⟨names, hrel, hr⟩ := appendFrames_eq_ok heap fs _ r h2
    refine ⟨name :: names, List.Forall₂.cons hn hrel, ?_⟩
    rw [hr]
    simp only [comma_eq, List.map_cons, commaSeq, quoted, String.append_assoc]

/-- What the outer loop of `stacktracesAsJSON` appends to the string builder. -/
theorem appendTraces_eq_ok (heap : Heap) :
    ∀ (ts : List StackTrace) (s r : String × Bool), appendTraces heap ts s = Result.ok r →
      ∃ names,
        List.Forall₂
          (fun t ns => List.Forall₂ (fun f n => displayName heap f = Result.ok n) t.frames ns)
          ts names ∧
        r.1 = s.1 ++ commaSeq s.2
          (names.map fun trace => "[" ++ joinComma (trace.map quoted) ++ "]")
  | [], s, r, h => by
    simp only [appendTraces, Result.ok.injEq] at h
    subst h
    exact ⟨[], List.Forall₂.nil, by simp [commaSeq]⟩
  | t :: ts, s, r, h => by
    simp only [appendTraces, Result.bind_eq_ok] at h
    obtain ⟨s1, h1, h2⟩ := h
    obtain ⟨ns, hns, hs1⟩ := appendFrames_eq_ok heap t.frames _ s1 h1
    obtain ⟨names, hrel, hr⟩ := appendTraces_eq_ok heap ts _ r h2
    refine ⟨ns :: names, List.Forall₂.cons hns hrel, ?_⟩
    rw [hr]
    simp only [hs1, commaSeq_false, comma_eq, List.map_cons, commaSeq, String.append_assoc]

theorem forall₂_imp_mem {α β : Type} {R S : α → β → Prop} :
    ∀ {l : List α} {l1 : List β}, List.Forall₂ R l l1 →
      (∀ a ∈ l, ∀ b, R a b → S a b) → List.Forall₂ S l l1
  | _, _, List.Forall₂.nil, _ => List.Forall₂.nil
  | _, _, List.Forall₂.cons hr hrest, h =>
    List.Forall₂.cons (h _ (by simp) _ hr)
      (forall₂_imp_mem hrest fun a ha b hab => h a (by simp [ha]) b hab)

theorem forall₂_comp {α β γ : Type} {R : α → β → Prop} {S : β → γ → Prop}
    {T : α → γ → Prop} (hT : ∀ a b c, R a b → S b c → T a c) :
    ∀ {l : List α} {l1 : List β} {l2 : List γ}, List.Forall₂ R l l1 → List.Forall₂ S l1 l2 →
      List.Forall₂ T l l2
  | _, _, _, List.Forall₂.nil, List.Forall₂.nil => List.Forall₂.nil
  | _, _, _, List.Forall₂.cons hr hrest, List.Forall₂.cons hs hsrest =>
    List.Forall₂.cons (hT _ _ _ hr hs) (forall₂_comp hT hrest hsrest)

theorem forall₂_append {α β : Type} {R : α → β → Prop} {l2 : List α} {l3 : List β}
    (h2 : List.Forall₂ R l2 l3) :
    ∀ {l : List α} {l1 : List β}, List.Forall₂ R l l1 → List.Forall₂ R (l ++ l2) (l1 ++ l3)
  | _, _, List.Forall₂.nil => h2
  | _, _, List.Forall₂.cons hr hrest => List.Forall₂.cons hr (forall₂_append h2 hrest)

theorem forall₂_eq {α : Type} :
    ∀ {l l1 : List α}, List.Forall₂ (fun a b => b = a) l l1 → l1 = l
  | _, _, List.Forall₂.nil => rfl
  | _, _, List.Forall₂.cons hr hrest => by rw [hr, forall₂_eq hrest]

/-- A verifier run on a store without `UnverifiedCallee` frames keeps the frames of
every trace. -/
theorem processUnverifiedStackTraces_frames (heap : Heap) (p q : SamplingProfiler)
    (h : processUnverifiedStackTraces heap p = Result.ok q)
    (hno : ∀ t ∈ p.m_stackTraces, ∀ f ∈ t.frames, f.frameType ≠ FrameType.UnverifiedCallee) :
    List.Forall₂ (fun t t1 => t1.frames = t.frames) p.m_stackTraces q.m_stackTraces := by
  obtain ⟨ts, seen, hv, rfl⟩ := processUnverifiedStackTraces_eq_ok heap p q h
  obtain ⟨hrel, -, -⟩ := verifyTraces_spec heap _ _ _ _ hv
  have hpre : List.Forall₂ (fun t t1 : StackTrace => t1.frames = t.frames)
      (p.m_stackTraces.take p.m_indexOfNextStackTraceToVerify)
      (p.m_stackTraces.take p.m_indexOfNextStackTraceToVerify) :=
    List.forall₂_same.mpr fun _ _ => rfl
  have hpost : List.Forall₂ (fun t t1 : StackTrace => t1.frames = t.frames)
      (p.m_stackTraces.drop p.m_indexOfNextStackTraceToVerify) ts := by
    refine forall₂_imp_mem hrel ?_
    intro t ht t1 hr
    cases hn : t.needsVerification with
    | false => rw [hr.1 hn]
    | true =>
      refine forall₂_eq (forall₂_imp_mem (hr.2 hn).2.2 ?_)
      intro f hf f1 hfv
      obtain ⟨s, s1, hvf, -⟩ := hfv
      exact ((verifyFrame_spec heap f f1 s s1 hvf).1
        (hno t (List.mem_of_mem_drop ht) f hf)).1
  have happ := forall₂_append hpost hpre
  rw [List.take_append_drop] at happ
  exact happ

/-- C23. For every trace store without `UnverifiedCallee` frames, a returning
`stacktracesAsJSON()` returns the report of the specification for the `displayName`
labels of the stored frames: `[`, the traces in store order separated by single
commas, `]`, each trace being `[`, its quoted labels in stored order separated by
single commas, `]`; and it returns whenever its verifier run returns and every
executable named by a stored frame is of a kind `displayName` knows. -/
theorem stacktracesAsJSON_format (heap : Heap) (p : SamplingProfiler)
    (hno : ∀ t ∈ p.m_stackTraces, ∀ f ∈ t.frames, f.frameType ≠ FrameType.UnverifiedCallee) :
    (∀ q json, stacktracesAsJSON heap p = Result.ok (q, json) →
      ∃ names,
        List.Forall₂
          (fun t ns => List.Forall₂ (fun f n => displayName heap f = Result.ok n) t.frames ns)
          p.m_stackTraces names ∧
        json = specReport names) ∧
    (∀ q, processUnverifiedStackTraces heap p = Result.ok q →
      (∀ t ∈ p.m_stackTraces, ∀ f ∈ t.frames, f.frameType = FrameType.VerifiedExecutable →
        (heap.executables f.u).isKnownKind = true) →
      ∃ json, stacktracesAsJSON heap p = Result.ok (q, json)) := by
  constructor
  · intro q json h
    have hq := stacktracesAsJSON_state heap p q json h
    have hframes := processUnverifiedStackTraces_frames heap p q hq hno
    unfold stacktracesAsJSON at h
    simp only [Result.bind_eq_ok] at h
    obtain ⟨p1, h1, s, h2, h3⟩ := h
    rw [hq] at h1
    simp only [Result.ok.injEq, Prod.mk.injEq] at h1 h3
    subst h1
    obtain ⟨names, hrel, hs⟩ := appendTraces_eq_ok heap q.m_stackTraces _ s h2
    refine ⟨names, forall₂_comp ?_ hframes hrel, ?_⟩
    · intro t t1 ns h4 h5
      rw [← h4]
      exact h5
    · rw [← h3.2, hs, commaSeq_false]
      rfl
  · intro q hq hk
    have hframes := processUnverifiedStackTraces_frames heap p q hq hno
    obtain ⟨r, hr⟩ := appendTraces_returns heap q.m_stackTraces ("[", false) (by
      intro t1 ht1 f hf
      obtain ⟨t, ht, hft⟩ := forall₂_mem_right hframes t1 ht1
      rw [hft] at hf
      exact ⟨hno t ht f hf, hk t ht f hf⟩)
    simp only [stacktracesAsJSON, hq, hr, Result.bind]
    exact ⟨_, rfl⟩

set_option maxRecDepth 100000 in
theorem stacktracesAsJSON_format_witness :
    ∃ names,
      List.Forall₂
        (fun t ns =>
          List.Forall₂ (fun f n => displayName exampleHeap f = Result.ok n) t.frames ns)
        exampleVerified.m_stackTraces names ∧
      "[[\"f\",\"<host>\",\"<unknown>\",\"<host>\",\"<unknown>\"]]" = specReport names :=
  (stacktracesAsJSON_format exampleHeap exampleVerified (by decide)).1 exampleVerified
    "[[\"f\",\"<host>\",\"<unknown>\",\"<host>\",\"<unknown>\"]]" (by decide)

theorem writeFrames_append : ∀ (a b st : List StackFrame) (d : Nat),
    writeFrames st d (a ++ b) = writeFrames (writeFrames st d a) (d + a.length) b
  | [], b, st, d => by simp [writeFrames]
  | e :: a, b, st, d => by
    show writeFrames (st.set d e) (d + 1) (a ++ b) =
      writeFrames (writeFrames (st.set d e) (d + 1) a) (d + (a.length + 1)) b
    rw [writeFrames_append a b _ (d + 1)]
    congr 1
    omega

theorem chainEntries_length (vm : VM) : ∀ frames : List (Nat × List Nat),
    (chainEntries vm frames).length = (frames.map fun x => x.2.length + 1).sum
  | [] => rfl
  | x :: rest => by
    simp only [chainEntries, List.length_append, List.length_map, List.length_cons,
      chainEntries_length vm rest, List.map_cons, List.sum_cons]
    omega

theorem resetAtMachineFrame_root (vm : VM) (i d : Nat) :
    FrameWalker.resetAtMachineFrame vm ⟨0, false, i, d⟩ = ⟨0, false, 0, d⟩ := by
  simp [FrameWalker.resetAtMachineFrame, FrameWalker.isAtTop]

theorem resetAtMachineFrame_frame (vm : VM) (f i d : Nat) (h0 : f ≠ 0)
    (hv : isValidFramePointer vm f = true)
    (hc : isValidCodeBlock vm (vm.execStates f).codeBlock = true) :
    FrameWalker.resetAtMachineFrame vm ⟨f, false, i, d⟩ =
      ⟨f, false, inlineCallFrameAt vm f, d⟩ := by
  have hc0 : (vm.execStates f).codeBlock ≠ 0 := by
    intro hz
    simp [isValidCodeBlock, hz] at hc
  unfold FrameWalker.resetAtMachineFrame inlineCallFrameAt
  simp only [FrameWalker.isAtTop, h0, hv, hc, hc0, decide_False, Bool.not_true, if_false,
    Bool.false_eq_true]
  by_cases hj : vm.dfgJIT = true <;>
    by_cases hk : (vm.codeBlocks (vm.execStates f).codeBlock).hasCodeOrigins = true <;>
    by_cases hl : (vm.codeBlocks (vm.execStates f).codeBlock).canGetCodeOrigin
      (vm.execStates f).callSiteIndex = true <;>
    simp [hj, hk, hl]

theorem inlineLoop_inlineList (vm : VM) (n : Nat) (f : Nat) (b : Bool) :
    ∀ (levels : List Nat) (k inlineCallFrame d : Nat) (st : List StackFrame) (fuel : Nat),
      isInlineList vm inlineCallFrame levels = true → k ≤ levels.length → d + k ≤ n →
      (k = levels.length ∨ d + k = n) → n - d < fuel →
      inlineLoop vm n fuel ⟨f, b, inlineCallFrame, d⟩ st =
        Result.ok (⟨f, b, (levels.drop k).headD 0, d + k⟩,
          writeFrames st d ((levels.take k).map (inlinedFrame vm))) := by
  intro levels
  induction levels with
  | nil =>
    intro k ic d st fuel h hk _ _ hfuel
    simp at hk
    subst hk
    simp [isInlineList] at h
    subst h
    obtain ⟨fuel, rfl⟩ : ∃ m, fuel = m + 1 := ⟨fuel - 1, by omega⟩
    simp [inlineLoop, writeFrames]
  | cons i rest ih =>
    intro k ic d st fuel h hk hdk hor hfuel
    simp only [isInlineList, Bool.and_eq_true, decide_eq_true_eq] at h
    obtain ⟨⟨⟨rfl, h0⟩, hc⟩, hrest⟩ := h
    obtain ⟨fuel, rfl⟩ : ∃ m, fuel = m + 1 := ⟨fuel - 1, by omega⟩
    cases k with
    | zero =>
      have hdn : d = n := by
        rcases hor with hor | hor
        · simp at hor
        · simpa using hor
      subst hdn
      simp [inlineLoop, writeFrames]
    | succ k =>
      have hlt : d < n := by omega
      unfold inlineLoop
      simp only [h0, hlt, ne_eq, not_false_eq_true, and_self, if_true, hc]
      rw [ih k _ (d + 1) _ fuel hrest (by simpa using hk) (by omega)
        (by rcases hor with hor | hor
            · left; simpa using hor
            · right; omega) (by omega)]
      simp [writeFrames, inlinedFrame, Nat.add_assoc, Nat.add_comm 1]

theorem walkLoop_inlinedChain (vm : VM) (n : Nat) :
    ∀ (frames : List (Nat × List Nat)) (callFrame d x : Nat) (st : List StackFrame) (nv : Bool)
      (fuel : Nat),
      isInlinedChain vm callFrame frames = true → d ≤ n → n - d < fuel →
      ∃ w1,
        walkLoop vm n fuel ⟨FrameWalker.resetAtMachineFrame vm ⟨callFrame, false, x, d⟩, st, nv⟩ =
          Result.ok ⟨w1, writeFrames st d ((chainEntries vm frames).take (n - d)), nv⟩ ∧
        w1.m_depth = d + min (chainEntries vm frames).length (n - d) ∧
        w1.m_bailingOut = false ∧
        (w1.m_callFrame = 0 ↔ d + (chainEntries vm frames).length ≤ n) := by
  intro frames
  induction frames with
  | nil =>
    intro callFrame d x st nv fuel h hd hfuel
    simp [isInlinedChain] at h
    subst h
    rw [resetAtMachineFrame_root]
    obtain ⟨fuel, rfl⟩ : ∃ m, fuel = m + 1 := ⟨fuel - 1, by omega⟩
    refine ⟨⟨0, false, 0, d⟩, ?_, ?_, rfl, ?_⟩
    · simp [walkLoop, FrameWalker.isAtTop, chainEntries, writeFrames]
    · simp [chainEntries]
    · simp [chainEntries, hd]
  | cons x0 rest ih =>
    intro callFrame d x st nv fuel h hd hfuel
    simp only [isInlinedChain, Bool.and_eq_true, decide_eq_true_eq] at h
    obtain ⟨⟨⟨⟨⟨rfl, h0⟩, hv⟩, hc⟩, hlist⟩, hrest⟩ := h
    rw [resetAtMachineFrame_frame vm _ _ _ h0 hv hc]
    obtain ⟨fuel, rfl⟩ : ∃ m, fuel = m + 1 := ⟨fuel - 1, by omega⟩
    have hlen : (chainEntries vm (x0 :: rest)).length =
        x0.2.length + 1 + (chainEntries vm rest).length := by
      simp only [chainEntries, List.length_append, List.length_map, List.length_cons]
      omega
    by_cases hdn : d = n
    · subst hdn
      refine ⟨⟨x0.1, false, inlineCallFrameAt vm x0.1, d⟩, ?_, ?_, rfl, ?_⟩
      · simp [walkLoop, writeFrames]
      · simp
      · simp only [h0, false_iff]
        omega
    · have hlt : d < n := by omega
      by_cases hfit : x0.2.length < n - d
      · have hin := inlineLoop_inlineList vm n x0.1 false x0.2 x0.2.length
          (inlineCallFrameAt vm x0.1) d st (n + 1) hlist (Nat.le_refl _) (by omega)
          (Or.inl rfl) (by omega)
        simp only [List.drop_length, List.headD_nil, List.take_length] at hin
        obtain ⟨w1, hw1, hdepth, hbail, htop⟩ := ih (vm.execStates x0.1).callerFrame
          (d + x0.2.length + 1) 0
          ((writeFrames st d (x0.2.map (inlinedFrame vm))).set (d + x0.2.length)
            (verifiedFrame vm x0.1)) nv fuel hrest (by omega) (by omega)
        refine ⟨w1, ?_, ?_, hbail, ?_⟩
        · rw [walkLoop]
          simp only [FrameWalker.isAtTop, h0, hlt, decide_False, decide_True, Bool.not_false,
            Bool.and_self, if_true, hin, ge_iff_le, Nat.not_le.mpr (by omega : d + x0.2.length < n),
            if_false, hc, FrameWalker.advanceToParentFrame]
          have hbuf : writeFrames st d ((chainEntries vm (x0 :: rest)).take (n - d)) =
              writeFrames
                ((writeFrames st d (x0.2.map (inlinedFrame vm))).set (d + x0.2.length)
                  (verifiedFrame vm x0.1))
                (d + x0.2.length + 1)
                ((chainEntries vm rest).take (n - (d + x0.2.length + 1))) := by
            have htake : (chainEntries vm (x0 :: rest)).take (n - d) =
                x0.2.map (inlinedFrame vm) ++
                  (verifiedFrame vm x0.1 ::
                    (chainEntries vm rest).take (n - (d + x0.2.length + 1))) := by
              simp only [chainEntries]
              rw [List.take_append_eq_append_take, List.take_of_length_le (by simp; omega)]
              congr 1
              have hsub : n - d - (x0.2.map (inlinedFrame vm)).length =
                  (n - (d + x0.2.length + 1)) + 1 := by
                simp only [List.length_map]
                omega
              rw [hsub, List.take_succ_cons]
            rw [htake, writeFrames_append]
            simp only [writeFrames, List.length_map]
          rw [hbuf]
          exact hw1
        · rw [hdepth, hlen]
          omega
        · rw [htop, hlen]
          omega
      · have hin := inlineLoop_inlineList vm n x0.1 false x0.2 (n - d)
          (inlineCallFrameAt vm x0.1) d st (n + 1) hlist (by omega) (by omega)
          (Or.inr (by omega)) (by omega)
        have hdk : d + (n - d) = n := by omega
        rw [hdk] at hin
        refine ⟨⟨x0.1, false, (x0.2.drop (n - d)).headD 0, n⟩, ?_, ?_, rfl, ?_⟩
        · rw [walkLoop]
          simp only [FrameWalker.isAtTop, h0, hlt, decide_False, decide_True, Bool.not_false,
            Bool.and_self, if_true, hin, ge_iff_le, Nat.le_refl]
          have htake : (chainEntries vm (x0 :: rest)).take (n - d) =
              (x0.2.take (n - d)).map (inlinedFrame vm) := by
            simp only [chainEntries]
            rw [List.take_append_of_le_length (by simp; omega), List.map_take]
          rw [htake]
        · rw [hlen]
          simp only
          omega
        · simp only [h0, false_iff]
          rw [hlen]
          omega

/-- C22. For a chain of machine frames with valid frame pointers and registered code
blocks, the frame `x.1` standing at an inlining chain of the levels `x.2` (innermost
first, their baseline code blocks registered), and a buffer of any capacity, `walk`
returns the minimum of the capacity and the sum of `k_i + 1`; the buffer then starts
with that many entries of the list that concatenates, frame by frame, the inlined
levels' baseline owner executables followed by the frame's own owner executable, all
`VerifiedExecutable`, and is unchanged beyond; `didRunOutOfSpace` is set exactly when
the sum exceeds the capacity; the walk is valid and needs no verification. -/
theorem walk_inlinedChain (vm : VM) (callFrame : Nat) (frames : List (Nat × List Nat))
    (buf : List StackFrame) (hchain : isInlinedChain vm callFrame frames = true) :
    ∃ r, (FrameWalker.mk0 callFrame).walk vm buf = Result.ok r ∧
      r.size = min buf.length (frames.map fun x => x.2.length + 1).sum ∧
      r.stackTrace = (chainEntries vm frames).take r.size ++ buf.drop r.size ∧
      (∀ e ∈ chainEntries vm frames, e.frameType = FrameType.VerifiedExecutable) ∧
      (r.didRunOutOfSpace = true ↔ buf.length < (frames.map fun x => x.2.length + 1).sum) ∧
      r.wasValidWalk = true ∧ r.stacktraceNeedsVerification = false := by
  obtain ⟨w1, hloop, hdepth, hbail, htop⟩ := walkLoop_inlinedChain vm buf.length frames
    callFrame 0 0 buf false (buf.length + 1) hchain (Nat.zero_le _) (by omega)
  have hlen := chainEntries_length vm frames
  simp only [Nat.zero_add, Nat.sub_zero] at hloop hdepth htop
  have hw := writeFrames_eq ((chainEntries vm frames).take buf.length) buf 0
    (by simp only [List.length_take, Nat.zero_add]; omega)
  have hwalk : (FrameWalker.mk0 callFrame).walk vm buf = Result.ok
      ⟨w1, writeFrames buf 0 ((chainEntries vm frames).take buf.length),
        decide (w1.m_depth ≥ buf.length) && !w1.isAtTop, false, w1.m_depth⟩ := by
    unfold FrameWalker.walk FrameWalker.mk0
    simp only [hloop]
  have hall : ∀ fs : List (Nat × List Nat),
      ∀ e ∈ chainEntries vm fs, e.frameType = FrameType.VerifiedExecutable := by
    intro fs
    induction fs with
    | nil => intro e he; simp [chainEntries] at he
    | cons x rest ih =>
      intro e he
      simp only [chainEntries, List.mem_append, List.mem_map, List.mem_cons] at he
      rcases he with ⟨i, _, rfl⟩ | rfl | he
      · rfl
      · rfl
      · exact ih e he
  refine ⟨_, hwalk, ?_, ?_, hall frames, ?_, ?_, rfl⟩
  · show w1.m_depth = _
    rw [hdepth, hlen, Nat.min_comm]
  · show writeFrames buf 0 _ = List.take w1.m_depth _ ++ List.drop w1.m_depth buf
    rw [hw, hdepth]
    simp only [List.take_zero, List.nil_append, List.length_take, Nat.zero_add]
    rw [Nat.min_comm buf.length]
    congr 1
    rcases Nat.le_total (chainEntries vm frames).length buf.length with h | h
    · rw [Nat.min_eq_left h, List.take_of_length_le h, List.take_of_length_le (Nat.le_refl _)]
    · rw [Nat.min_eq_right h]
  · show (decide (w1.m_depth ≥ buf.length) && !w1.isAtTop) = true ↔ _
    simp only [FrameWalker.isAtTop, Bool.and_eq_true, decide_eq_true_eq, Bool.not_eq_true',
      decide_eq_false_iff_not, htop, hdepth, ← hlen]
    omega
  · simp [WalkResult.wasValidWalk, hbail]

theorem walk_inlinedChain_witness :
    ∃ r, (FrameWalker.mk0 10).walk exampleInlinedVM (vectorGrow [] 3) = Result.ok r ∧
      r.size = min (vectorGrow [] 3).length
        (([(10, [5, 6]), (20, [])] : List (Nat × List Nat)).map fun x => x.2.length + 1).sum ∧
      r.stackTrace = (chainEntries exampleInlinedVM [(10, [5, 6]), (20, [])]).take r.size ++
        (vectorGrow [] 3).drop r.size ∧
      (∀ e ∈ chainEntries exampleInlinedVM [(10, [5, 6]), (20, [])],
        e.frameType = FrameType.VerifiedExecutable) ∧
      (r.didRunOutOfSpace = true ↔ (vectorGrow [] 3).length <
        (([(10, [5, 6]), (20, [])] : List (Nat × List Nat)).map fun x => x.2.length + 1).sum) ∧
      r.wasValidWalk = true ∧ r.stacktraceNeedsVerification = false :=
  walk_inlinedChain exampleInlinedVM 10 [(10, [5, 6]), (20, [])] (vectorGrow [] 3) (by decide)

/-- The inner loop's `RELEASE_ASSERT(isValidCodeBlock(codeBlock))`: when the baseline
code block of an inlined level is not in the code-block set the walk crashes, which is
why `isInlineList` asks for the registration of every level's baseline code block. -/
theorem walk_unregistered_baseline_asserts :
    (FrameWalker.mk0 10).walk { exampleInlinedVM with codeBlockSet := [11, 21, 41] }
      (vectorGrow [] 3) = Result.releaseAssert := by
  decide

/-- The sum of two doubles is rounded: the difference `5 - 4` is the double 1, and
adding it to `2 ^ 53` gives `2 ^ 53` again, the exact sum `2 ^ 53 + 1` lying half-way
between two doubles of which `2 ^ 53` has the even significand. -/
theorem double_add_rounds :
    (5 : Double) - 4 = 1 ∧
    (9007199254740992 : Double) + ((5 : Double) - 4) = 9007199254740992 ∧
    (9007199254740992 : Double) + 2 = 9007199254740994 ∧
    (9007199254740992 : Double) ≠ 9007199254740994 := by
  decide

/-- The textbook example of binary rounding, `0.1 + 0.2 = 0.30000000000000004` (bit
patterns `3FB999999999999A`, `3FC999999999999A`, `3FD3333333333334`), the sum of a
double and its opposite, and the sums with an infinite operand. -/
theorem double_add_examples :
    Double.finite false 1019 2702159776422298 + Double.finite false 1020 2702159776422298 =
      Double.finite false 1021 900719925474100 ∧
    (7 : Double) - 7 = 0 ∧
    (7 : Double) + Double.inf true = Double.inf true ∧
    Double.inf false + Double.inf true = Double.nan ∧
    Double.finite false 2046 4503599627370495 + Double.finite false 2046 4503599627370495 =
      Double.inf false := by
  decide

set_option maxRecDepth 100000 in
/-- A stored sample taken at time 5 by a profiler with `m_lastTime` 4 and `m_totalTime`
`2 ^ 53` leaves `m_totalTime` at `2 ^ 53`: the accumulation is done in `double`
arithmetic. -/
theorem handler_total_time_rounded :
    (m_handler exampleHostEnv
        { exampleStarted with m_totalTime := 9007199254740992, m_lastTime := 4 }).bind
      (fun x => Result.ok (x.1.m_totalTime, x.1.m_stackTraces.length)) =
      Result.ok (9007199254740992, 1) := by
  decide

/-- C12. From every reachable profiler state: the frames on which `stacktracesAsJSON`
evaluates `displayName` (those of the store its verifier run leaves) are never
`UnverifiedCallee`, so that `RELEASE_ASSERT` cannot fire, and `stacktracesAsJSON`
returns whenever its verifier run returns and every executable named by a stored frame
is of a kind `displayName` knows; the string it returns is made of brackets, commas and
one quoted frame string per stored frame, in stored order, and every frame string is
the `displayName` of its frame: one of `<unknown>`, `<host>`, `<eval>`, `<global>`,
`<module>`, `<anonymous-function>`, or the non-empty inferred name of the frame's
function executable, never the encoded callee value or the address the frame holds. -/
theorem stacktracesAsJSON_emits_labels (heap : Heap) (p : SamplingProfiler)
    (hp : Reachable p) :
    (∀ q, processUnverifiedStackTraces heap p = Result.ok q →
      (∀ t ∈ q.m_stackTraces, ∀ f ∈ t.frames, f.frameType ≠ FrameType.UnverifiedCallee) ∧
      ((∀ t ∈ q.m_stackTraces, ∀ f ∈ t.frames, f.frameType = FrameType.VerifiedExecutable →
          (heap.executables f.u).isKnownKind = true) →
        ∃ json, stacktracesAsJSON heap p = Result.ok (q, json))) ∧
    (∀ q json, stacktracesAsJSON heap p = Result.ok (q, json) →
      processUnverifiedStackTraces heap p = Result.ok q ∧
      ∃ names : List (List String),
        List.Forall₂
          (fun t ns =>
            List.Forall₂
              (fun f n =>
                displayName heap f = Result.ok n ∧
                f.frameType ≠ FrameType.UnverifiedCallee ∧
                (n ∈ categoryLabels ∨
                  (f.frameType = FrameType.VerifiedExecutable ∧
                    (heap.executables f.u).isFunctionExecutable = true ∧
                    n = (heap.executables f.u).inferredName ∧ n.isEmpty = false)))
              t.frames ns)
          q.m_stackTraces names ∧
        json = specReport names) ∧
    (∀ (f : StackFrame) (s : String), displayName heap f = Result.ok s →
      f.frameType ≠ FrameType.UnverifiedCallee ∧
      (s ∈ categoryLabels ∨
        (s = (heap.executables f.u).inferredName ∧ s.isEmpty = false))) := by
  have hw := reachable_wellFormed p hp
  refine ⟨?_, ?_, ?_⟩
  · intro q h
    have hq : WellFormed q :=
      run_wellFormed (Op.processUnverifiedStackTraces heap) p q hw rfl h
    have hidx := processUnverifiedStackTraces_index heap p q h
    have hno : ∀ t ∈ q.m_stackTraces, ∀ f ∈ t.frames,
        f.frameType ≠ FrameType.UnverifiedCallee := by
      intro t ht
      have hflag : t.needsVerification = false := by
        refine hq.store.verified_below t ?_
        rw [hidx, List.take_length]
        exact ht
      exact hq.store.no_unverified t ht hflag
    refine ⟨hno, fun hk => ?_⟩
    obtain ⟨r, hr⟩ := appendTraces_returns heap q.m_stackTraces ("[", false)
      fun t ht f hf => ⟨hno t ht f hf, hk t ht f hf⟩
    simp only [stacktracesAsJSON, h, hr, Result.bind]
    exact ⟨_, rfl⟩
  · intro q json h
    have hq := stacktracesAsJSON_state heap p q json h
    refine ⟨hq, ?_⟩
    unfold stacktracesAsJSON at h
    simp only [Result.bind_eq_ok] at h
    obtain ⟨p1, h1, s, h2, h3⟩ := h
    rw [hq] at h1
    simp only [Result.ok.injEq, Prod.mk.injEq] at h1 h3
    subst h1
    obtain ⟨names, hrel, hs⟩ := appendTraces_eq_ok heap q.m_stackTraces _ s h2
    refine ⟨names, forall₂_imp_mem hrel ?_, ?_⟩
    · intro t _ ns hfr
      refine forall₂_imp_mem hfr ?_
      intro f _ n hn
      exact ⟨hn, displayName_eq_ok heap f n hn⟩
    · rw [← h3.2, hs, commaSeq_false]
      rfl
  · intro f s h
    obtain ⟨h1, h2⟩ := displayName_eq_ok heap f s h
    refine ⟨h1, ?_⟩
    rcases h2 with h2 | ⟨-, -, h3, h4⟩
    · exact Or.inl h2
    · exact Or.inr ⟨h3, h4⟩

set_option maxRecDepth 100000 in
theorem stacktracesAsJSON_emits_labels_witness :
    stacktracesAsJSON exampleHeap exampleSampled =
      Result.ok (exampleVerified, "[[\"f\",\"<host>\",\"<unknown>\",\"<host>\",\"<unknown>\"]]") ∧
    ∃ names : List (List String),
      List.Forall₂
        (fun t ns =>
          List.Forall₂
            (fun f n =>
              displayName exampleHeap f = Result.ok n ∧
              f.frameType ≠ FrameType.UnverifiedCallee ∧
              (n ∈ categoryLabels ∨
                (f.frameType = FrameType.VerifiedExecutable ∧
                  (exampleHeap.executables f.u).isFunctionExecutable = true ∧
                  n = (exampleHeap.executables f.u).inferredName ∧ n.isEmpty = false)))
            t.frames ns)
        exampleVerified.m_stackTraces names ∧
      "[[\"f\",\"<host>\",\"<unknown>\",\"<host>\",\"<unknown>\"]]" = specReport names :=
  have hrun : stacktracesAsJSON exampleHeap exampleSampled =
      Result.ok (exampleVerified,
        "[[\"f\",\"<host>\",\"<unknown>\",\"<host>\",\"<unknown>\"]]") := by decide
  ⟨hrun,
    ((stacktracesAsJSON_emits_labels exampleHeap exampleSampled exampleSampled_reachable).2.1
      exampleVerified _ hrun).2⟩

end JSC
